import Mathlib

/-!
# A shallow embedding of qjson-c (`src/qjson.c`)

This file embeds the qjson → JSON decoder of `qjson.c` in Lean 4 and proves
properties of it.  The input is modelled as a list of bytes (`List Nat`, each
entry a byte value 0‑255; the C entry point receives a NUL-terminated string,
so the list is the sequence of bytes before the NUL).  Machine integers are
modelled as `Nat`/`Int` with explicit `% 2 ^ 64` where the C source relies on
`uint64_t` wrap-around; `double` values are modelled as exact rationals `ℚ`
(all claims proved below only exercise values on which IEEE‑754 binary64
arithmetic is exact).

Loops of the C source are embedded as structural recursion on an internal
fuel argument that is initialised from the length of the remaining input at
the loop entry; every loop iteration of the source consumes at least one
byte of input, so the fuel never runs out on any execution that the C code
performs.  Where a function can fail, fuel exhaustion is reported through a
dedicated sentinel message (`ErrMsg.fuelExhausted`) that cannot collide with
any message of the source.
-/

namespace QJson

/-- Bytes of an ASCII string literal (used only with ASCII text). -/
def asciiBytes (s : String) : List Nat := s.data.map Char.toNat

/-- The static error message strings of `qjson.c`, one constructor per
`ErrXXX` constant.  The C source distinguishes them by pointer identity;
we distinguish them by constructor. `fuelExhausted` is the fuel sentinel
described in the file header and corresponds to no C message. -/
inductive ErrMsg where
  | endOfInput
  | invalidChar
  | truncatedChar
  | syntaxError
  | unclosedDoubleQuoteString
  | unclosedSingleQuoteString
  | unclosedSlashStarComment
  | newlineInDoubleQuoteString
  | newlineInSingleQuoteString
  | expectStringIdentifier
  | expectColon
  | invalidValueType
  | maxObjectArrayDepth
  | unclosedObject
  | unclosedArray
  | unexpectedEndOfInput
  | expectIdentifierAfterComma
  | expectValueAfterComma
  | invalidEscapeSequence
  | invalidNumericExpression
  | invalidBinaryNumber
  | invalidHexadecimalNumber
  | invalidOctalNumber
  | invalidIntegerNumber
  | invalidDecimalNumber
  | numberOverflow
  | unopenedParenthesis
  | divisionByZero
  | unclosedParenthesis
  | operandMustBeInteger
  | operandsMustBeInteger
  | marginMustBeWhitespaceOnly
  | unclosedMultiline
  | invalidMarginChar
  | missingNewlineSpecifier
  | invalidNewlineSpecifier
  | invalidMultilineStart
  | unexpectedCloseBrace
  | unexpectedCloseSquare
  | invalidISODateTime
  | fuelExhausted
  deriving DecidableEq, Repr

/-- The text of each message, exactly as in the C source (including the
`squence` typo of `ErrInvalidEscapeSequence`). -/
def ErrMsg.bytes : ErrMsg → List Nat
  | .endOfInput => asciiBytes "end of input"
  | .invalidChar => asciiBytes "invalid character"
  | .truncatedChar => asciiBytes "last utf8 char is truncated"
  | .syntaxError => asciiBytes "syntax error"
  | .unclosedDoubleQuoteString => asciiBytes "unclosed double quote string"
  | .unclosedSingleQuoteString => asciiBytes "unclosed single quote string"
  | .unclosedSlashStarComment => asciiBytes "unclosed /*...*/ comment"
  | .newlineInDoubleQuoteString => asciiBytes "newline in double quoted string"
  | .newlineInSingleQuoteString => asciiBytes "newline in single quoted string"
  | .expectStringIdentifier => asciiBytes "expect string identifier"
  | .expectColon => asciiBytes "expect a colon"
  | .invalidValueType => asciiBytes "invalid value type"
  | .maxObjectArrayDepth => asciiBytes "too many object or array encapsulations"
  | .unclosedObject => asciiBytes "unclosed object"
  | .unclosedArray => asciiBytes "unclosed array"
  | .unexpectedEndOfInput => asciiBytes "unexpected end of input"
  | .expectIdentifierAfterComma => asciiBytes "expect identifier after comma"
  | .expectValueAfterComma => asciiBytes "expect value after comma"
  | .invalidEscapeSequence => asciiBytes "invalid escape squence"
  | .invalidNumericExpression => asciiBytes "invalid numeric expression"
  | .invalidBinaryNumber => asciiBytes "invalid binary number"
  | .invalidHexadecimalNumber => asciiBytes "invalid hexadecimal number"
  | .invalidOctalNumber => asciiBytes "invalid octal number"
  | .invalidIntegerNumber => asciiBytes "invalid integer number"
  | .invalidDecimalNumber => asciiBytes "invalid decimal number"
  | .numberOverflow => asciiBytes "number overflow"
  | .unopenedParenthesis => asciiBytes "missing open parenthesis"
  | .divisionByZero => asciiBytes "division by zero"
  | .unclosedParenthesis => asciiBytes "missing close parenthesis"
  | .operandMustBeInteger => asciiBytes "operand must be integer"
  | .operandsMustBeInteger => asciiBytes "operands must be integer"
  | .marginMustBeWhitespaceOnly => asciiBytes "multiline margin must contain only whitespaces"
  | .unclosedMultiline => asciiBytes "unclosed multiline"
  | .invalidMarginChar => asciiBytes "invalid margin character"
  | .missingNewlineSpecifier => asciiBytes "missing \\n or \\r\\n after multiline start"
  | .invalidNewlineSpecifier => asciiBytes "expect \\n or \\r\\n after `"
  | .invalidMultilineStart => asciiBytes "invalid multiline start line"
  | .unexpectedCloseBrace => asciiBytes "unexpected \x7d"
  | .unexpectedCloseSquare => asciiBytes "unexpected ]"
  | .invalidISODateTime => asciiBytes "invalid ISO date time"
  | .fuelExhausted => asciiBytes "fuel exhausted"

/-- Token tags, mirroring `enum tokenTag_t`. -/
inductive Tag where
  | unknown | error | integerVal | decimalVal
  | plus | minus | multiplication | division
  | xor | and | or | inverse | modulo
  | openParen | closeParen
  | weeks | days | hours | minutes | seconds
  | openBrace | closeBrace | openSquare | closeSquare
  | colon | quotelessString | doubleQuotedString | singleQuotedString
  | multilineString | comma
  deriving DecidableEq, Repr

/-- A position in the input (`pos_t`): byte index, byte index of the start of
the current line, and 0-based line number. -/
structure Pos where
  b : Nat
  s : Nat
  l : Nat
  deriving DecidableEq, Repr

/-- The payload of a token (`token_t.val`): nothing (delimiters), a slice of
the input given by start index and byte length, or for error tokens the
message (the C source stores the message string in the slice). -/
inductive TokenVal where
  | nothing
  | str (start len : Nat)
  | emsg (m : ErrMsg)
  deriving DecidableEq, Repr

/-- A token (`token_t`). -/
structure Token where
  tag : Tag
  pos : Pos
  val : TokenVal
  deriving DecidableEq, Repr

/-- The part of `engine_t` used by the tokenizer: the input, the text left to
parse (`e->p`) and the position of the text left to parse (`e->pos`).
The C source maintains the invariant that `p` is the suffix of `input`
starting at byte index `b`. -/
structure Scan where
  input : List Nat
  p : List Nat
  b : Nat
  s : Nat
  l : Nat
  deriving DecidableEq, Repr

def Scan.pos (sc : Scan) : Pos := ⟨sc.b, sc.s, sc.l⟩

/-- An error value (`error_t`): a position and a message. -/
abbrev QErr := Pos × ErrMsg

/-- `whitespace`: byte length of the whitespace in front of `p`
(space, tab, or the UTF-8 encoding C2 A0 of NBSP). -/
def whitespace : List Nat → Nat
  | [] => 0
  | c :: rest =>
    if c = 32 ∨ c = 9 then 1
    else
      match rest with
      | c2 :: _ => if c = 0xC2 ∧ c2 = 0xA0 then 2 else 0
      | [] => 0

/-- `newline`: byte length of the newline in front of `p` (LF or CRLF). -/
def newline : List Nat → Nat
  | [] => 0
  | c :: rest =>
    if c = 10 then 1
    else
      match rest with
      | c2 :: _ => if c = 13 ∧ c2 = 10 then 2 else 0
      | [] => 0

/-- `popBytes`: remove `n` bytes from the front of `p`. -/
def popB (sc : Scan) (n : Nat) : Scan :=
  { sc with p := sc.p.drop n, b := sc.b + n }

/-- `popNewline`: `none` if there is no newline in front of `p`, otherwise the
state after removing the newline and updating the line tracking. -/
def popNewline (sc : Scan) : Option Scan :=
  let n := newline sc.p
  if n = 0 then none
  else
    let sc1 := popB sc n
    some { sc1 with s := sc1.b, l := sc1.l + 1 }

/-- The 256-entry lead-byte classification table `utf8Table`, written as
ranges.  Values are the `sN` codes of the source: low nibble = byte length,
high nibble = continuation-range rule. Indices outside 0‑255 (which no byte
can produce) classify as invalid. -/
def utf8Table (c : Nat) : Nat :=
  if c = 9 then 0x01
  else if c < 0x20 then 0x00
  else if c < 0x80 then 0x01
  else if c < 0xC2 then 0x00
  else if c < 0xE0 then 0x12
  else if c = 0xE0 then 0x23
  else if c ≤ 0xEC then 0x13
  else if c = 0xED then 0x33
  else if c ≤ 0xEF then 0x13
  else if c = 0xF0 then 0x44
  else if c ≤ 0xF3 then 0x14
  else if c = 0xF4 then 0x54
  else 0x00

/-- The `utf8Range` table of second-byte bounds, indexed by `2 * rule`. -/
def utf8Range (i : Nat) : Nat :=
  match i with
  | 2 => 0x80
  | 3 => 0xBF
  | 4 => 0xA0
  | 5 => 0xBF
  | 6 => 0x80
  | 7 => 0x9F
  | 8 => 0x90
  | 9 => 0xBF
  | _ => 0

/-- `char`/`charX`: byte length of the UTF-8 char in front of `p` (0 at end of
input), or an error.  Note: for the third and fourth continuation byte the C
source compares a plain (signed) `char` against `utf8hi = 0xBF`, so the
upper-bound test can never be true; only the `< 0x80` lower-bound test is
live, and the embedding mirrors that. -/
def qchar (sc : Scan) : Except QErr Nat :=
  match sc.p with
  | [] => .ok 0
  | c :: rest =>
    let x := utf8Table c
    if x = 0x01 then .ok 1
    else if x = 0x00 then .error (sc.pos, .invalidChar)
    else
      let n := x % 16
      if sc.p.length < n then .error (sc.pos, .truncatedChar)
      else
        let b2 := rest.headD 0
        let r := x / 16 * 2
        if b2 < utf8Range r ∨ utf8Range (r + 1) < b2 then .error (sc.pos, .invalidChar)
        else if 3 ≤ n ∧ rest.getD 1 0 < 0x80 then .error (sc.pos, .invalidChar)
        else if n = 4 ∧ rest.getD 2 0 < 0x80 then .error (sc.pos, .invalidChar)
        else .ok n

/-- Loop of `column`, counting UTF-8 chars. -/
def columnLoop : Nat → List Nat → Nat → Nat
  | 0, _, cnt => cnt
  | _ + 1, [], cnt => cnt
  | fuel + 1, c :: rest, cnt =>
    let n := utf8Table c % 16
    if n = 0 ∨ (c :: rest).length < n then cnt
    else columnLoop fuel ((c :: rest).drop n) (cnt + 1)

/-- `column`: the number of UTF-8 chars in `p`. -/
def column (p : List Nat) : Nat := columnLoop (p.length + 1) p 0

/-- Loop of `skipRestOfLine`. -/
def skipRestOfLineLoop : Nat → Scan → Except QErr Scan
  | 0, sc => .error (sc.pos, .fuelExhausted)
  | fuel + 1, sc =>
    match popNewline sc with
    | some sc1 => .ok sc1
    | none =>
      if sc.p = [] then .ok sc
      else
        match qchar sc with
        | .error er => .error er
        | .ok n => skipRestOfLineLoop fuel (popB sc n)

/-- `skipRestOfLine`: pop all chars until a newline or the end of input. -/
def skipRestOfLine (sc : Scan) : Except QErr Scan :=
  skipRestOfLineLoop (sc.p.length + 1) sc

/-- `skipLineComment`: skip a `#...` or `//...` comment including its newline.
Returns whether a comment was skipped. -/
def skipLineComment (sc : Scan) : Except QErr (Bool × Scan) :=
  match sc.p with
  | [] => .ok (false, sc)
  | c :: rest =>
    if c = 35 ∨ (c = 47 ∧ rest.headD 0 = 47) then
      match skipRestOfLine sc with
      | .error er => .error er
      | .ok sc1 => .ok (true, sc1)
    else .ok (false, sc)

/-- Loop of `skipMultilineComment`, after the opening marker was popped. -/
def skipMultilineCommentLoop (startPos : Pos) : Nat → Scan → Except QErr Scan
  | 0, sc => .error (sc.pos, .fuelExhausted)
  | fuel + 1, sc =>
    match sc.p with
    | [] => .error (startPos, .unclosedSlashStarComment)
    | c :: rest =>
      if c = 42 ∧ rest.headD 0 = 47 then .ok (popB sc 2)
      else
        match popNewline sc with
        | some sc1 => skipMultilineCommentLoop startPos fuel sc1
        | none =>
          if c < 0x20 then skipMultilineCommentLoop startPos fuel (popB sc 1)
          else
            match qchar sc with
            | .error er => .error er
            | .ok n => skipMultilineCommentLoop startPos fuel (popB sc n)

/-- `skipMultilineComment`: skip a `/*...*/` comment.  Returns whether a
comment was skipped. -/
def skipMultilineComment (sc : Scan) : Except QErr (Bool × Scan) :=
  match sc.p with
  | c :: c2 :: _ =>
    if c = 47 ∧ c2 = 42 then
      match skipMultilineCommentLoop sc.pos (sc.p.length + 1) (popB sc 2) with
      | .error er => .error er
      | .ok sc1 => .ok (true, sc1)
    else .ok (false, sc)
  | _ => .ok (false, sc)

/-- Loop of `skipWhitespaces`. -/
def skipWhitespacesLoop : Nat → Scan → Scan
  | 0, sc => sc
  | fuel + 1, sc =>
    let n := whitespace sc.p
    if n = 0 then sc else skipWhitespacesLoop fuel (popB sc n)

/-- `skipWhitespaces`: skip all whitespace characters. -/
def skipWhitespaces (sc : Scan) : Scan := skipWhitespacesLoop (sc.p.length + 1) sc

/-- Loop of `skipSpaces`. -/
def skipSpacesLoop : Nat → Scan → Except QErr Scan
  | 0, sc => .error (sc.pos, .fuelExhausted)
  | fuel + 1, sc =>
    if sc.p = [] then .ok sc
    else
      let sc1 := skipWhitespaces sc
      match skipLineComment sc1 with
      | .error er => .error er
      | .ok (true, sc2) => skipSpacesLoop fuel sc2
      | .ok (false, _) =>
        match skipMultilineComment sc1 with
        | .error er => .error er
        | .ok (true, sc2) => skipSpacesLoop fuel sc2
        | .ok (false, _) =>
          match popNewline sc1 with
          | some sc2 => skipSpacesLoop fuel sc2
          | none => .ok sc1

/-- `skipSpaces`: skip whitespace, comments and newlines. -/
def skipSpaces (sc : Scan) : Except QErr Scan :=
  skipSpacesLoop (sc.p.length + 1) sc

/-- `isIntDigit`. -/
def isIntDigit (c : Nat) : Bool := 48 ≤ c ∧ c ≤ 57

/-- `parseISODateTimeLiteral`: 0 if `v` does not start with an ISO date,
-1 if it starts like one but is invalid, otherwise the byte length of the
ISO date-time literal at the front of `v`. -/
def parseISODateTimeLiteral (v0 : List Nat) : Int :=
  if v0.length < 11 ∨ v0.getD 10 0 ≠ 84 ∨ v0.getD 4 0 ≠ 45 ∨ v0.getD 7 0 ≠ 45 ∨
      ¬(isIntDigit (v0.getD 0 0) ∧ isIntDigit (v0.getD 1 0) ∧ isIntDigit (v0.getD 2 0) ∧
        isIntDigit (v0.getD 3 0) ∧ isIntDigit (v0.getD 5 0) ∧ isIntDigit (v0.getD 6 0) ∧
        isIntDigit (v0.getD 8 0) ∧ isIntDigit (v0.getD 9 0)) then 0
  else
    let v1 := v0.drop 11
    if v1 = [] then 11
    else if v1.length < 5 ∨ v1.getD 2 0 ≠ 58 ∨
        ¬(isIntDigit (v1.getD 0 0) ∧ isIntDigit (v1.getD 1 0) ∧
          isIntDigit (v1.getD 3 0) ∧ isIntDigit (v1.getD 4 0)) then -1
    else
      let v2 := v1.drop 5
      if v2 = [] then 16
      else if v2.headD 0 = 90 then 17
      else if v2.headD 0 ≠ 58 then 16
      else if v2.length < 3 ∨ ¬(isIntDigit (v2.getD 1 0) ∧ isIntDigit (v2.getD 2 0)) then -1
      else
        let v3 := v2.drop 3
        if v3 = [] then 19
        else if v3.headD 0 = 90 then 20
        else if v3.headD 0 ≠ 46 ∧ v3.headD 0 ≠ 43 ∧ v3.headD 0 ≠ 45 then 19
        else
          let fr : Option (Nat × List Nat) :=
            if v3.headD 0 = 46 then
              let v4 := v3.drop 1
              let pCnt := (v4.takeWhile (fun c => isIntDigit c)).length
              if pCnt ≠ 6 ∧ pCnt ≠ 3 then none
              else some (20 + pCnt, v4.drop pCnt)
            else some (19, v3)
          match fr with
          | none => -1
          | some (n, v5) =>
            if v5 = [] then (n : Int)
            else if v5.headD 0 = 90 then (n : Int) + 1
            else if v5.headD 0 ≠ 43 ∧ v5.headD 0 ≠ 45 then (n : Int)
            else
              let v6 := v5.drop 1
              if v6.length < 5 ∨ v6.getD 2 0 ≠ 58 ∨
                  ¬(isIntDigit (v6.getD 0 0) ∧ isIntDigit (v6.getD 1 0) ∧
                    isIntDigit (v6.getD 3 0) ∧ isIntDigit (v6.getD 4 0)) then -1
              else (n : Int) + 1 + 5

/-- `lenISODateTime`: called while scanning a quoteless string when the front
byte is a colon; tests whether the colon is the 14th byte of an ISO
date-time that started 13 bytes back, and if so returns the number of bytes
of the date-time that are still in front of `p`. -/
def lenISODateTime (sc : Scan) : Nat :=
  if sc.p.headD 0 = 58 ∧ 13 ≤ sc.b then
    let n := parseISODateTimeLiteral (sc.input.drop (sc.b - 13))
    if 13 < n then (n - 13).toNat else 0
  else 0

/-- The `stopByte` table of `quotelessString`. -/
def stopByte (c : Nat) : Bool :=
  c = 10 ∨ c = 13 ∨ c = 35 ∨ c = 44 ∨ c = 47 ∨ c = 58 ∨ c = 91 ∨ c = 93 ∨ c = 123 ∨ c = 125

/-- Loop of `quotelessString`. `endIdx` is the byte index one past the last
non-whitespace byte seen so far. -/
def quotelessStringLoop (startB : Nat) :
    Nat → Scan → Nat → Except QErr (Option (Nat × Nat) × Scan)
  | 0, sc, _ => .error (sc.pos, .fuelExhausted)
  | fuel + 1, sc, endIdx =>
    match sc.p with
    | [] => .ok (if startB = endIdx then none else some (startB, endIdx - startB), sc)
    | c :: rest =>
      if whitespace sc.p ≠ 0 then
        quotelessStringLoop startB fuel (skipWhitespaces sc) endIdx
      else if stopByte c ∧ ((c = 47 ∧ (rest.headD 0 = 47 ∨ rest.headD 0 = 42) ∧ rest ≠ []) ∨
          newline sc.p ≠ 0 ∨ (c ≠ 13 ∧ c ≠ 47)) then
        let n := lenISODateTime sc
        if n = 0 then
          .ok (if startB = endIdx then none else some (startB, endIdx - startB), sc)
        else
          let sc1 := popB sc n
          quotelessStringLoop startB fuel sc1 sc1.b
      else
        match qchar sc with
        | .error er => .error er
        | .ok n =>
          let sc1 := popB sc n
          quotelessStringLoop startB fuel sc1 sc1.b

/-- `quotelessString`: scan a quoteless string; the result slice is
right-trimmed of whitespace; `none` when the quoteless string is empty. -/
def quotelessString (sc : Scan) : Except QErr (Option (Nat × Nat) × Scan) :=
  quotelessStringLoop sc.b (sc.p.length + 1) sc sc.b

/-- Shared loop of `doubleQuotedString` and `singleQuotedString` (the two C
functions are identical up to the quote byte `qu` and the two error
messages). -/
def quotedStringLoop (qu : Nat) (uncMsg nlMsg : ErrMsg) (startPos : Pos) :
    Nat → Scan → Except QErr (Option (Nat × Nat) × Scan)
  | 0, sc => .error (sc.pos, .fuelExhausted)
  | fuel + 1, sc =>
    match sc.p with
    | [] => .error (startPos, uncMsg)
    | c :: rest =>
      if c = 92 ∧ rest.headD 0 = qu then
        quotedStringLoop qu uncMsg nlMsg startPos fuel (popB sc 2)
      else if c = qu then
        let sc1 := popB sc 1
        .ok (some (startPos.b, sc1.b - startPos.b), sc1)
      else if newline sc.p ≠ 0 then .error (startPos, nlMsg)
      else
        match qchar sc with
        | .error er => .error er
        | .ok n => quotedStringLoop qu uncMsg nlMsg startPos fuel (popB sc n)

/-- `doubleQuotedString`: scan a double quoted string.  The result slice
includes the surrounding quotes; `none` when `p` does not start with `"`. -/
def doubleQuotedString (sc : Scan) : Except QErr (Option (Nat × Nat) × Scan) :=
  match sc.p with
  | c :: _ =>
    if c = 34 then
      quotedStringLoop 34 .unclosedDoubleQuoteString .newlineInDoubleQuoteString sc.pos
        (sc.p.length + 1) (popB sc 1)
    else .ok (none, sc)
  | [] => .ok (none, sc)

/-- `singleQuotedString`: scan a single quoted string, symmetric to
`doubleQuotedString` with quote byte 39. -/
def singleQuotedString (sc : Scan) : Except QErr (Option (Nat × Nat) × Scan) :=
  match sc.p with
  | c :: _ =>
    if c = 39 then
      quotedStringLoop 39 .unclosedSingleQuoteString .newlineInSingleQuoteString sc.pos
        (sc.p.length + 1) (popB sc 1)
    else .ok (none, sc)
  | [] => .ok (none, sc)

/-- `matchingMarginLength`: the index of the first byte of `line` that
differs from `margin`, capped at the length of either (the C loop compares
up to `min` of the lengths and returns the first mismatch index). -/
def matchingMarginLength : List Nat → List Nat → Nat
  | m :: ms, c :: cs => if c = m then matchingMarginLength ms cs + 1 else 0
  | _, _ => 0

/-- `newlineSpecifier`: length of the literal `\n` (2) or `\r\n` (4) spelled
at the front of `p`, else 0. -/
def newlineSpecifier (p : List Nat) : Nat :=
  if p.headD 0 = 92 then
    if p.getD 1 0 = 110 then 2
    else if p.getD 1 0 = 114 ∧ p.getD 2 0 = 92 ∧ p.getD 3 0 = 110 then 4
    else 0
  else 0

/-- Loop of `getMargin`. -/
def getMarginLoop : Nat → List Nat → Nat → Nat
  | 0, _, b => b
  | fuel + 1, p, b =>
    let n := whitespace p
    if n = 0 then b else getMarginLoop fuel (p.drop n) (b + n)

/-- `getMargin`: index in `p` of the end of the whitespace margin. -/
def getMargin (p : List Nat) : Nat := getMarginLoop (p.length + 1) p 0

/-- Loop of `multilineString`, scanning the body lines. -/
def multilineStringLoop (margin : List Nat) (startPos : Pos) :
    Nat → Scan → Except QErr (Option (Nat × Nat) × Scan)
  | 0, sc => .error (sc.pos, .fuelExhausted)
  | fuel + 1, sc =>
    match sc.p with
    | [] => .error (startPos, .unclosedMultiline)
    | c :: _ =>
      match popNewline sc with
      | some sc1 =>
        let n := matchingMarginLength margin sc1.p
        if n ≠ margin.length then .error (⟨sc1.b + n, sc1.s, sc1.l⟩, .invalidMarginChar)
        else multilineStringLoop margin startPos fuel (if 0 < n then popB sc1 n else sc1)
      | none =>
        if c < 0x20 then multilineStringLoop margin startPos fuel (popB sc 1)
        else if c = 96 then
          let sc1 := popB sc 1
          if sc1.p = [] ∨ sc1.p.headD 0 ≠ 92 then
            .ok (some (startPos.s, sc1.b - startPos.s), sc1)
          else multilineStringLoop margin startPos fuel sc1
        else
          match qchar sc with
          | .error er => .error er
          | .ok n => multilineStringLoop margin startPos fuel (popB sc n)

/-- `multilineString`: scan a multiline string (opened by a back-tick, byte
96).  The result slice starts at the margin of the opening line and runs
through the closing back-tick. -/
def multilineString (sc : Scan) : Except QErr (Option (Nat × Nat) × Scan) :=
  match sc.p with
  | [] => .ok (none, sc)
  | c :: _ =>
    if c ≠ 96 then .ok (none, sc)
    else
      let lineSoFar := (sc.input.drop sc.s).take (sc.b - sc.s)
      let bEnd := getMargin lineSoFar + sc.s
      if bEnd ≠ sc.b then .error (⟨bEnd, sc.s, sc.l⟩, .marginMustBeWhitespaceOnly)
      else
        let margin := lineSoFar
        let startPos := sc.pos
        let sc1 := skipWhitespaces (popB sc 1)
        if sc1.p = [] then .error (startPos, .missingNewlineSpecifier)
        else
          let n := newlineSpecifier sc1.p
          if n = 0 then .error (startPos, .invalidNewlineSpecifier)
          else
            let sc2 := skipWhitespaces (popB sc1 n)
            let afterNl : Except QErr Scan :=
              match popNewline sc2 with
              | some sc3 => .ok sc3
              | none =>
                match skipLineComment sc2 with
                | .error er => .error er
                | .ok (true, sc3) => .ok sc3
                | .ok (false, _) => .error (startPos, .invalidMultilineStart)
            match afterNl with
            | .error er => .error er
            | .ok sc3 =>
              if sc3.p = [] then .error (startPos, .unclosedMultiline)
              else
                let n2 := matchingMarginLength margin sc3.p
                if n2 ≠ margin.length then
                  .error (⟨sc3.b + n2, sc3.s, sc3.l⟩, .invalidMarginChar)
                else
                  let sc4 := popB sc3 n2
                  multilineStringLoop margin startPos (sc4.p.length + 1) sc4

/-- The `tkTagTable` of single-byte delimiters. -/
def tkTagTable (c : Nat) : Tag :=
  if c = 44 then .comma
  else if c = 58 then .colon
  else if c = 91 then .openSquare
  else if c = 93 then .closeSquare
  else if c = 123 then .openBrace
  else if c = 125 then .closeBrace
  else .unknown

/-- `delimiter`: the delimiter tag (popping the byte) or `Tag.unknown`. -/
def delimiter (sc : Scan) : Tag × Scan :=
  let tag := tkTagTable (sc.p.headD 0)
  if tag = .unknown then (tag, sc) else (tag, popB sc 1)

/-- Build an error token from an error value. -/
def errTk (q : QErr) : Token := { tag := .error, pos := q.1, val := .emsg q.2 }

/-- The body of `nextToken` after the error-state early return: produce the
next token.  `none` corresponds to the trailing `assert(false)` of the C
source (shown unreachable below).  On an error the C source leaves the
partially advanced scan position in the engine; nothing ever reads it again
(the token carries the error position and all further `nextToken` calls are
no-ops), so the embedding returns the entry scan state in that case. -/
def nextTokenCore (sc : Scan) : Option (Token × Scan) :=
  match skipSpaces sc with
  | .error q => some (errTk q, sc)
  | .ok sc1 =>
    if sc1.p = [] then some ({ tag := .error, pos := sc1.pos, val := .emsg .endOfInput }, sc1)
    else
      let tokenPos := sc1.pos
      match delimiter sc1 with
      | (.unknown, _) =>
        match doubleQuotedString sc1 with
        | .error q => some (errTk q, sc1)
        | .ok (some (st, ln), sc2) =>
          some ({ tag := .doubleQuotedString, pos := tokenPos, val := .str st ln }, sc2)
        | .ok (none, _) =>
          match singleQuotedString sc1 with
          | .error q => some (errTk q, sc1)
          | .ok (some (st, ln), sc2) =>
            some ({ tag := .singleQuotedString, pos := tokenPos, val := .str st ln }, sc2)
          | .ok (none, _) =>
            match multilineString sc1 with
            | .error q => some (errTk q, sc1)
            | .ok (some (st, ln), sc2) =>
              some ({ tag := .multilineString, pos := tokenPos, val := .str st ln }, sc2)
            | .ok (none, _) =>
              match quotelessString sc1 with
              | .error q => some (errTk q, sc1)
              | .ok (some (st, ln), sc2) =>
                some ({ tag := .quotelessString, pos := tokenPos, val := .str st ln }, sc2)
              | .ok (none, _) => none
      | (tag, sc2) => some ({ tag := tag, pos := tokenPos, val := .nothing }, sc2)

/-! ## Numeric tokenizer (`numTokenizer` of the C source) -/

/-- An exact rational as an unnormalised numerator/denominator pair; this is
the model of the C `double` (see the file header).  Every construction in
this file keeps `0 < d`.  An unnormalised pair (rather than `ℚ`) is used so
that all arithmetic reduces inside the Lean kernel. -/
structure Frac where
  n : Int
  d : Nat
  deriving DecidableEq, Repr

def Frac.ofInt (i : Int) : Frac := ⟨i, 1⟩
def Frac.add (a b : Frac) : Frac := ⟨a.n * b.d + b.n * a.d, a.d * b.d⟩
def Frac.sub (a b : Frac) : Frac := ⟨a.n * b.d - b.n * a.d, a.d * b.d⟩
def Frac.mul (a b : Frac) : Frac := ⟨a.n * b.n, a.d * b.d⟩
def Frac.neg (a : Frac) : Frac := ⟨-a.n, a.d⟩
/-- Exact division; callers test for a zero divisor first. -/
def Frac.div (a b : Frac) : Frac :=
  if b.n < 0 then ⟨-(a.n * b.d), a.d * b.n.natAbs⟩ else ⟨a.n * b.d, a.d * b.n.natAbs⟩
def Frac.isZero (a : Frac) : Bool := a.n = 0
def Frac.isNeg (a : Frac) : Bool := a.n < 0
/-- The rational value represented (used only in statements, not by the
embedded code). -/
def Frac.toQ (a : Frac) : ℚ := (a.n : ℚ) / (a.d : ℚ)

/-- The payload of a numeric token: an `int64_t`, a `double` (modelled as an
exact rational, see the file header), or an error message. -/
inductive NumVal where
  | i (v : Int)
  | f (v : Frac)
  | e (m : ErrMsg)
  deriving DecidableEq, Repr

/-- A numeric token (`numToken_t`); `pos` is a byte offset inside the
quoteless expression. -/
structure NumToken where
  tag : Tag
  pos : Nat
  val : NumVal
  deriving DecidableEq, Repr

/-- The numeric engine (`numEngine_t`); the C source also stores the whole
input slice `in`, which is never read after initialisation. -/
structure NumEngine where
  p : List Nat
  pos : Nat
  tk : NumToken
  deriving Repr

/-- `numPopBytes`. -/
def numPopB (e : NumEngine) (n : Nat) : NumEngine :=
  { e with p := e.p.drop n, pos := e.pos + n }

/-- The `tkOpTable` of operator bytes. -/
def tkOpTable (c : Nat) : Tag :=
  if c = 37 then .modulo
  else if c = 38 then .and
  else if c = 40 then .openParen
  else if c = 41 then .closeParen
  else if c = 42 then .multiplication
  else if c = 43 then .plus
  else if c = 45 then .minus
  else if c = 47 then .division
  else if c = 94 then .xor
  else if c = 100 then .days
  else if c = 104 then .hours
  else if c = 109 then .minutes
  else if c = 115 then .seconds
  else if c = 119 then .weeks
  else if c = 124 then .or
  else if c = 126 then .inverse
  else .unknown

/-- `nextOperator`: set the token and pop the byte when `p` starts with an
operator. -/
def nextOperator (e : NumEngine) : Option NumEngine :=
  let x := tkOpTable (e.p.headD 0)
  if x = .unknown then none
  else some (numPopB { e with tk := ⟨x, e.pos, .i 0⟩ } 1)

/-- `skipHeaderAndOptionalUnderscore`: skip `n` header bytes and an optional
underscore; `none` when the end of `v` is reached. -/
def skipHeaderAndOptionalUnderscore (n : Nat) (v : List Nat) : Option (Nat × List Nat) :=
  if v.length ≤ n then none
  else
    let v1 := v.drop n
    if v1.headD 0 = 95 then
      let v2 := v1.drop 1
      if v2 = [] then none else some (n + 1, v2)
    else some (n, v1)

def isBinDigit (c : Nat) : Bool := c = 48 ∨ c = 49
def isOctDigit (c : Nat) : Bool := 48 ≤ c ∧ c ≤ 55
def isHexDigit (c : Nat) : Bool := isIntDigit c ∨ (65 ≤ c.land 0xDF ∧ c.land 0xDF ≤ 70)

/-- Loop shared by `parseBinDigits`/`parseOctDigits`/`parseIntDigits`/
`parseHexDigits` (four identical C functions up to the digit predicate):
scan a digit run with single underscores allowed between digits.  `cnt` is
the number of bytes consumed so far. -/
def parseDigitsRunLoop (isDig : Nat → Bool) : Nat → List Nat → Nat → Int
  | 0, _, cnt => cnt
  | _ + 1, [], cnt => cnt
  | fuel + 1, c :: rest, cnt =>
    if c = 95 then
      match rest with
      | [] => -1
      | d :: rest2 => if isDig d then parseDigitsRunLoop isDig fuel rest2 (cnt + 2) else -1
    else if isDig c then parseDigitsRunLoop isDig fuel rest (cnt + 1)
    else cnt

/-- Number of bytes of the digit run at the front of `v` (0 when the first
byte is not a digit, -1 on a misplaced underscore). -/
def parseDigitsRun (isDig : Nat → Bool) (v : List Nat) : Int :=
  match v with
  | [] => 0
  | c :: rest => if isDig c then parseDigitsRunLoop isDig (rest.length + 1) rest 1 else 0

/-- `parseBinLiteral`: 0 if not a binary literal, -1 if invalid, else its
byte length. -/
def parseBinLiteral (v : List Nat) : Int :=
  if v.length < 2 ∨ v.getD 0 0 ≠ 48 ∨ (v.getD 1 0).land 0xDF ≠ 66 then 0
  else
    match skipHeaderAndOptionalUnderscore 2 v with
    | some (n, v1) =>
      let p := parseDigitsRun isBinDigit v1
      if 0 < p then (n : Int) + p else -1
    | none => -1

/-- Accumulation loop of `decodeBinLiteral` (`uint64_t` arithmetic; the
overflow pre-check keeps the value below `2^63` before each shift, so the
shift cannot wrap). -/
def decodeBinLoop : List Nat → Nat → Option Nat
  | [], val => some val
  | c :: rest, val =>
    if c = 95 then decodeBinLoop rest val
    else if val.land 0x8000000000000000 ≠ 0 then none
    else decodeBinLoop rest ((val <<< 1).lor (if c = 49 then 1 else 0))

/-- `decodeBinLiteral`: the value of a binary literal, or -1 on overflow. -/
def decodeBinLiteral (v : List Nat) : Int :=
  match decodeBinLoop (v.drop 2) 0 with
  | none => -1
  | some val => if val.land 0x8000000000000000 ≠ 0 then -1 else (val : Int)

/-- `parseOctLiteral`: handles both the `0o`/`0O` form and the legacy
`0` + digit/underscore form. -/
def parseOctLiteral (v : List Nat) : Int :=
  if v.length < 1 ∨ v.getD 0 0 ≠ 48 then 0
  else if 2 ≤ v.length ∧ (v.getD 1 0).land 0xDF = 79 then
    match skipHeaderAndOptionalUnderscore 2 v with
    | some (n, v1) =>
      let p := parseDigitsRun isOctDigit v1
      if 0 < p then (n : Int) + p else -1
    | none => -1
  else if v.length < 2 ∨ (v.getD 1 0 ≠ 95 ∧ ¬isOctDigit (v.getD 1 0)) then 0
  else
    match skipHeaderAndOptionalUnderscore 1 v with
    | some (n, v1) =>
      let p := parseDigitsRun isOctDigit v1
      if 0 < p then (n : Int) + p else -1
    | none => -1

/-- Accumulation loop of `decodeOctLiteral`. -/
def decodeOctLoop : List Nat → Nat → Option Nat
  | [], val => some val
  | c :: rest, val =>
    if c = 95 then decodeOctLoop rest val
    else if val.land 0xF000000000000000 ≠ 0 then none
    else decodeOctLoop rest ((val <<< 3).lor (c - 48))

/-- `decodeOctLiteral`.  Note: the C function is declared with return type
`int`, so the 64-bit accumulator is truncated to a signed 32-bit value on
return (and the caller sign-extends it back); the embedding mirrors that
truncation. -/
def decodeOctLiteral (v : List Nat) : Int :=
  let v1 := if (v.getD 1 0).land 0xDF = 79 then v.drop 2 else v.drop 1
  match decodeOctLoop v1 0 with
  | none => -1
  | some val => ((val % 2 ^ 32 : Nat) + 2 ^ 31 : Int).emod (2 ^ 32) - 2 ^ 31

/-- `parseIntLiteral`: 0 if not an integer literal, -1 when `0` is followed
by a digit or underscore, else its byte length. -/
def parseIntLiteral (v : List Nat) : Int :=
  if 49 ≤ v.getD 0 0 ∧ v.getD 0 0 ≤ 57 then parseDigitsRun isIntDigit v
  else if v.getD 0 0 ≠ 48 then 0
  else if 1 < v.length ∧ (v.getD 1 0 = 95 ∨ isIntDigit (v.getD 1 0)) then -1
  else 1

/-- Accumulation loop of `decodeIntLiteral` (`uint64_t` arithmetic, hence
the explicit `% 2 ^ 64`; the pre-check `val > 0x1999999999999999` is the
C source's overflow guard). -/
def decodeIntLoop : List Nat → Nat → Option Nat
  | [], val => some val
  | c :: rest, val =>
    if c = 95 then decodeIntLoop rest val
    else if 0x1999999999999999 < val then none
    else decodeIntLoop rest ((val * 10 + (c - 48)) % 2 ^ 64)

/-- `decodeIntLiteral`: the value of a decimal integer literal, or -1 when
the overflow guard fires or the sign bit of the accumulator is set. -/
def decodeIntLiteral (v : List Nat) : Int :=
  match decodeIntLoop v 0 with
  | none => -1
  | some val => if val.land 0x8000000000000000 ≠ 0 then -1 else (val : Int)

/-- `parseHexLiteral`. -/
def parseHexLiteral (v : List Nat) : Int :=
  if v.length < 2 ∨ v.getD 0 0 ≠ 48 ∨ (v.getD 1 0).land 0xDF ≠ 88 then 0
  else
    match skipHeaderAndOptionalUnderscore 2 v with
    | some (n, v1) =>
      let p := parseDigitsRun isHexDigit v1
      if 0 < p then (n : Int) + p else -1
    | none => -1

/-- Accumulation loop of `decodeHexLiteral`. -/
def decodeHexLoop : List Nat → Nat → Option Nat
  | [], val => some val
  | c :: rest, val =>
    if c = 95 then decodeHexLoop rest val
    else if val.land 0xF000000000000000 ≠ 0 then none
    else if isIntDigit c then decodeHexLoop rest ((val <<< 4).lor (c - 48))
    else decodeHexLoop rest ((val <<< 4).lor (c.land 0xDF - 65 + 10))

/-- `decodeHexLiteral`. -/
def decodeHexLiteral (v : List Nat) : Int :=
  match decodeHexLoop (v.drop 2) 0 with
  | none => -1
  | some val => if val.land 0x8000000000000000 ≠ 0 then -1 else (val : Int)

/-- `parseExponent`: 0 if not an exponent, -1 if invalid, else its length. -/
def parseExponent (v : List Nat) : Int :=
  if v = [] ∨ (v.getD 0 0).land 0xDF ≠ 69 then 0
  else
    let v1 := v.drop 1
    if v1 = [] then -1
    else
      let sn : Nat × List Nat :=
        if v1.headD 0 = 43 ∨ v1.headD 0 = 45 then (2, v1.drop 1) else (1, v1)
      if sn.2 = [] then -1
      else
        let p := parseDigitsRun isIntDigit sn.2
        if 0 < p then (sn.1 : Int) + p else -1

/-- `parseDecLiteral`: 0 if not a decimal literal, -1 if invalid, else its
byte length. -/
def parseDecLiteral (v : List Nat) : Int :=
  let p0 := parseDigitsRun isIntDigit v
  if p0 < 0 then 0
  else if p0 = 0 then
    if v.getD 0 0 ≠ 46 ∨ v.length < 2 then 0
    else
      let v1 := v.drop 1
      let p1 := parseDigitsRun isIntDigit v1
      if p1 < 0 then -1
      else if p1 = 0 then
        if v1 ≠ [] ∧ (v1.getD 0 0 = 95 ∨ (v1.getD 0 0).land 0xDF = 69) then -1 else 0
      else
        let v2 := v1.drop p1.toNat
        let q := parseExponent v2
        if q < 0 then -1 else 1 + p1 + q
  else
    let v1 := v.drop p0.toNat
    let q0 := parseExponent v1
    if q0 < 0 then -1
    else if 0 < q0 then p0 + q0
    else if v1 = [] then 0
    else if v1.headD 0 ≠ 46 then 0
    else
      let v2 := v1.drop 1
      let q1 := parseDigitsRun isIntDigit v2
      if q1 < 0 then -1
      else
        let v3 := v2.drop q1.toNat
        let p2 := parseExponent v3
        if p2 < 0 then -1
        else if p2 < (v3.length : Int) ∧ v3.getD p2.toNat 0 = 95 then -1
        else p0 + 1 + q1 + p2

/-- Modelled from the spec: the C library's `strtod`, reading the longest
prefix of the form `digits[.digits][(e|E)[+-]digits]` and returning its
exact rational value.  The embedding keeps the exact rational rather than
the nearest IEEE-754 double; every statement proved below only exercises
values on which the two agree.  `ERANGE` overflow cannot occur in the exact
model. -/
def strtodF (v : List Nat) : Frac :=
  let ds := v.takeWhile (fun c => isIntDigit c)
  let ip : Nat := ds.foldl (fun a c => a * 10 + (c - 48)) 0
  let v1 := v.drop ds.length
  let fr : Nat × Nat × List Nat :=
    if v1.headD 0 = 46 then
      let fs := (v1.drop 1).takeWhile (fun c => isIntDigit c)
      (fs.foldl (fun a c => a * 10 + (c - 48)) 0, (10 : Nat) ^ fs.length,
        (v1.drop 1).drop fs.length)
    else (0, 1, v1)
  let v2 := fr.2.2
  let expo : Int :=
    if (v2.headD 0).land 0xDF = 69 then
      let sv : Int × List Nat :=
        if v2.getD 1 0 = 45 then (-1, v2.drop 2)
        else if v2.getD 1 0 = 43 then (1, v2.drop 2)
        else (1, v2.drop 1)
      let es := sv.2.takeWhile (fun c => isIntDigit c)
      if es = [] then 0 else sv.1 * (es.foldl (fun a c => a * 10 + (c - 48)) 0 : Nat)
    else 0
  let base : Frac := ⟨(ip : Int) * fr.2.1 + fr.1, fr.2.1⟩
  if 0 ≤ expo then ⟨base.n * 10 ^ expo.toNat, base.d⟩ else ⟨base.n, base.d * 10 ^ (-expo).toNat⟩

/-- `decodeDecLiteral`: literals longer than 255 bytes do not fit the C
conversion buffer and yield -1. -/
def decodeDecLiteral (v : List Nat) : Frac :=
  if 255 < v.length then Frac.ofInt (-1) else strtodF v

/-- The decoded components of an ISO date time (`ISODateTime_t`). -/
structure ISODateTime where
  y : Int
  M : Int
  d : Int
  h : Int
  m : Int
  s : Int
  ho : Int
  mo : Int
  f : Frac
  deriving DecidableEq, Repr

/-- Modelled from the spec: one `%d` conversion of the C library's `sscanf`
(skip whitespace, optional sign, at least one digit); `none` when the
conversion fails. -/
def scanInt (v : List Nat) : Option (Int × List Nat) :=
  let v1 := v.dropWhile (fun c => c = 32 ∨ c = 9 ∨ c = 10 ∨ c = 11 ∨ c = 12 ∨ c = 13)
  let sv : Int × List Nat :=
    if v1.headD 0 = 45 then (-1, v1.drop 1)
    else if v1.headD 0 = 43 then (1, v1.drop 1)
    else (1, v1)
  let ds := sv.2.takeWhile (fun c => isIntDigit c)
  if ds = [] then none
  else some (sv.1 * (ds.foldl (fun a c => a * 10 + (c - 48)) 0 : Nat), sv.2.drop ds.length)

/-- One literal byte of an `sscanf` format. -/
def scanLit (c : Nat) (v : List Nat) : Option (List Nat) :=
  match v with
  | [] => none
  | x :: rest => if x = c then some rest else none

/-- The `sscanf(p, "%d-%d-%dT%d:%d:%d", ...)` call of
`decodeISODateTimeLiteral`: the number of fields converted and the fields
(unconverted fields keep their zero initialisation). -/
def scanISO6 (v : List Nat) : Nat × ISODateTime :=
  let z : ISODateTime := ⟨0, 0, 0, 0, 0, 0, 0, 0, Frac.ofInt 0⟩
  match scanInt v with
  | none => (0, z)
  | some (y, v) =>
    let t1 := { z with y := y }
    match scanLit 45 v with
    | none => (1, t1)
    | some v =>
      match scanInt v with
      | none => (1, t1)
      | some (mo, v) =>
        let t2 := { t1 with M := mo }
        match scanLit 45 v with
        | none => (2, t2)
        | some v =>
          match scanInt v with
          | none => (2, t2)
          | some (d, v) =>
            let t3 := { t2 with d := d }
            match scanLit 84 v with
            | none => (3, t3)
            | some v =>
              match scanInt v with
              | none => (3, t3)
              | some (h, v) =>
                let t4 := { t3 with h := h }
                match scanLit 58 v with
                | none => (4, t4)
                | some v =>
                  match scanInt v with
                  | none => (4, t4)
                  | some (mi, v) =>
                    let t5 := { t4 with m := mi }
                    match scanLit 58 v with
                    | none => (5, t5)
                    | some v =>
                      match scanInt v with
                      | none => (5, t5)
                      | some (s, _) => (6, { t5 with s := s })

/-- Modelled from the spec: days from 1970-01-01 of the civil date `y-M-d`,
linear in `d` (so out-of-range days normalise exactly as the POSIX `timegm`
does); the standard days-from-civil computation with floor division. -/
def daysFromCivil (y M d : Int) : Int :=
  let y1 := if M ≤ 2 then y - 1 else y
  let era : Int := y1.ediv 400
  let yoe : Int := y1 - era * 400
  let mp : Int := (M + 9).emod 12
  let doy : Int := (153 * mp + 2).ediv 5 + d - 1
  let doe : Int := yoe * 365 + yoe.ediv 4 - yoe.ediv 100 + doy
  era * 146097 + doe - 719468

/-- Modelled from the spec: POSIX `timegm` applied to a zeroed `struct tm`
filled with the decoded fields; out-of-range fields (such as hour 24)
contribute linearly. -/
def timegmQ (y M d h m s : Int) : Int :=
  daysFromCivil y M d * 86400 + h * 3600 + m * 60 + s

/-- `makeTime`: UTC seconds since 1970-01-01T00:00:00Z of the decoded ISO
date time, or -1 when a component is out of range.  Note the hour-24 test of
the C source: it rejects only when minute, second and fraction are ALL
non-zero (`&&`). -/
def makeTime (dt : ISODateTime) : Frac :=
  if dt.y < 1970 ∨ dt.M < 1 ∨ 12 < dt.M ∨ dt.d < 1 ∨ 31 < dt.d ∨
      dt.h < 0 ∨ 24 < dt.h ∨ dt.m < 0 ∨ 59 < dt.m ∨ dt.s < 0 ∨ 60 < dt.s ∨
      dt.ho < -15 ∨ 15 < dt.ho ∨ dt.mo < 0 ∨ 59 < dt.mo ∨
      (dt.h = 24 ∧ dt.m ≠ 0 ∧ dt.s ≠ 0 ∧ ¬dt.f.isZero) then Frac.ofInt (-1)
  else
    let v : Frac := (Frac.ofInt (timegmQ dt.y dt.M dt.d dt.h dt.m dt.s)).add dt.f
    if dt.ho < 0 then (v.sub (Frac.ofInt (dt.ho * 3600))).add (Frac.ofInt (dt.mo * 60))
    else (v.sub (Frac.ofInt (dt.ho * 3600))).sub (Frac.ofInt (dt.mo * 60))

/-- The `sscanf(p, "%d:%d", &t.ho, &t.mo)` tail of
`decodeISODateTimeLiteral`: both fields must convert. -/
def offsetScan (t : ISODateTime) (p : List Nat) : Frac :=
  match scanInt p with
  | none => Frac.ofInt (-1)
  | some (ho, p1) =>
    match scanLit 58 p1 with
    | none => Frac.ofInt (-1)
    | some p2 =>
      match scanInt p2 with
      | none => Frac.ofInt (-1)
      | some (mo, _) => makeTime { t with ho := ho, mo := mo }

/-- `decodeISODateTimeLiteral`: -1 on failure, else the UTC seconds value. -/
def decodeISODateTimeLiteral (v : List Nat) : Frac :=
  if 255 < v.length then Frac.ofInt (-1)
  else
    let kt := scanISO6 v
    let k := kt.1
    let t0 := kt.2
    if k < 3 ∨ k = 4 then Frac.ofInt (-1)
    else if k = 3 ∨ k = 5 then makeTime t0
    else
      let p := v.drop 19
      if p = [] ∨ p.headD 0 = 90 then makeTime t0
      else
        let step : Option (ISODateTime × List Nat) :=
          if p.headD 0 = 46 then
            let p1 := p.drop 1
            match scanInt p1 with
            | none => none
            | some (num, _) =>
              if isIntDigit (p1.getD 3 0) then some ({ t0 with f := ⟨num, 1000000⟩ }, p1.drop 6)
              else some ({ t0 with f := ⟨num, 1000⟩ }, p1.drop 3)
          else some (t0, p)
        match step with
        | none => Frac.ofInt (-1)
        | some (t1, p2) =>
          if p2 = [] ∨ p2.headD 0 = 90 then makeTime t1
          else offsetScan t1 p2

/-- `nextBinValue`. -/
def nextBinValue (e : NumEngine) : Option NumEngine :=
  let n := parseBinLiteral e.p
  if n = 0 then none
  else if n < 0 then some { e with tk := ⟨.error, e.pos, .e .invalidBinaryNumber⟩ }
  else
    let val := decodeBinLiteral (e.p.take n.toNat)
    if val < 0 then some { e with tk := ⟨.error, e.pos, .e .numberOverflow⟩ }
    else some (numPopB { e with tk := ⟨.integerVal, e.pos, .i val⟩ } n.toNat)

/-- `nextOctValue`. -/
def nextOctValue (e : NumEngine) : Option NumEngine :=
  let n := parseOctLiteral e.p
  if n = 0 then none
  else if n < 0 then some { e with tk := ⟨.error, e.pos, .e .invalidOctalNumber⟩ }
  else
    let val := decodeOctLiteral (e.p.take n.toNat)
    if val < 0 then some { e with tk := ⟨.error, e.pos, .e .numberOverflow⟩ }
    else some (numPopB { e with tk := ⟨.integerVal, e.pos, .i val⟩ } n.toNat)

/-- `nextIntValue`. -/
def nextIntValue (e : NumEngine) : Option NumEngine :=
  let n := parseIntLiteral e.p
  if n = 0 then none
  else if n < 0 then some { e with tk := ⟨.error, e.pos, .e .invalidIntegerNumber⟩ }
  else
    let val := decodeIntLiteral (e.p.take n.toNat)
    if val < 0 then some { e with tk := ⟨.error, e.pos, .e .numberOverflow⟩ }
    else some (numPopB { e with tk := ⟨.integerVal, e.pos, .i val⟩ } n.toNat)

/-- `nextHexValue`. -/
def nextHexValue (e : NumEngine) : Option NumEngine :=
  let n := parseHexLiteral e.p
  if n = 0 then none
  else if n < 0 then some { e with tk := ⟨.error, e.pos, .e .invalidHexadecimalNumber⟩ }
  else
    let val := decodeHexLiteral (e.p.take n.toNat)
    if val < 0 then some { e with tk := ⟨.error, e.pos, .e .numberOverflow⟩ }
    else some (numPopB { e with tk := ⟨.integerVal, e.pos, .i val⟩ } n.toNat)

/-- `nextDecValue`. -/
def nextDecValue (e : NumEngine) : Option NumEngine :=
  let n := parseDecLiteral e.p
  if n = 0 then none
  else if n < 0 then some { e with tk := ⟨.error, e.pos, .e .invalidDecimalNumber⟩ }
  else
    let val := decodeDecLiteral (e.p.take n.toNat)
    if val.isNeg then some { e with tk := ⟨.error, e.pos, .e .invalidDecimalNumber⟩ }
    else some (numPopB { e with tk := ⟨.decimalVal, e.pos, .f val⟩ } n.toNat)

/-- `nextISODateTimeValue`. -/
def nextISODateTimeValue (e : NumEngine) : Option NumEngine :=
  let n := parseISODateTimeLiteral e.p
  if n = 0 then none
  else if n < 0 then some { e with tk := ⟨.error, e.pos, .e .invalidISODateTime⟩ }
  else
    let val := decodeISODateTimeLiteral (e.p.take n.toNat)
    if val.isNeg then some { e with tk := ⟨.error, e.pos, .e .invalidISODateTime⟩ }
    else some (numPopB { e with tk := ⟨.decimalVal, e.pos, .f val⟩ } n.toNat)

/-- Whitespace loop at the top of `numNextToken`. -/
def numSkipWsLoop : Nat → NumEngine → NumEngine
  | 0, e => e
  | fuel + 1, e =>
    let n := whitespace e.p
    if n = 0 then e else numSkipWsLoop fuel (numPopB e n)

def numSkipWs (e : NumEngine) : NumEngine := numSkipWsLoop (e.p.length + 1) e

/-- `numNextToken`: a no-op in the error state, otherwise set the token to
the next numeric token. -/
def numNextToken (e : NumEngine) : NumEngine :=
  if e.tk.tag = .error then e
  else
    let e1 := numSkipWs e
    if e1.p = [] then { e1 with tk := ⟨.error, e1.pos, .e .endOfInput⟩ }
    else
      match nextOperator e1 with
      | some e2 => e2
      | none =>
        match nextISODateTimeValue e1 with
        | some e2 => e2
        | none =>
          match nextBinValue e1 with
          | some e2 => e2
          | none =>
            match nextHexValue e1 with
            | some e2 => e2
            | none =>
              match nextDecValue e1 with
              | some e2 => e2
              | none =>
                match nextOctValue e1 with
                | some e2 => e2
                | none =>
                  match nextIntValue e1 with
                  | some e2 => e2
                  | none => { e1 with tk := ⟨.error, e1.pos, .e .invalidNumericExpression⟩ }

/-- `numEngineInit`: prime the numeric engine. -/
def numEngineInit (inp : List Nat) : NumEngine :=
  numNextToken { p := inp, pos := 0, tk := ⟨.unknown, 0, .i 0⟩ }

/-- The `precedenceTable`, as a function of the tag. -/
def precedenceTable : Tag → Nat
  | .plus | .minus | .xor | .or | .inverse => 1
  | .multiplication | .division | .and | .modulo => 2
  | .weeks | .days | .hours | .minutes | .seconds => 4
  | _ => 0

/-- `highestPrecedence`. -/
def highestPrecedence : Nat := 4

/-- Interpret a `uint64` bit pattern as a two's-complement `int64`. -/
def toI64 (v : Nat) : Int := if v < 2 ^ 63 then (v : Int) else (v : Int) - 2 ^ 64

/-- The `uint64` bit pattern of an integer (`% 2 ^ 64`). -/
def toU64 (x : Int) : Nat := (x.emod (2 ^ 64)).toNat

/-- Truncate an integer to a two's-complement `int64` (C signed overflow is
undefined; in practice, and in this embedding, it wraps). -/
def wrap64 (x : Int) : Int := (x + 2 ^ 63).emod (2 ^ 64) - 2 ^ 63

def i64Land (a b : Int) : Int := toI64 ((toU64 a).land (toU64 b))
def i64Lor (a b : Int) : Int := toI64 ((toU64 a).lor (toU64 b))
def i64Lxor (a b : Int) : Int := toI64 ((toU64 a).xor (toU64 b))

/-- `numToken` to `double` coercion (`toDouble`). -/
def toDoubleTok (t : NumToken) : NumToken :=
  match t.val with
  | .i a => { t with tag := .decimalVal, val := .f (Frac.ofInt a) }
  | _ => t

/-- `normalizeTypes`: promote one of two values to `double` when the other
one is a `double`. -/
def normalizeTypes (v1 v2 : NumToken) : NumToken × NumToken :=
  match v1.val, v2.val with
  | .i a, .f _ => ({ v1 with tag := .decimalVal, val := .f (Frac.ofInt a) }, v2)
  | .f _, .i b => (v1, { v2 with tag := .decimalVal, val := .f (Frac.ofInt b) })
  | _, _ => (v1, v2)

/-- The repeated two lines of every `nudXXX`/`ledXXX`: an `end of input`
error from a missing right operand becomes `invalid numeric expression`. -/
def fixEOI (t : NumToken) : NumToken :=
  if t.val = .e .endOfInput then { t with val := .e .invalidNumericExpression } else t

/-- `nud`: dispatch on the prefix handler table (`nudTable`); a missing
entry yields `invalid numeric expression`.  `subExpr` is the recursive
`expression` at the next fuel level (the recursion is tied in
`expression` itself so that the definitions stay structurally recursive). -/
def nudEvalF (subExpr : NumEngine → Nat → NumToken × NumEngine) (e : NumEngine) (t : NumToken) :
    NumToken × NumEngine :=
  match t.tag with
  | .integerVal => (t, e)
  | .decimalVal => (t, e)
  | .plus =>
    let r := subExpr e (highestPrecedence + 1)
    (fixEOI r.1, r.2)
  | .minus =>
    let r := subExpr e (highestPrecedence + 1)
    if r.1.tag = .error then (fixEOI r.1, r.2)
    else
      match r.1.val with
      | .i a => ({ r.1 with val := .i (wrap64 (-a)) }, r.2)
      | .f a => ({ r.1 with val := .f a.neg }, r.2)
      | _ => (r.1, r.2)
  | .inverse =>
    let r := subExpr e (highestPrecedence + 1)
    if r.1.tag = .error then (fixEOI r.1, r.2)
    else
      match r.1.val with
      | .f _ => (⟨.error, t.pos, .e .operandMustBeInteger⟩, r.2)
      | .i a => ({ r.1 with val := .i (wrap64 (-a - 1)) }, r.2)
      | _ => (r.1, r.2)
  | .openParen =>
    let r := subExpr e (precedenceTable .openParen)
    if r.1.tag = .error then (fixEOI r.1, r.2)
    else if r.2.tk.tag ≠ .closeParen then (⟨.error, t.pos, .e .unclosedParenthesis⟩, r.2)
    else (r.1, numNextToken r.2)
  | .closeParen => (⟨.error, t.pos, .e .unopenedParenthesis⟩, e)
  | _ => (⟨.error, t.pos, .e .invalidNumericExpression⟩, e)

/-- `ledDuration`: the shared body of the five unit-suffix operators; the
right operand is optional. -/
def ledDurationF (subExpr : NumEngine → Nat → NumToken × NumEngine) (e : NumEngine)
    (left : NumToken) (dur : Frac) (rbp : Nat) : NumToken × NumEngine :=
  let l1 := toDoubleTok left
  if e.tk.tag = .closeParen then
    match l1.val with
    | .f a => ({ l1 with val := .f (a.mul dur) }, e)
    | _ => (l1, e)
  else
    let r := subExpr e rbp
    if r.1.tag = .error then
      if r.1.val = .e .endOfInput then
        match l1.val with
        | .f a => ({ l1 with val := .f (a.mul dur) }, r.2)
        | _ => (l1, r.2)
      else (r.1, r.2)
    else
      let r1 := toDoubleTok r.1
      match l1.val, r1.val with
      | .f a, .f b => ({ l1 with val := .f ((a.mul dur).add b) }, r.2)
      | _, _ => (⟨.error, left.pos, .e .invalidNumericExpression⟩, r.2)

/-- `led`: dispatch on the infix handler table (`ledTable`); a missing entry
yields `invalid numeric expression`.  Integer arithmetic is two's-complement
`int64` arithmetic (`wrap64`, `Int.tdiv`/`Int.tmod` are the C truncating
division and remainder). -/
def ledEvalF (subExpr : NumEngine → Nat → NumToken × NumEngine) (e : NumEngine) (t : NumToken)
    (left : NumToken) : NumToken × NumEngine :=
  match t.tag with
  | .plus =>
    let r := subExpr e (precedenceTable .plus)
    if r.1.tag = .error then (fixEOI r.1, r.2)
    else
      let n := normalizeTypes left r.1
      match n.1.val, n.2.val with
      | .i a, .i b => ({ n.1 with val := .i (wrap64 (a + b)) }, r.2)
      | .f a, .f b => ({ n.1 with val := .f (a.add b) }, r.2)
      | _, _ => (⟨.error, t.pos, .e .invalidNumericExpression⟩, r.2)
  | .minus =>
    let r := subExpr e (precedenceTable .minus)
    if r.1.tag = .error then (fixEOI r.1, r.2)
    else
      let n := normalizeTypes left r.1
      match n.1.val, n.2.val with
      | .i a, .i b => ({ n.1 with val := .i (wrap64 (a - b)) }, r.2)
      | .f a, .f b => ({ n.1 with val := .f (a.sub b) }, r.2)
      | _, _ => (⟨.error, t.pos, .e .invalidNumericExpression⟩, r.2)
  | .multiplication =>
    let r := subExpr e (precedenceTable .multiplication)
    if r.1.tag = .error then (fixEOI r.1, r.2)
    else
      let n := normalizeTypes left r.1
      match n.1.val, n.2.val with
      | .i a, .i b => ({ n.1 with val := .i (wrap64 (a * b)) }, r.2)
      | .f a, .f b => ({ n.1 with val := .f (a.mul b) }, r.2)
      | _, _ => (⟨.error, t.pos, .e .invalidNumericExpression⟩, r.2)
  | .division =>
    let r := subExpr e (precedenceTable .division)
    if r.1.tag = .error then (fixEOI r.1, r.2)
    else
      let n := normalizeTypes left r.1
      match n.1.val, n.2.val with
      | .i a, .i b =>
        if b = 0 then (⟨.error, t.pos, .e .divisionByZero⟩, r.2)
        else ({ n.1 with val := .i (wrap64 (a.tdiv b)) }, r.2)
      | .f a, .f b =>
        if b.isZero then (⟨.error, t.pos, .e .divisionByZero⟩, r.2)
        else ({ n.1 with val := .f (a.div b) }, r.2)
      | _, _ => (⟨.error, t.pos, .e .invalidNumericExpression⟩, r.2)
  | .modulo =>
    let r := subExpr e (precedenceTable .modulo)
    if r.1.tag = .error then (fixEOI r.1, r.2)
    else
      let n := normalizeTypes left r.1
      match n.1.val, n.2.val with
      | .i a, .i b =>
        if b = 0 then (⟨.error, t.pos, .e .divisionByZero⟩, r.2)
        else ({ n.1 with val := .i (wrap64 (a.tmod b)) }, r.2)
      | _, _ => (⟨.error, t.pos, .e .operandMustBeInteger⟩, r.2)
  | .and =>
    let r := subExpr e (precedenceTable .and)
    if r.1.tag = .error then (fixEOI r.1, r.2)
    else
      let n := normalizeTypes left r.1
      match n.1.val, n.2.val with
      | .i a, .i b => ({ n.1 with val := .i (i64Land a b) }, r.2)
      | _, _ => (⟨.error, t.pos, .e .operandMustBeInteger⟩, r.2)
  | .or =>
    let r := subExpr e (precedenceTable .or)
    if r.1.tag = .error then (fixEOI r.1, r.2)
    else
      let n := normalizeTypes left r.1
      match n.1.val, n.2.val with
      | .i a, .i b => ({ n.1 with val := .i (i64Lor a b) }, r.2)
      | _, _ => (⟨.error, t.pos, .e .operandMustBeInteger⟩, r.2)
  | .xor =>
    let r := subExpr e (precedenceTable .xor)
    if r.1.tag = .error then (fixEOI r.1, r.2)
    else
      let n := normalizeTypes left r.1
      match n.1.val, n.2.val with
      | .i a, .i b => ({ n.1 with val := .i (i64Lxor a b) }, r.2)
      | _, _ => (⟨.error, t.pos, .e .operandMustBeInteger⟩, r.2)
  | .weeks => ledDurationF subExpr e left (Frac.ofInt (3600 * 24 * 7)) (precedenceTable .weeks - 1)
  | .days => ledDurationF subExpr e left (Frac.ofInt (3600 * 24)) (precedenceTable .days - 1)
  | .hours => ledDurationF subExpr e left (Frac.ofInt 3600) (precedenceTable .hours - 1)
  | .minutes => ledDurationF subExpr e left (Frac.ofInt 60) (precedenceTable .minutes - 1)
  | .seconds => ledDurationF subExpr e left (Frac.ofInt 1) (precedenceTable .seconds - 1)
  | _ => (⟨.error, t.pos, .e .invalidNumericExpression⟩, e)

/-- The `while` loop of `expression`: fold infix/postfix operators while
their precedence exceeds `rbp`. -/
def exprLoopF (subExpr : NumEngine → Nat → NumToken × NumEngine) :
    Nat → NumEngine → Nat → NumToken → NumToken × NumEngine
  | 0, e, _, _ => (⟨.error, e.pos, .e .fuelExhausted⟩, e)
  | fuel + 1, e, rbp, left =>
    if left.tag ≠ .error ∧ rbp < precedenceTable e.tk.tag then
      let t := e.tk
      let e1 := numNextToken e
      let r := ledEvalF subExpr e1 t left
      exprLoopF subExpr fuel r.2 rbp r.1
    else (left, e)

/-- `expression`: evaluate the expression at the current token position with
right binding power `rbp`. -/
def expression : Nat → NumEngine → Nat → NumToken × NumEngine
  | 0, e, _ => (⟨.error, e.pos, .e .fuelExhausted⟩, e)
  | fuel + 1, e, rbp =>
    if e.tk.tag = .error then (e.tk, e)
    else
      let t := e.tk
      let e1 := numNextToken e
      let r := nudEvalF (fun e2 r2 => expression fuel e2 r2) e1 t
      exprLoopF (fun e2 r2 => expression fuel e2 r2) fuel r.2 rbp r.1

/-- `evalNumberExpression`: evaluate the whole quoteless expression; an
integer result is cast to `double`.  The fuel bounds the recursion depth of
the Pratt evaluator, which consumes at least one input byte per two levels;
`2 * length + 16` therefore never runs out. -/
def evalNumberExpression (inp : List Nat) : NumToken :=
  let e := numEngineInit inp
  let r := expression (inp.length * 2 + 16) e 0
  match r.1.val with
  | .i a => { r.1 with tag := .decimalVal, val := .f (Frac.ofInt a) }
  | _ => r.1

/-- `isNumberExpr`: the quoteless slice denotes a numeric expression when
its first byte other than `+ - space tab (` is a digit, or a dot followed
by a digit. -/
def isNumberExpr : List Nat → Bool
  | [] => false
  | c :: rest =>
    if c = 43 ∨ c = 45 ∨ c = 32 ∨ c = 9 ∨ c = 40 then isNumberExpr rest
    else isIntDigit c ∨ (c = 46 ∧ isIntDigit (rest.headD 0))

/-! ## Literal classification, `%.16g` formatting -/

def trueBytes : List Nat := asciiBytes "true"
def falseBytes : List Nat := asciiBytes "false"
def nullBytes : List Nat := asciiBytes "null"

/-- `case 5` of `isLiteralValue`: `f`/`F` + `alse`/`ALSE`. -/
def litCase5 (a b c d e : Nat) : Option (List Nat) :=
  if (a = 102 ∨ a = 70) ∧
      ((b = 97 ∧ c = 108 ∧ d = 115 ∧ e = 101) ∨ (b = 65 ∧ c = 76 ∧ d = 83 ∧ e = 69)) then
    some falseBytes
  else none

/-- `case 4` of `isLiteralValue`: `n`/`N` + `ull`/`ULL`, `t`/`T` + `rue`/`RUE`. -/
def litCase4 (a b c d : Nat) : Option (List Nat) :=
  if (a = 110 ∨ a = 78) ∧ ((b = 117 ∧ c = 108 ∧ d = 108) ∨ (b = 85 ∧ c = 76 ∧ d = 76)) then
    some nullBytes
  else if (a = 116 ∨ a = 84) ∧ ((b = 114 ∧ c = 117 ∧ d = 101) ∨ (b = 82 ∧ c = 85 ∧ d = 69)) then
    some trueBytes
  else none

/-- `case 3` of `isLiteralValue`: `y`/`Y` + `es`/`ES`, `o`/`O` + `ff`/`FF`. -/
def litCase3 (a b c : Nat) : Option (List Nat) :=
  if (a = 121 ∨ a = 89) ∧ ((b = 101 ∧ c = 115) ∨ (b = 69 ∧ c = 83)) then some trueBytes
  else if (a = 111 ∨ a = 79) ∧ ((b = 102 ∧ c = 102) ∨ (b = 70 ∧ c = 70)) then some falseBytes
  else none

/-- `case 2` of `isLiteralValue`: `on` and `no`, both letters in either
case. -/
def litCase2 (a b : Nat) : Option (List Nat) :=
  if (a = 111 ∨ a = 79) ∧ (b = 110 ∨ b = 78) then some trueBytes
  else if (a = 110 ∨ a = 78) ∧ (b = 111 ∨ b = 79) then some falseBytes
  else none

/-- `isLiteralValue`: the literal classification.  The C `switch` on the
length has no `break` between its cases, so each case falls through to the
next shorter one, which then only examines a prefix of the token; the
embedding chains the cases accordingly. -/
def isLiteralValue : List Nat → Option (List Nat)
  | [a, b] => litCase2 a b
  | [a, b, c] => (litCase3 a b c).orElse fun _ => litCase2 a b
  | [a, b, c, d] =>
    ((litCase4 a b c d).orElse fun _ => litCase3 a b c).orElse fun _ => litCase2 a b
  | [a, b, c, d, e] =>
    (((litCase5 a b c d e).orElse fun _ => litCase4 a b c d).orElse fun _ =>
      litCase3 a b c).orElse fun _ => litCase2 a b
  | _ => none

/-- Decimal digit bytes of a natural number (`%d`). -/
def natBytes (n : Nat) : List Nat := (Nat.toDigits 10 n).map Char.toNat

/-- Strip trailing decimal zeros (fuelled). -/
def stripZeros : Nat → Nat → Nat
  | 0, x => x
  | f + 1, x => if x ≠ 0 ∧ x % 10 = 0 then stripZeros f (x / 10) else x

/-- Uppercase hexadecimal digit bytes (`%X`; the C format `%0X` has a zero
flag but no width, so there is no padding). -/
def hexUpper (n : Nat) : List Nat := (Nat.toDigits 16 n).map fun c => c.toUpper.toNat

/-- Number of decimal digits. -/
def digits10 (n : Nat) : Nat := (Nat.toDigits 10 n).length

/-- Modelled from the spec: `sprintf` with format `%.16g` (16 significant
digits, trailing zeros stripped, plain notation while the exponent is in
`[-4, 16)`).  An integer-valued double of magnitude below `10^16` prints as
a plain integer; every statement proved below only exercises that first
branch, the remaining branches follow the C `%g` rules (round to 16
significant digits, then choose fixed or exponent notation) and are present
for totality. -/
def formatG16 (q : Frac) : List Nat :=
  if q.n = 0 then [48]
  else
    let sgn : List Nat := if q.n < 0 then [45] else []
    let a : Nat := q.n.natAbs
    let d : Nat := q.d
    if a % d = 0 ∧ a / d < 10 ^ 16 then sgn ++ natBytes (a / d)
    else
      let kk := digits10 d + 20
      let e1 : Int := (digits10 (a * 10 ^ kk / d) : Int) - 1 - kk
      let m0 : Nat :=
        if 0 ≤ 15 - e1 then (a * 10 ^ (15 - e1).toNat * 2 + d) / (2 * d)
        else (a * 2 + d * 10 ^ (e1 - 15).toNat) / (2 * (d * 10 ^ (e1 - 15).toNat))
      let me : Nat × Int := if 10 ^ 16 ≤ m0 then (m0 / 10, e1 + 1) else (m0, e1)
      let ds := natBytes (stripZeros 16 me.1)
      let e2 := me.2
      if 0 ≤ e2 ∧ e2 < 16 then
        let ip := e2.toNat + 1
        if ds.length ≤ ip then sgn ++ ds ++ List.replicate (ip - ds.length) 48
        else sgn ++ ds.take ip ++ [46] ++ ds.drop ip
      else if -4 ≤ e2 ∧ e2 < 0 then
        sgn ++ [48, 46] ++ List.replicate (-(e2 + 1)).toNat 48 ++ ds
      else
        let mant := if ds.length ≤ 1 then ds else ds.take 1 ++ [46] ++ ds.drop 1
        let es : List Nat := if e2 < 0 then [101, 45] else [101, 43]
        let eAbs := e2.natAbs
        let ed := if eAbs < 10 then 48 :: natBytes eAbs else natBytes eAbs
        sgn ++ mant ++ es ++ ed

/-! ## Engine and output -/

/-- `maxDepth`. -/
def maxDepth : Nat := 200

/-- The conversion engine (`engine_t`).  `maxd` is ghost instrumentation
recording the largest nesting depth the parser attempted to enter (the
attempted depth is recorded just before the `maxDepth` check); no code path
reads it. -/
structure Engine where
  scan : Scan
  tk : Token
  depth : Nat
  maxd : Nat
  out : List Nat
  deriving Repr

/-- `done`. -/
def done (e : Engine) : Bool := e.tk.tag = .error

/-- `setErrorAndPos`. -/
def setErrorAndPos (e : Engine) (msg : ErrMsg) (pos : Pos) : Engine :=
  { e with tk := ⟨.error, pos, .emsg msg⟩ }

/-- `setError`. -/
def setError (e : Engine) (msg : ErrMsg) : Engine := setErrorAndPos e msg e.scan.pos

/-- The message carried by the current token, when it carries one.  The C
source compares `e->tk.val.p` against message constants by pointer; a slice
payload can never equal a message constant. -/
def tkMsg (e : Engine) : Option ErrMsg :=
  match e.tk.val with
  | .emsg m => some m
  | _ => none

/-- The input bytes of the current token's slice payload. -/
def sliceBytes (e : Engine) : List Nat :=
  match e.tk.val with
  | .str st ln => (e.scan.input.drop st).take ln
  | _ => []

/-- `outputByte`: append one byte to the output buffer. -/
def outputByte (e : Engine) (c : Nat) : Engine := { e with out := e.out ++ [c] }

/-- `outputString`: append bytes to the output buffer. -/
def outputString (e : Engine) (s : List Nat) : Engine := { e with out := e.out ++ s }

/-- `nextToken`: a no-op in the error state, otherwise set the current token
to the next token.  The `none` result of `nextTokenCore` is the
`assert(false)` branch of the C source (proved unreachable below). -/
def nextToken (e : Engine) : Engine :=
  if e.tk.tag = .error then e
  else
    match nextTokenCore e.scan with
    | some (tk, sc) => { e with scan := sc, tk := tk }
    | none => e

/-- Loop of `outputDoubleQuotedString` over the token slice `str` (the
slice includes the surrounding quotes; the loop runs from index 1 to
`length - 2` and appends the closing quote when it falls off the end).
Note the `\\uXXXX` legality test of the C source: it tests the byte at
`i+5` twice and never tests the byte at `i+4`. -/
def outputDQLoop (str : List Nat) (tpos : Pos) : Nat → Nat → Engine → Engine
  | 0, _, e => e
  | fuel + 1, i, e =>
    if ¬i + 1 < str.length then outputByte e 34
    else
      let c := str.getD i 0
      if c = 47 then
        let e1 := if str.getD (i - 1) 0 = 60 then outputByte e 92 else e
        outputDQLoop str tpos fuel (i + 1) (outputByte e1 c)
      else if c = 9 then
        outputDQLoop str tpos fuel (i + 1) (outputByte (outputByte e 92) 116)
      else if c = 92 then
        let c2 := str.getD (i + 1) 0
        if c2 = 116 ∨ c2 = 110 ∨ c2 = 114 ∨ c2 = 102 ∨ c2 = 98 ∨ c2 = 47 ∨ c2 = 92 ∨ c2 = 34 ∨
            (c2 = 117 ∧ i + 6 ≤ str.length ∧ isHexDigit (str.getD (i + 2) 0) ∧
              isHexDigit (str.getD (i + 3) 0) ∧ isHexDigit (str.getD (i + 5) 0) ∧
              isHexDigit (str.getD (i + 5) 0)) then
          outputDQLoop str tpos fuel (i + 1) (outputByte e c)
        else setErrorAndPos e .invalidEscapeSequence ⟨tpos.b + i, tpos.s, tpos.l⟩
      else outputDQLoop str tpos fuel (i + 1) (outputByte e c)

/-- `outputDoubleQuotedString`. -/
def outputDoubleQuotedString (e : Engine) : Engine :=
  let str := sliceBytes e
  outputDQLoop str e.tk.pos (str.length + 2) 1 (outputByte e 34)

/-- Loop of `outputSingleQuotedString`: as the double-quoted loop, but the
permitted `\'` escape is emitted as a bare `'` and a raw `"` is escaped. -/
def outputSQLoop (str : List Nat) (tpos : Pos) : Nat → Nat → Engine → Engine
  | 0, _, e => e
  | fuel + 1, i, e =>
    if ¬i + 1 < str.length then outputByte e 34
    else
      let c := str.getD i 0
      if c = 47 then
        let e1 := if str.getD (i - 1) 0 = 60 then outputByte e 92 else e
        outputSQLoop str tpos fuel (i + 1) (outputByte e1 c)
      else if c = 9 then
        outputSQLoop str tpos fuel (i + 1) (outputByte (outputByte e 92) 116)
      else if c = 92 then
        let c2 := str.getD (i + 1) 0
        if c2 = 116 ∨ c2 = 110 ∨ c2 = 114 ∨ c2 = 102 ∨ c2 = 98 ∨ c2 = 47 ∨ c2 = 92 ∨ c2 = 39 ∨
            (c2 = 117 ∧ i + 6 ≤ str.length ∧ isHexDigit (str.getD (i + 2) 0) ∧
              isHexDigit (str.getD (i + 3) 0) ∧ isHexDigit (str.getD (i + 5) 0) ∧
              isHexDigit (str.getD (i + 5) 0)) then
          if c2 = 39 then outputSQLoop str tpos fuel (i + 1) e
          else outputSQLoop str tpos fuel (i + 1) (outputByte e c)
        else setErrorAndPos e .invalidEscapeSequence ⟨tpos.b + i, tpos.s, tpos.l⟩
      else if c = 34 then
        outputSQLoop str tpos fuel (i + 1) (outputByte (outputByte e 92) 34)
      else outputSQLoop str tpos fuel (i + 1) (outputByte e c)

/-- `outputSingleQuotedString`. -/
def outputSingleQuotedString (e : Engine) : Engine :=
  let str := sliceBytes e
  outputSQLoop str e.tk.pos (str.length + 2) 1 (outputByte e 34)

/-- Loop of `outputQuotelessString` (the slice has no surrounding quotes;
the loop runs over all of it). -/
def outputQLLoop (str : List Nat) : Nat → Nat → Engine → Engine
  | 0, _, e => e
  | fuel + 1, i, e =>
    if ¬i < str.length then outputByte e 34
    else
      let c := str.getD i 0
      if c = 34 then outputQLLoop str fuel (i + 1) (outputByte (outputByte e 92) 34)
      else if c = 9 then outputQLLoop str fuel (i + 1) (outputByte (outputByte e 92) 116)
      else if c = 47 then
        let e1 := if 0 < i ∧ str.getD (i - 1) 0 = 60 then outputByte e 92 else e
        outputQLLoop str fuel (i + 1) (outputByte e1 47)
      else if c = 92 then outputQLLoop str fuel (i + 1) (outputByte (outputByte e 92) 92)
      else outputQLLoop str fuel (i + 1) (outputByte e c)

/-- `outputQuotelessString`. -/
def outputQuotelessString (e : Engine) : Engine :=
  let str := sliceBytes e
  outputQLLoop str (str.length + 1) 0 (outputByte e 34)

/-- Drop the whitespace prefix of a byte list. -/
def dropWsLoop : Nat → List Nat → List Nat
  | 0, p => p
  | fuel + 1, p =>
    let n := whitespace p
    if n = 0 then p else dropWsLoop fuel (p.drop n)

def dropWs (p : List Nat) : List Nat := dropWsLoop (p.length + 1) p

/-- Loop of `outputMultilineString` over the body (margin stripped after
each newline, newlines replaced by the specifier, per-byte transforms). -/
def outputMLLoop (margin nl : List Nat) : Nat → List Nat → Engine → Engine
  | 0, _, e => e
  | fuel + 1, str, e =>
    match str with
    | [] => outputByte e 34
    | c :: rest =>
      let n := newline str
      if n ≠ 0 then
        outputMLLoop margin nl fuel (str.drop (n + margin.length)) (outputString e nl)
      else if c < 0x20 then
        let e1 :=
          if c = 8 then outputString e [92, 98]
          else if c = 9 then outputString e [92, 116]
          else if c = 13 then outputString e [92, 114]
          else if c = 12 then outputString e [92, 102]
          else outputString e ([92, 117, 48, 48] ++ hexUpper c)
        outputMLLoop margin nl fuel rest e1
      else if c = 60 then
        let e1 := outputByte e 60
        let e2 := if rest.headD 0 = 47 then outputByte e1 92 else e1
        outputMLLoop margin nl fuel rest e2
      else if c = 34 then outputMLLoop margin nl fuel rest (outputString e [92, 34])
      else if c = 96 ∧ rest.headD 0 = 92 then
        outputMLLoop margin nl fuel (str.drop 2) (outputByte e 96)
      else if c = 92 then outputMLLoop margin nl fuel rest (outputString e [92, 92])
      else outputMLLoop margin nl fuel rest (outputByte e c)

/-- `outputMultilineString`: decompose the token slice into margin, newline
specifier and body, then emit the body. -/
def outputMultilineString (e : Engine) : Engine :=
  let str0 := sliceBytes e
  let pIdx := (str0.takeWhile fun c => c ≠ 96).length
  let margin := str0.take pIdx
  let str1 := dropWs (str0.drop (pIdx + 1))
  let str2 := str1.drop 1
  let nlStr : List Nat × List Nat :=
    if str2.headD 0 = 110 then ([92, 110], str2.drop 1)
    else ([92, 114, 92, 110], str2.drop 3)
  let str3 := nlStr.2.dropWhile fun c => c ≠ 10
  let str4 := str3.drop (1 + margin.length)
  let body := str4.take (str4.length - 1)
  outputMLLoop margin nlStr.1 (body.length + 1) body (outputByte e 34)

/-- The message of a numeric error token (`t.val.e`); error tokens always
carry a message, the default covers the impossible non-error payload. -/
def numErrMsg (t : NumToken) : ErrMsg :=
  match t.val with
  | .e m => m
  | _ => .invalidNumericExpression

/-- The rational of a decimal token; the default covers the impossible
non-decimal payload (the C source asserts it away). -/
def numQ (t : NumToken) : Frac :=
  match t.val with
  | .f a => a
  | _ => Frac.ofInt 0

/-! ## Structural parser

The C `value`/`member` return a `bool` that every caller uses only as
`if (...) break;` inside a loop whose condition also tests `done(e)`; since
a `false` return with the error state set still terminates the loop at the
next condition check with the same engine state, returning just the mutated
engine is behaviourally equivalent, and the loops below break on `done`. -/

/-- The body of `value` for one fuel level; `subMembers`/`subValues`/
`subValue` are the recursive calls, tied in `value` below so that the
definitions stay structurally recursive on the fuel. -/
def valueBody (subMembers subValues : Engine → Engine) (e : Engine) : Engine :=
  match e.tk.tag with
  | .closeSquare => setError e .unexpectedCloseSquare
  | .closeBrace => setError e .unexpectedCloseBrace
  | .doubleQuotedString => nextToken (outputDoubleQuotedString e)
  | .singleQuotedString => nextToken (outputSingleQuotedString e)
  | .multilineString => nextToken (outputMultilineString e)
  | .quotelessString =>
    let val := sliceBytes e
    match isLiteralValue val with
    | some str => nextToken (outputString e str)
    | none =>
      if isNumberExpr val then
        let t := evalNumberExpression val
        if t.tag = .error then
          setErrorAndPos e (numErrMsg t) ⟨e.tk.pos.b + t.pos, e.tk.pos.s, e.tk.pos.l⟩
        else nextToken (outputString e (formatG16 (numQ t)))
      else nextToken (outputQuotelessString e)
  | .openBrace =>
    let startPos := e.tk.pos
    let e1 := nextToken e
    if done e1 then
      if tkMsg e1 = some .endOfInput then setErrorAndPos e1 .unclosedObject startPos else e1
    else
      let e1 := { e1 with maxd := max e1.maxd (e1.depth + 1) }
      if e1.depth = maxDepth then setError e1 .maxObjectArrayDepth
      else
        let e2 := subMembers { e1 with depth := e1.depth + 1 }
        if done e2 then
          if tkMsg e2 = some .endOfInput then setErrorAndPos e2 .unclosedObject startPos
          else e2
        else nextToken { e2 with depth := e2.depth - 1 }
  | .openSquare =>
    let e1 := nextToken e
    if done e1 then
      if tkMsg e1 = some .endOfInput then setError e1 .unclosedArray else e1
    else
      let startPos := e1.tk.pos
      let e1 := { e1 with maxd := max e1.maxd (e1.depth + 1) }
      if e1.depth = maxDepth then setError e1 .maxObjectArrayDepth
      else
        let e2 := subValues { e1 with depth := e1.depth + 1 }
        if done e2 then
          if tkMsg e2 = some .endOfInput then setErrorAndPos e2 .unclosedArray startPos
          else e2
        else nextToken { e2 with depth := e2.depth - 1 }
  | _ => setError e .syntaxError

/-- The `while` loop of `values`. -/
def valuesLoopF (subValue : Engine → Engine) : Nat → Bool → Engine → Engine
  | 0, _, e => if done e then e else setError e .fuelExhausted
  | fuel + 1, notFirst, e =>
    if ¬done e ∧ e.tk.tag ≠ .closeSquare then
      if notFirst then
        let e1 := outputByte e 44
        if e1.tk.tag = .comma then
          let e2 := nextToken e1
          if done e2 then
            if tkMsg e2 = some .endOfInput then setError e2 .expectValueAfterComma else e2
          else if e2.tk.tag = .closeBrace ∨ e2.tk.tag = .closeSquare then
            setError e2 .expectValueAfterComma
          else
            let e3 := subValue e2
            if done e3 then e3 else valuesLoopF subValue fuel true e3
        else
          let e3 := subValue e1
          if done e3 then e3 else valuesLoopF subValue fuel true e3
      else
        let e3 := subValue e
        if done e3 then e3 else valuesLoopF subValue fuel true e3
    else e

/-- `values`: `[`, zero or more comma-separated values, `]`. -/
def valuesF (subValue : Engine → Engine) (fuel : Nat) (e : Engine) : Engine :=
  outputByte (valuesLoopF subValue fuel false (outputByte e 91)) 93

/-- `member`: one `identifier : value` member. -/
def memberF (subValue : Engine → Engine) (e : Engine) : Engine :=
  match e.tk.tag with
  | .closeSquare => setError e .unexpectedCloseSquare
  | _ =>
    let e1 :=
      match e.tk.tag with
      | .doubleQuotedString => outputDoubleQuotedString e
      | .singleQuotedString => outputSingleQuotedString e
      | .quotelessString => outputQuotelessString e
      | _ => setError e .expectStringIdentifier
    let e2 := nextToken e1
    if done e2 then
      if tkMsg e2 = some .endOfInput then setError e2 .unexpectedEndOfInput else e2
    else if e2.tk.tag ≠ .colon then setError e2 .expectColon
    else
      let e3 := nextToken (outputByte e2 58)
      if done e3 then
        if tkMsg e3 = some .endOfInput then setError e3 .unexpectedEndOfInput else e3
      else subValue e3

/-- The `while` loop of `members`. -/
def membersLoopF (subMember : Engine → Engine) : Nat → Bool → Engine → Engine
  | 0, _, e => if done e then e else setError e .fuelExhausted
  | fuel + 1, notFirst, e =>
    if ¬done e ∧ e.tk.tag ≠ .closeBrace then
      if notFirst then
        let e1 := outputByte e 44
        if e1.tk.tag = .comma then
          let e2 := nextToken e1
          if done e2 then
            if tkMsg e2 = some .endOfInput then setError e2 .expectIdentifierAfterComma else e2
          else if e2.tk.tag = .closeBrace ∨ e2.tk.tag = .closeSquare then
            setError e2 .expectIdentifierAfterComma
          else
            let e3 := subMember e2
            if done e3 then e3 else membersLoopF subMember fuel true e3
        else
          let e3 := subMember e1
          if done e3 then e3 else membersLoopF subMember fuel true e3
      else
        let e3 := subMember e
        if done e3 then e3 else membersLoopF subMember fuel true e3
    else e

/-- `members`: `{`, zero or more comma-separated members, `}`. -/
def membersF (subMember : Engine → Engine) (fuel : Nat) (e : Engine) : Engine :=
  outputByte (membersLoopF subMember fuel false (outputByte e 123)) 125

/-- `value`: process one value; ties the recursion of the structural
parser.  Each nesting level decrements the fuel once; loop iterations
consume the fuel of their own loop. -/
def value : Nat → Engine → Engine
  | 0, e => if done e then e else setError e .fuelExhausted
  | fuel + 1, e =>
    valueBody (membersF (memberF (fun e2 => value fuel e2)) fuel)
      (valuesF (fun e2 => value fuel e2) fuel) e

/-- `member` with the recursion tied. -/
def member (fuel : Nat) : Engine → Engine := memberF (fun e2 => value fuel e2)

/-- `members` with the recursion tied. -/
def members (fuel : Nat) : Engine → Engine := membersF (memberF (fun e2 => value fuel e2)) fuel

/-- `values` with the recursion tied. -/
def values (fuel : Nat) : Engine → Engine := valuesF (fun e2 => value fuel e2) fuel

/-! ## Top-level driver (`qjson_decode`) -/

/-- The freshly initialised engine of `qjson_decode`. -/
def initEngine (inp : List Nat) : Engine :=
  { scan := { input := inp, p := inp, b := 0, s := 0, l := 0 },
    tk := ⟨.unknown, ⟨0, 0, 0⟩, .nothing⟩,
    depth := 0, maxd := 0, out := [] }

/-- `qjson_decode` up to (but not including) output finalisation: prime the
lexer, parse the top-level implicit object, then turn a trailing `}` into a
syntax error (after which the token is always in the error state).  The
fuel is an upper bound on call depth plus loop iterations, each of which
consumes input; `4 * length + 16` never runs out. -/
def qjson_decodeEngine (inp : List Nat) : Engine :=
  let e := members (4 * inp.length + 16) (nextToken (initEngine inp))
  if e.tk.tag = .closeBrace then { e with tk := ⟨.error, e.tk.pos, .emsg .syntaxError⟩ }
  else e

/-- `qjson_decode`: the decoder entry point.  The returned NUL-terminated C
string is modelled as the byte list including the trailing NUL.  An empty
input returns `{}` immediately; the `end of input` sentinel message marks
success; any other final message is turned into the diagnostic
`<message> at line L col C` with 1-based line and 1-based UTF-8 column. -/
def qjson_decode (inp : List Nat) : List Nat :=
  if inp.length = 0 then [123, 125, 0]
  else
    let e := qjson_decodeEngine inp
    if tkMsg e = some .endOfInput then e.out ++ [0]
    else
      match e.tk.val with
      | .emsg m =>
        m.bytes ++ asciiBytes " at line " ++ natBytes (e.tk.pos.l + 1) ++
          asciiBytes " col " ++
          natBytes (column ((inp.drop e.tk.pos.s).take (e.tk.pos.b - e.tk.pos.s)) + 1) ++ [0]
      | _ => [0]


/-! ## Token and engine invariants (used by claims C1 and C5) -/

/-- The shape of a lexer token: an error token always carries a message, the
message is never the depth message, and a non-error token never carries a
message. -/
def tokOk (tk : Token) : Prop :=
  match tk.val with
  | .emsg m => tk.tag = .error ∧ m ≠ .maxObjectArrayDepth
  | _ => tk.tag ≠ .error


/-- A numeric token that does not carry the depth message. -/
def numTokOk (t : NumToken) : Prop := t.val ≠ NumVal.e .maxObjectArrayDepth


/-- The conversion-engine invariant coupling the current token with the
ghost `maxd` field: an error token always carries a message, a non-error
token never does, and the token carries the depth message exactly when the
parser attempted to enter depth `maxDepth + 1` (see claim C5). -/
def engOk (e : Engine) : Prop :=
  (∀ m, e.tk.val = .emsg m → e.tk.tag = .error) ∧
  (e.tk.tag = .error → ∃ m, e.tk.val = .emsg m) ∧
  (tkMsg e = some .maxObjectArrayDepth ↔ maxDepth < e.maxd)

/-! ## The literal-mapping characterisation (spec side of claim C7)

`literalSpec` restates, in the words of the amended claim, which quoteless
strings are mapped to keywords: a string of length 2–5 whose leading bytes
match one of the patterns below, longest pattern first.  `casePat lo up s`
says the first byte of `s` is the first letter of the word in either case
and the following bytes are the remaining letters all-lowercase or
all-uppercase (for the canonical case variations the whole string matches a
pattern; the fall-through of the C `switch` additionally maps longer
strings whose prefix matches). -/

def casePat (lo up s : List Nat) : Prop :=
  match lo, up, s with
  | l0 :: lt, u0 :: ut, c :: rest => (c = l0 ∨ c = u0) ∧ (rest = lt ∨ rest = ut)
  | _, _, _ => False

instance : ∀ lo up s, Decidable (casePat lo up s) := by
  intro lo up s
  unfold casePat
  split <;> infer_instance

/-- The amended-claim description of the literal mapping (word patterns
given as ASCII byte lists: `false`/`FALSE`, `null`/`NULL`, `true`/`TRUE`,
`yes`/`YES`, `off`/`OFF`, `on`/`ON`, `no`/`NO`). -/
def literalSpec (s : List Nat) : Option (List Nat) :=
  if s.length = 5 ∧ casePat [102, 97, 108, 115, 101] [70, 65, 76, 83, 69] s then
    some falseBytes
  else if 4 ≤ s.length ∧ s.length ≤ 5 ∧
      casePat [110, 117, 108, 108] [78, 85, 76, 76] (s.take 4) then some nullBytes
  else if 4 ≤ s.length ∧ s.length ≤ 5 ∧
      casePat [116, 114, 117, 101] [84, 82, 85, 69] (s.take 4) then some trueBytes
  else if 3 ≤ s.length ∧ s.length ≤ 5 ∧
      casePat [121, 101, 115] [89, 69, 83] (s.take 3) then some trueBytes
  else if 3 ≤ s.length ∧ s.length ≤ 5 ∧
      casePat [111, 102, 102] [79, 70, 70] (s.take 3) then some falseBytes
  else if 2 ≤ s.length ∧ s.length ≤ 5 ∧ casePat [111, 110] [79, 78] (s.take 2) then
    some trueBytes
  else if 2 ≤ s.length ∧ s.length ≤ 5 ∧ casePat [110, 111] [78, 79] (s.take 2) then
    some falseBytes
  else none

/-! ## Claim theorems -/

theorem orElse_ite {α : Type} (P : Prop) [Decidable P] (x : α) (E : Option α)
    (f : Unit → Option α) :
    Option.orElse (if P then some x else E) f = if P then some x else Option.orElse E f := by
  split <;> rfl

theorem orElse_none {α : Type} (f : Unit → Option α) : Option.orElse none f = f () := rfl

/-- Claim C7 (amended): `isLiteralValue` (the function `value` applies to
every quoteless token) maps a quoteless string to a keyword exactly as
described by `literalSpec`: all case variations in the claim's sense match
the patterns with the whole string and map to the canonical keyword, but
additionally every 2–5 byte string whose leading bytes match a pattern is
mapped (the `switch` fall-through), and no other quoteless string is
mapped. -/
theorem claim_C7_amended : ∀ s : List Nat, isLiteralValue s = literalSpec s := by
  intro s
  match s with
  | [] => rfl
  | [_] => rfl
  | [a, b] =>
    simp only [isLiteralValue, literalSpec, litCase2, orElse_ite, orElse_none, casePat,
      List.take, List.length, List.cons.injEq, and_true, Nat.le_refl, true_and, and_self]
    norm_num
  | [a, b, c] =>
    simp only [isLiteralValue, literalSpec, litCase3, litCase2, orElse_ite, orElse_none, casePat,
      List.take, List.length, List.cons.injEq, and_true, Nat.le_refl, true_and, and_self]
    norm_num
  | [a, b, c, d] =>
    simp only [isLiteralValue, literalSpec, litCase4, litCase3, litCase2, orElse_ite, orElse_none,
      casePat, List.take, List.length, List.cons.injEq, and_true, Nat.le_refl, true_and, and_self]
    norm_num
  | [a, b, c, d, e] =>
    simp only [isLiteralValue, literalSpec, litCase5, litCase4, litCase3, litCase2, orElse_ite,
      orElse_none, casePat, List.take, List.length, List.cons.injEq, and_true, Nat.le_refl,
      true_and, and_self]
    norm_num
  | a :: b :: c :: d :: e :: f :: rest =>
    simp only [literalSpec, List.length_cons]
    split_ifs with h1 h2 h3 h4 h5 h6 h7 <;>
      first
        | rfl
        | (exfalso; omega)

/-- Claim C8: `decode` of `ttl: 1h30m` returns exactly `{"ttl":5400}`
(NUL-terminated): the unit suffixes `h` and `m` are left operators with an
optional right operand, so `1h30m` evaluates to `1·3600 + 30·60 = 5400`,
emitted by `%.16g` without a decimal point. -/
theorem claim_C8_duration_ttl :
    qjson_decode (asciiBytes "ttl: 1h30m") = asciiBytes "\x7b\"ttl\":5400\x7d" ++ [0] := by
  decide

/-- Claim C8, expression view: the quoteless expression `1h30m` itself
evaluates to the decimal value 5400. -/
theorem evalNumberExpression_1h30m :
    (evalNumberExpression (asciiBytes "1h30m")).val = .f ⟨5400, 1⟩ := by decide

/-- Claim C2 (code bug): the ISO date-time `2000-01-01T24:30` has hour 24
with minute 30 (seconds and fraction zero).  The claim and the spec require
evaluation to fail with `invalid ISO date time`, but `makeTime` joins its
hour-24 conditions with `&&` instead of `||`, so it only rejects when
minute, second AND fraction are all non-zero: the literal is accepted and
decodes to 946773000 seconds (2000-01-02T00:30:00Z). -/
theorem claim_C2_hour24_accepted :
    qjson_decode (asciiBytes "t: 2000-01-01T24:30") = asciiBytes "\x7b\"t\":946773000\x7d" ++ [0] ∧
      makeTime ⟨2000, 1, 1, 24, 30, 0, 0, 0, Frac.ofInt 0⟩ = Frac.ofInt 946773000 := by
  constructor
  · decide
  · decide

/-- Claim C3 (counterexample): `decode` of `{a:1` does NOT return
`unclosed object at line 1 col 1`.  The top level is an implicit object, so
the leading `{` sits where an identifier is expected and `member` rejects it
with `expect string identifier` at the position after the `{` (line 1
col 2). -/
theorem claim_C3_counterexample :
    qjson_decode (asciiBytes "\x7ba:1") =
        asciiBytes "expect string identifier at line 1 col 2" ++ [0] ∧
      qjson_decode (asciiBytes "\x7ba:1") ≠
        asciiBytes "unclosed object at line 1 col 1" ++ [0] := by
  constructor
  · decide
  · decide

/-- Claim C3 (amended): for the input `{a:1` decode returns
`expect string identifier at line 1 col 2` (the top level is an implicit
object, so `{` cannot start an identifier); when end of input is reached
before an explicit, value-position object's closing `}`, the resulting
`unclosed object` error is anchored at that object's opening `{` — for
`a:{b:1` at line 1 col 3 (the `{`), not at the end of input, and for
`a:{b:{c:1` at the innermost opening `{` (line 1 col 6). -/
theorem claim_C3_amended :
    qjson_decode (asciiBytes "\x7ba:1") =
        asciiBytes "expect string identifier at line 1 col 2" ++ [0] ∧
      qjson_decode (asciiBytes "a:\x7bb:1") =
        asciiBytes "unclosed object at line 1 col 3" ++ [0] ∧
      qjson_decode (asciiBytes "a:\x7bb:\x7bc:1") =
        asciiBytes "unclosed object at line 1 col 6" ++ [0] := by
  refine ⟨by decide, by decide, by decide⟩

/-- Claim C4 (code bug): in the double-quoted value `"\u00G0"` the escape
`\u00G0` is not JSON-legal (its third hex position holds `G`, and
`isHexDigit 71 = false`), so the claim and the spec require decode to fail
with `invalid escape squence`; but the check in `outputDoubleQuotedString`
tests the byte at offset `i+5` twice and never the byte at `i+4`, so the
escape is accepted and copied through. -/
theorem claim_C4_third_hex_digit_unchecked :
    qjson_decode (asciiBytes "a:\"\\u00G0\"") = asciiBytes "\x7b\"a\":\"\\u00G0\"\x7d" ++ [0] ∧
      isHexDigit 71 = false := by
  constructor
  · decide
  · decide

/-- Claim C6 (code bug): the decimal integer literal `18446744073709551616`
denotes `2^64 ≥ 2^63`, so the claim and the spec require `number overflow`;
but the guard in `decodeIntLiteral` (`val > 0x1999999999999999`) does not
stop the final `val * 10 + d` from wrapping past `2^64`, the accumulator
wraps to 0, the sign-bit check passes, and the literal evaluates to 0. -/
theorem claim_C6_wraparound_accepted :
    qjson_decode (asciiBytes "a:18446744073709551616") = asciiBytes "\x7b\"a\":0\x7d" ++ [0] ∧
      decodeIntLiteral (asciiBytes "18446744073709551616") = 0 ∧
      2 ^ 63 ≤ 18446744073709551616 := by
  refine ⟨by decide, by decide, by decide⟩

/-- Claim C7 (counterexample): the quoteless value `None` is not an
ASCII-lowercase or ASCII-uppercase case variation of any of
`yes/no/on/off/true/false/null`, yet decode maps it to the keyword `false`:
the `switch` in `isLiteralValue` falls through from the length-4 cases to
the 2-byte `no` pattern, which matches the prefix `No`. -/
theorem claim_C7_counterexample :
    qjson_decode (asciiBytes "a:None") = asciiBytes "\x7b\"a\":false\x7d" ++ [0] ∧
      isLiteralValue (asciiBytes "None") = some falseBytes := by
  constructor
  · decide
  · decide

/-- Claim C9: once a tokenizer is in the `Error` state, `nextToken` (main
lexer) and `numNextToken` (numeric lexer) are no-ops: the whole engine
state — current token, position and remaining input — is returned
unchanged, so the first error is the one reported. -/
theorem claim_C9_error_state_frozen :
    (∀ e : Engine, e.tk.tag = .error → nextToken e = e) ∧
      ∀ ne : NumEngine, ne.tk.tag = .error → numNextToken ne = ne := by
  constructor
  · intro e h
    simp [nextToken, h]
  · intro ne h
    simp [numNextToken, h]

/-! ### Unreachability of the `assert(false)` in `nextToken` (claim C10) -/

theorem whitespace_le : ∀ p : List Nat, whitespace p ≤ p.length
  | [] => by simp [whitespace]
  | [c] => by by_cases h : c = 32 ∨ c = 9 <;> simp [whitespace, h]
  | c :: c2 :: rest => by
    by_cases h : c = 32 ∨ c = 9
    · simp [whitespace, h]
    · by_cases h2 : c = 0xC2 ∧ c2 = 0xA0 <;> simp [whitespace, h, h2]

theorem whitespace_skipWhitespacesLoop (fuel : Nat) :
    ∀ sc : Scan, sc.p.length ≤ fuel → whitespace (skipWhitespacesLoop fuel sc).p = 0 := by
  induction fuel with
  | zero =>
    intro sc h
    have hp : sc.p = [] := List.length_eq_zero.mp (Nat.le_zero.mp h)
    simp [skipWhitespacesLoop, hp, whitespace]
  | succ n ih =>
    intro sc h
    unfold skipWhitespacesLoop
    by_cases hw : whitespace sc.p = 0
    · simp [hw]
    · simp only [hw, if_neg]
      apply ih
      have h1 : 1 ≤ whitespace sc.p := Nat.one_le_iff_ne_zero.mpr hw
      have h2 : whitespace sc.p ≤ sc.p.length := whitespace_le sc.p
      simp only [popB, List.length_drop]
      omega

theorem whitespace_skipWhitespaces (sc : Scan) : whitespace (skipWhitespaces sc).p = 0 :=
  whitespace_skipWhitespacesLoop _ sc (Nat.le_succ _)

theorem skipWhitespacesLoop_b_le (fuel : Nat) :
    ∀ sc : Scan, sc.b ≤ (skipWhitespacesLoop fuel sc).b := by
  induction fuel with
  | zero => intro sc; simp [skipWhitespacesLoop]
  | succ n ih =>
    intro sc
    unfold skipWhitespacesLoop
    by_cases hw : whitespace sc.p = 0
    · simp [hw]
    · simp only [hw, if_neg]
      exact le_trans (Nat.le_add_right _ _) (ih (popB sc (whitespace sc.p)))

theorem popNewline_none (sc : Scan) (h : popNewline sc = none) : newline sc.p = 0 := by
  unfold popNewline at h
  by_cases hn : newline sc.p = 0
  · exact hn
  · simp [hn] at h

theorem skipLineComment_false (sc sc2 : Scan) (h : skipLineComment sc = .ok (false, sc2)) :
    ∀ c rest, sc.p = c :: rest → ¬(c = 35 ∨ (c = 47 ∧ rest.headD 0 = 47)) := by
  intro c rest hp hc
  unfold skipLineComment at h
  rw [hp] at h
  dsimp only at h
  rw [if_pos hc] at h
  cases hsr : skipRestOfLine sc <;> rw [hsr] at h <;> simp at h

theorem skipMultilineComment_false (sc sc2 : Scan)
    (h : skipMultilineComment sc = .ok (false, sc2)) :
    ∀ c rest, sc.p = c :: rest → ¬(c = 47 ∧ rest.headD 0 = 42) := by
  intro c rest hp hc
  unfold skipMultilineComment at h
  rw [hp] at h
  match rest, hc with
  | c2 :: rest2, hc =>
    have hc2 : c2 = 42 := by simpa using hc.2
    dsimp only at h
    rw [if_pos ⟨hc.1, hc2⟩] at h
    cases hml : skipMultilineCommentLoop sc.pos ((c :: c2 :: rest2).length + 1) (popB sc 2) <;>
      rw [hml] at h <;> simp at h

/-- The postcondition of `skipSpaces` used by the unreachability proof:
when it succeeds, the front of the remaining input is not whitespace, not a
newline, not a `#` line comment, and not a `//` or `/*` comment start. -/
theorem skipSpacesLoop_post (fuel : Nat) :
    ∀ sc sc1 : Scan, skipSpacesLoop fuel sc = .ok sc1 →
      whitespace sc1.p = 0 ∧ newline sc1.p = 0 ∧
        ∀ c rest, sc1.p = c :: rest →
          c ≠ 35 ∧ ¬(c = 47 ∧ rest.headD 0 = 47) ∧ ¬(c = 47 ∧ rest.headD 0 = 42) := by
  induction fuel with
  | zero => intro sc sc1 h; simp [skipSpacesLoop] at h
  | succ n ih =>
    intro sc sc1 h
    unfold skipSpacesLoop at h
    dsimp only at h
    by_cases hemp : sc.p = []
    · rw [if_pos hemp] at h
      simp only [Except.ok.injEq] at h
      subst h
      refine ⟨by simp [hemp, whitespace], by simp [hemp, newline], by simp [hemp]⟩
    · rw [if_neg hemp] at h
      cases hlc : skipLineComment (skipWhitespaces sc) with
      | error q => rw [hlc] at h; simp at h
      | ok r =>
        rw [hlc] at h
        match r with
        | (true, sc2) => exact ih sc2 sc1 h
        | (false, sc2) =>
          cases hmc : skipMultilineComment (skipWhitespaces sc) with
          | error q => rw [hmc] at h; simp at h
          | ok r2 =>
            rw [hmc] at h
            match r2 with
            | (true, sc3) => exact ih sc3 sc1 h
            | (false, sc3) =>
              cases hpn : popNewline (skipWhitespaces sc) with
              | some sc4 => rw [hpn] at h; exact ih sc4 sc1 h
              | none =>
                rw [hpn] at h
                simp only [Except.ok.injEq] at h
                subst h
                refine ⟨whitespace_skipWhitespaces sc, popNewline_none _ hpn, ?_⟩
                intro c rest hp
                have h1 := skipLineComment_false _ _ hlc c rest hp
                have h2 := skipMultilineComment_false _ _ hmc c rest hp
                exact ⟨fun hc => h1 (Or.inl hc), fun hc => h1 (Or.inr hc), h2⟩

theorem utf8Table_mod16_pos (c : Nat) : utf8Table c = 0 ∨ 1 ≤ utf8Table c % 16 := by
  by_cases h1 : c = 9
  · right; simp [utf8Table, h1]
  by_cases h2 : c < 0x20
  · left; simp [utf8Table, h1, h2]
  by_cases h3 : c < 0x80
  · right; simp [utf8Table, h1, h2, h3]
  by_cases h4 : c < 0xC2
  · left; simp [utf8Table, h1, h2, h3, h4]
  by_cases h5 : c < 0xE0
  · right; simp [utf8Table, h1, h2, h3, h4, h5]
  by_cases h6 : c = 0xE0
  · right; simp [utf8Table, h1, h2, h3, h4, h5, h6]
  by_cases h7 : c ≤ 0xEC
  · right; simp [utf8Table, h1, h2, h3, h4, h5, h6, h7]
  by_cases h8 : c = 0xED
  · right; simp [utf8Table, h1, h2, h3, h4, h5, h6, h7, h8]
  by_cases h9 : c ≤ 0xEF
  · right; simp [utf8Table, h1, h2, h3, h4, h5, h6, h7, h8, h9]
  by_cases h10 : c = 0xF0
  · right; simp [utf8Table, h1, h2, h3, h4, h5, h6, h7, h8, h9, h10]
  by_cases h11 : c ≤ 0xF3
  · right; simp [utf8Table, h1, h2, h3, h4, h5, h6, h7, h8, h9, h10, h11]
  by_cases h12 : c = 0xF4
  · right; simp [utf8Table, h1, h2, h3, h4, h5, h6, h7, h8, h9, h10, h11, h12]
  left; simp [utf8Table, h1, h2, h3, h4, h5, h6, h7, h8, h9, h10, h11, h12]

theorem qchar_pos (sc : Scan) (n : Nat) (hne : sc.p ≠ []) (h : qchar sc = .ok n) : 1 ≤ n := by
  unfold qchar at h
  match hp : sc.p, hne with
  | c :: rest, _ =>
    rw [hp] at h
    dsimp only at h
    rcases utf8Table_mod16_pos c with h0 | h1
    · rw [h0] at h
      simp at h
    · split at h
      · simp only [Except.ok.injEq] at h
        omega
      · split at h
        · simp at h
        · split at h
          · simp at h
          · split at h
            · simp at h
            · split at h
              · simp at h
              · split at h
                · simp at h
                · simp only [Except.ok.injEq] at h
                  omega

theorem qlLoop_not_none (startB : Nat) (fuel : Nat) :
    ∀ (sc : Scan) (endIdx : Nat), startB ≤ sc.b → startB ≠ endIdx →
      ∀ r, quotelessStringLoop startB fuel sc endIdx = .ok (none, r) → False := by
  induction fuel with
  | zero => intro sc endIdx _ _ r h; simp [quotelessStringLoop] at h
  | succ n ih =>
    intro sc endIdx hle hne r h
    unfold quotelessStringLoop at h
    match hp : sc.p with
    | [] =>
      rw [hp] at h
      dsimp only at h
      rw [if_neg hne] at h
      simp at h
    | c :: rest =>
      rw [hp] at h
      dsimp only at h
      by_cases hw : whitespace (c :: rest) ≠ 0
      · rw [if_pos hw] at h
        exact ih (skipWhitespaces sc) endIdx
          (le_trans hle (skipWhitespacesLoop_b_le _ sc)) hne r h
      · rw [if_neg hw] at h
        split at h
        · by_cases hn0 : lenISODateTime sc = 0
          · rw [if_pos hn0] at h
            simp at h
          · rw [if_neg hn0] at h
            refine ih (popB sc (lenISODateTime sc)) (popB sc (lenISODateTime sc)).b ?_ ?_ r h
            · simp only [popB]; omega
            · simp only [popB]; omega
        · match hq : qchar sc with
          | .error q => rw [hq] at h; simp at h
          | .ok m =>
            rw [hq] at h
            have hm : 1 ≤ m := qchar_pos sc m (by simp [hp]) hq
            refine ih (popB sc m) (popB sc m).b ?_ ?_ r h
            · simp only [popB]; omega
            · simp only [popB]; omega

theorem quotelessString_not_none (sc : Scan) (c : Nat) (rest : List Nat)
    (hp : sc.p = c :: rest)
    (hw : whitespace sc.p = 0) (hn : newline sc.p = 0)
    (hhash : c ≠ 35)
    (hcm1 : ¬(c = 47 ∧ rest.headD 0 = 47)) (hcm2 : ¬(c = 47 ∧ rest.headD 0 = 42))
    (hdelim : tkTagTable c = .unknown) :
    ∀ r, quotelessString sc ≠ .ok (none, r) := by
  intro r h
  rw [hp] at hw hn
  unfold quotelessString at h
  unfold quotelessStringLoop at h
  rw [hp] at h
  dsimp only at h
  rw [if_neg (not_not_intro hw)] at h
  have hstop : ¬(stopByte c ∧ ((c = 47 ∧ (rest.headD 0 = 47 ∨ rest.headD 0 = 42) ∧ rest ≠ []) ∨
      newline (c :: rest) ≠ 0 ∨ (c ≠ 13 ∧ c ≠ 47))) := by
    rintro ⟨hsb, hinner⟩
    simp only [stopByte, decide_eq_true_eq] at hsb
    rcases hinner with ⟨h47, hd, -⟩ | hnl | ⟨h13, h47⟩
    · rcases hd with hd | hd
      · exact hcm1 ⟨h47, hd⟩
      · exact hcm2 ⟨h47, hd⟩
    · exact hnl hn
    · rcases hsb with h' | h' | h' | h' | h' | h' | h' | h' | h' | h'
      · rw [h'] at hn; simp [newline] at hn
      · exact h13 h'
      · exact hhash h'
      · rw [h'] at hdelim; simp [tkTagTable] at hdelim
      · exact h47 h'
      · rw [h'] at hdelim; simp [tkTagTable] at hdelim
      · rw [h'] at hdelim; simp [tkTagTable] at hdelim
      · rw [h'] at hdelim; simp [tkTagTable] at hdelim
      · rw [h'] at hdelim; simp [tkTagTable] at hdelim
      · rw [h'] at hdelim; simp [tkTagTable] at hdelim
  rw [if_neg hstop] at h
  generalize hq : qchar sc = res at h
  cases res with
  | error q => simp at h
  | ok m =>
    have hm : 1 ≤ m := qchar_pos sc m (by simp [hp]) hq
    exact qlLoop_not_none sc.b _ (popB sc m) (popB sc m).b
      (by simp only [popB]; omega) (by simp only [popB]; omega) r h

/-- Claim C10: `nextToken` always sets a token.  From any scan state, once
whitespace, comments and newlines are skipped and input remains, exactly one
of delimiter, double-quoted, single-quoted, multiline or quoteless matching
succeeds or reports an error; in particular `quotelessString` never returns
an empty slice without error at that call site, so `nextTokenCore` never
returns `none` — the trailing `assert(false)` of the C `nextToken` is
unreachable. -/
theorem claim_C10_assert_unreachable : ∀ sc : Scan, nextTokenCore sc ≠ none := by
  intro sc h
  unfold nextTokenCore at h
  cases hss : skipSpaces sc with
  | error q => rw [hss] at h; simp at h
  | ok sc1 =>
    rw [hss] at h
    obtain ⟨hw, hn, hhd⟩ := skipSpacesLoop_post _ sc sc1 hss
    dsimp only at h
    by_cases hemp : sc1.p = []
    · rw [if_pos hemp] at h; simp at h
    · rw [if_neg hemp] at h
      match hp : sc1.p, hemp with
      | c :: rest, _ =>
        obtain ⟨h35, h477, h4742⟩ := hhd c rest hp
        have hdel : delimiter sc1 = (tkTagTable c, if tkTagTable c = .unknown then sc1 else popB sc1 1) := by
          unfold delimiter
          rw [hp]
          dsimp only
          split <;> simp_all
        rw [hdel] at h
        by_cases hunk : tkTagTable c = Tag.unknown
        · rw [if_pos hunk] at h
          revert h
          rw [hunk]
          dsimp only
          intro h
          cases hdq : doubleQuotedString sc1 with
          | error q => rw [hdq] at h; simp at h
          | ok rdq =>
            rw [hdq] at h
            match rdq with
            | (some (st, ln), sc2) => simp at h
            | (none, scx) =>
              dsimp only at h
              cases hsq : singleQuotedString sc1 with
              | error q => rw [hsq] at h; simp at h
              | ok rsq =>
                rw [hsq] at h
                match rsq with
                | (some (st, ln), sc2) => simp at h
                | (none, scx) =>
                  dsimp only at h
                  cases hml : multilineString sc1 with
                  | error q => rw [hml] at h; simp at h
                  | ok rml =>
                    rw [hml] at h
                    match rml with
                    | (some (st, ln), sc2) => simp at h
                    | (none, scx) =>
                      dsimp only at h
                      cases hql : quotelessString sc1 with
                      | error q => rw [hql] at h; simp at h
                      | ok rql =>
                        rw [hql] at h
                        match rql with
                        | (some (st, ln), sc2) => simp at h
                        | (none, scr) =>
                          exact quotelessString_not_none sc1 c rest hp hw
                            (hp ▸ hn) h35 h477 h4742 hunk scr hql
        · rw [if_neg hunk] at h
          revert h
          match tkTagTable c, hunk with
          | .error, _ => simp
          | .integerVal, _ => simp
          | .decimalVal, _ => simp
          | .plus, _ => simp
          | .minus, _ => simp
          | .multiplication, _ => simp
          | .division, _ => simp
          | .xor, _ => simp
          | .and, _ => simp
          | .or, _ => simp
          | .inverse, _ => simp
          | .modulo, _ => simp
          | .openParen, _ => simp
          | .closeParen, _ => simp
          | .weeks, _ => simp
          | .days, _ => simp
          | .hours, _ => simp
          | .minutes, _ => simp
          | .seconds, _ => simp
          | .openBrace, _ => simp
          | .closeBrace, _ => simp
          | .openSquare, _ => simp
          | .closeSquare, _ => simp
          | .colon, _ => simp
          | .quotelessString, _ => simp
          | .doubleQuotedString, _ => simp
          | .singleQuotedString, _ => simp
          | .multilineString, _ => simp
          | .comma, _ => simp

/-- Witness for C9: both no-op statements applied to concrete engines in
the error state. -/
theorem claim_C9_witness :
    nextToken (setError (initEngine [97]) .syntaxError) = setError (initEngine [97]) .syntaxError ∧
      numNextToken ⟨[49], 0, ⟨.error, 0, .e .syntaxError⟩⟩ =
        ⟨[49], 0, ⟨.error, 0, .e .syntaxError⟩⟩ := by
  exact ⟨claim_C9_error_state_frozen.1 _ rfl, claim_C9_error_state_frozen.2 _ rfl⟩


/-! ### Lexer error messages

No lexer error message is `too many object or array encapsulations`: that
message is set only by the structural parser's depth checks.  These lemmas
feed the depth-error characterisation of claim C5. -/

theorem qchar_msg (sc : Scan) (q : QErr) (h : qchar sc = .error q) :
    q.2 ≠ .maxObjectArrayDepth := by
  unfold qchar at h
  rcases hp : sc.p with _ | ⟨c, rest⟩ <;> rw [hp] at h
  · simp at h
  · dsimp only at h
    split at h
    · simp at h
    · split at h
      · simp only [Except.error.injEq] at h; subst h; simp
      · split at h
        · simp only [Except.error.injEq] at h; subst h; simp
        · split at h
          · simp only [Except.error.injEq] at h; subst h; simp
          · split at h
            · simp only [Except.error.injEq] at h; subst h; simp
            · split at h
              · simp only [Except.error.injEq] at h; subst h; simp
              · simp at h

theorem skipRestOfLineLoop_msg (fuel : Nat) :
    ∀ (sc : Scan) (q : QErr), skipRestOfLineLoop fuel sc = .error q →
      q.2 ≠ .maxObjectArrayDepth := by
  induction fuel with
  | zero =>
    intro sc q h
    unfold skipRestOfLineLoop at h
    simp only [Except.error.injEq] at h; subst h; simp
  | succ n ih =>
    intro sc q h
    unfold skipRestOfLineLoop at h
    cases hpn : popNewline sc with
    | some sc1 => rw [hpn] at h; simp at h
    | none =>
      rw [hpn] at h
      by_cases hpe : sc.p = []
      · rw [if_pos hpe] at h; simp at h
      · rw [if_neg hpe] at h
        cases hq : qchar sc with
        | error er =>
          rw [hq] at h
          simp only [Except.error.injEq] at h
          subst h
          exact qchar_msg sc er hq
        | ok m => rw [hq] at h; exact ih _ q h

theorem skipRestOfLine_msg (sc : Scan) (q : QErr) (h : skipRestOfLine sc = .error q) :
    q.2 ≠ .maxObjectArrayDepth := skipRestOfLineLoop_msg _ sc q h

theorem skipLineComment_msg (sc : Scan) (q : QErr) (h : skipLineComment sc = .error q) :
    q.2 ≠ .maxObjectArrayDepth := by
  unfold skipLineComment at h
  rcases hp : sc.p with _ | ⟨c, rest⟩ <;> rw [hp] at h
  · simp at h
  · dsimp only at h
    split at h
    · cases hr : skipRestOfLine sc with
      | error er =>
        rw [hr] at h
        simp only [Except.error.injEq] at h
        subst h
        exact skipRestOfLine_msg sc er hr
      | ok sc1 => rw [hr] at h; simp at h
    · simp at h

theorem skipMultilineCommentLoop_msg (startPos : Pos) (fuel : Nat) :
    ∀ (sc : Scan) (q : QErr), skipMultilineCommentLoop startPos fuel sc = .error q →
      q.2 ≠ .maxObjectArrayDepth := by
  induction fuel with
  | zero =>
    intro sc q h
    unfold skipMultilineCommentLoop at h
    simp only [Except.error.injEq] at h; subst h; simp
  | succ n ih =>
    intro sc q h
    unfold skipMultilineCommentLoop at h
    rcases hp : sc.p with _ | ⟨c, rest⟩ <;> rw [hp] at h
    · simp only [Except.error.injEq] at h; subst h; simp
    · dsimp only at h
      by_cases hcl : c = 42 ∧ rest.headD 0 = 47
      · rw [if_pos hcl] at h; simp at h
      · rw [if_neg hcl] at h
        cases hpn : popNewline sc with
        | some sc1 => rw [hpn] at h; exact ih _ q h
        | none =>
          rw [hpn] at h
          by_cases hsm : c < 0x20
          · rw [if_pos hsm] at h; exact ih _ q h
          · rw [if_neg hsm] at h
            cases hq : qchar sc with
            | error er =>
              rw [hq] at h
              simp only [Except.error.injEq] at h
              subst h
              exact qchar_msg sc er hq
            | ok m => rw [hq] at h; exact ih _ q h

theorem skipMultilineComment_msg (sc : Scan) (q : QErr)
    (h : skipMultilineComment sc = .error q) : q.2 ≠ .maxObjectArrayDepth := by
  unfold skipMultilineComment at h
  rcases hp : sc.p with _ | ⟨c, rest⟩ <;> rw [hp] at h
  · simp at h
  · rcases rest with _ | ⟨c2, rest2⟩
    · simp at h
    · dsimp only at h
      split at h
      · cases hr : skipMultilineCommentLoop sc.pos ((c :: c2 :: rest2).length + 1) (popB sc 2) with
        | error er =>
          rw [hr] at h
          simp only [Except.error.injEq] at h
          subst h
          exact skipMultilineCommentLoop_msg _ _ _ er hr
        | ok sc1 => rw [hr] at h; simp at h
      · simp at h

theorem skipSpacesLoop_msg (fuel : Nat) :
    ∀ (sc : Scan) (q : QErr), skipSpacesLoop fuel sc = .error q →
      q.2 ≠ .maxObjectArrayDepth := by
  induction fuel with
  | zero =>
    intro sc q h
    unfold skipSpacesLoop at h
    simp only [Except.error.injEq] at h; subst h; simp
  | succ n ih =>
    intro sc q h
    unfold skipSpacesLoop at h
    dsimp only at h
    by_cases hemp : sc.p = []
    · rw [if_pos hemp] at h; simp at h
    · rw [if_neg hemp] at h
      cases hlc : skipLineComment (skipWhitespaces sc) with
      | error er =>
        rw [hlc] at h
        simp only [Except.error.injEq] at h
        subst h
        exact skipLineComment_msg _ er hlc
      | ok r =>
        rw [hlc] at h
        match r with
        | (true, sc2) => exact ih sc2 q h
        | (false, sc2) =>
          cases hmc : skipMultilineComment (skipWhitespaces sc) with
          | error er =>
            rw [hmc] at h
            simp only [Except.error.injEq] at h
            subst h
            exact skipMultilineComment_msg _ er hmc
          | ok r2 =>
            rw [hmc] at h
            match r2 with
            | (true, sc3) => exact ih sc3 q h
            | (false, sc3) =>
              cases hpn : popNewline (skipWhitespaces sc) with
              | some sc4 => rw [hpn] at h; exact ih sc4 q h
              | none => rw [hpn] at h; simp at h

theorem skipSpaces_msg (sc : Scan) (q : QErr) (h : skipSpaces sc = .error q) :
    q.2 ≠ .maxObjectArrayDepth := skipSpacesLoop_msg _ sc q h

theorem quotedStringLoop_msg (qu : Nat) (uncMsg nlMsg : ErrMsg) (startPos : Pos)
    (hu : uncMsg ≠ .maxObjectArrayDepth) (hn : nlMsg ≠ .maxObjectArrayDepth) (fuel : Nat) :
    ∀ (sc : Scan) (q : QErr), quotedStringLoop qu uncMsg nlMsg startPos fuel sc = .error q →
      q.2 ≠ .maxObjectArrayDepth := by
  induction fuel with
  | zero =>
    intro sc q h
    unfold quotedStringLoop at h
    simp only [Except.error.injEq] at h; subst h; simp
  | succ n ih =>
    intro sc q h
    unfold quotedStringLoop at h
    rcases hp : sc.p with _ | ⟨c, rest⟩ <;> rw [hp] at h
    · simp only [Except.error.injEq] at h; subst h; exact hu
    · dsimp only at h
      split at h
      · exact ih _ q h
      · split at h
        · simp at h
        · split at h
          · simp only [Except.error.injEq] at h; subst h; exact hn
          · cases hq : qchar sc with
            | error er =>
              rw [hq] at h
              simp only [Except.error.injEq] at h
              subst h
              exact qchar_msg sc er hq
            | ok m => rw [hq] at h; exact ih _ q h

theorem doubleQuotedString_msg (sc : Scan) (q : QErr) (h : doubleQuotedString sc = .error q) :
    q.2 ≠ .maxObjectArrayDepth := by
  unfold doubleQuotedString at h
  rcases hp : sc.p with _ | ⟨c, rest⟩ <;> rw [hp] at h
  · simp at h
  · dsimp only at h
    split at h
    · exact quotedStringLoop_msg 34 _ _ sc.pos (by simp) (by simp) _ _ q h
    · simp at h

theorem singleQuotedString_msg (sc : Scan) (q : QErr) (h : singleQuotedString sc = .error q) :
    q.2 ≠ .maxObjectArrayDepth := by
  unfold singleQuotedString at h
  rcases hp : sc.p with _ | ⟨c, rest⟩ <;> rw [hp] at h
  · simp at h
  · dsimp only at h
    split at h
    · exact quotedStringLoop_msg 39 _ _ sc.pos (by simp) (by simp) _ _ q h
    · simp at h

theorem multilineStringLoop_msg (margin : List Nat) (startPos : Pos) (fuel : Nat) :
    ∀ (sc : Scan) (q : QErr), multilineStringLoop margin startPos fuel sc = .error q →
      q.2 ≠ .maxObjectArrayDepth := by
  induction fuel with
  | zero =>
    intro sc q h
    unfold multilineStringLoop at h
    simp only [Except.error.injEq] at h; subst h; simp
  | succ n ih =>
    intro sc q h
    unfold multilineStringLoop at h
    rcases hp : sc.p with _ | ⟨c, rest⟩ <;> rw [hp] at h
    · simp only [Except.error.injEq] at h; subst h; simp
    · dsimp only at h
      cases hpn : popNewline sc with
      | some sc1 =>
        rw [hpn] at h
        dsimp only at h
        by_cases hm : matchingMarginLength margin sc1.p ≠ margin.length
        · rw [if_pos hm] at h
          simp only [Except.error.injEq] at h; subst h; simp
        · rw [if_neg hm] at h
          exact ih _ q h
      | none =>
        rw [hpn] at h
        by_cases hc0 : c < 0x20
        · rw [if_pos hc0] at h
          exact ih _ q h
        · rw [if_neg hc0] at h
          by_cases hc96 : c = 96
          · rw [if_pos hc96] at h
            by_cases hend : (popB sc 1).p = [] ∨ (popB sc 1).p.headD 0 ≠ 92
            · rw [if_pos hend] at h; simp at h
            · rw [if_neg hend] at h; exact ih _ q h
          · rw [if_neg hc96] at h
            cases hq : qchar sc with
            | error er =>
              rw [hq] at h
              simp only [Except.error.injEq] at h
              subst h
              exact qchar_msg sc er hq
            | ok m => rw [hq] at h; exact ih _ q h

theorem multilineString_msg (sc : Scan) (q : QErr) (h : multilineString sc = .error q) :
    q.2 ≠ .maxObjectArrayDepth := by
  unfold multilineString at h
  rcases hp : sc.p with _ | ⟨c, rest⟩ <;> rw [hp] at h
  · simp at h
  · dsimp only at h
    split at h
    · simp at h
    · split at h
      · simp only [Except.error.injEq] at h; subst h; simp
      · split at h
        · simp only [Except.error.injEq] at h; subst h; simp
        · split at h
          · simp only [Except.error.injEq] at h; subst h; simp
          · cases hnl : popNewline (skipWhitespaces (popB (skipWhitespaces (popB sc 1))
                (newlineSpecifier (skipWhitespaces (popB sc 1)).p))) with
            | some sc3 =>
              rw [hnl] at h
              dsimp only at h
              split at h
              · simp only [Except.error.injEq] at h; subst h; simp
              · split at h
                · simp only [Except.error.injEq] at h; subst h; simp
                · exact multilineStringLoop_msg _ _ _ _ q h
            | none =>
              rw [hnl] at h
              cases hlc : skipLineComment (skipWhitespaces (popB (skipWhitespaces (popB sc 1))
                  (newlineSpecifier (skipWhitespaces (popB sc 1)).p))) with
              | error er =>
                rw [hlc] at h
                dsimp only at h
                simp only [Except.error.injEq] at h
                subst h
                exact skipLineComment_msg _ er hlc
              | ok r =>
                rw [hlc] at h
                match r with
                | (true, sc3) =>
                  dsimp only at h
                  split at h
                  · simp only [Except.error.injEq] at h; subst h; simp
                  · split at h
                    · simp only [Except.error.injEq] at h; subst h; simp
                    · exact multilineStringLoop_msg _ _ _ _ q h
                | (false, sc3) =>
                  dsimp only at h
                  simp only [Except.error.injEq] at h; subst h; simp

theorem quotelessStringLoop_msg (startB : Nat) (fuel : Nat) :
    ∀ (sc : Scan) (endIdx : Nat) (q : QErr),
      quotelessStringLoop startB fuel sc endIdx = .error q →
      q.2 ≠ .maxObjectArrayDepth := by
  induction fuel with
  | zero =>
    intro sc endIdx q h
    unfold quotelessStringLoop at h
    simp only [Except.error.injEq] at h; subst h; simp
  | succ n ih =>
    intro sc endIdx q h
    unfold quotelessStringLoop at h
    rcases hp : sc.p with _ | ⟨c, rest⟩ <;> rw [hp] at h
    · simp at h
    · dsimp only at h
      split at h
      · exact ih _ _ q h
      · split at h
        · split at h
          · simp at h
          · exact ih _ _ q h
        · cases hq : qchar sc with
          | error er =>
            rw [hq] at h
            simp only [Except.error.injEq] at h
            subst h
            exact qchar_msg sc er hq
          | ok m => rw [hq] at h; exact ih _ _ q h

theorem quotelessString_msg (sc : Scan) (q : QErr) (h : quotelessString sc = .error q) :
    q.2 ≠ .maxObjectArrayDepth := quotelessStringLoop_msg _ _ sc _ q h

theorem tkTagTable_ne_error (c : Nat) : tkTagTable c ≠ .error := by
  unfold tkTagTable
  split_ifs <;> simp

theorem nextTokenCore_tokOk (sc : Scan) (tk : Token) (sc' : Scan)
    (h : nextTokenCore sc = some (tk, sc')) : tokOk tk := by
  unfold nextTokenCore at h
  cases hss : skipSpaces sc with
  | error q =>
    rw [hss] at h
    simp only [Option.some.injEq, Prod.mk.injEq] at h
    rw [← h.1]
    exact ⟨rfl, skipSpaces_msg sc q hss⟩
  | ok sc1 =>
    rw [hss] at h
    dsimp only at h
    by_cases hemp : sc1.p = []
    · rw [if_pos hemp] at h
      simp only [Option.some.injEq, Prod.mk.injEq] at h
      rw [← h.1]
      exact ⟨rfl, by simp⟩
    · rw [if_neg hemp] at h
      match hp : sc1.p, hemp with
      | c :: rest, _ =>
        have hdel : delimiter sc1 =
            (tkTagTable c, if tkTagTable c = .unknown then sc1 else popB sc1 1) := by
          unfold delimiter
          rw [hp]
          dsimp only
          split <;> simp_all
        rw [hdel] at h
        by_cases hunk : tkTagTable c = Tag.unknown
        · rw [if_pos hunk] at h
          revert h
          rw [hunk]
          dsimp only
          intro h
          cases hdq : doubleQuotedString sc1 with
          | error q =>
            rw [hdq] at h
            simp only [Option.some.injEq, Prod.mk.injEq] at h
            rw [← h.1]
            exact ⟨rfl, doubleQuotedString_msg sc1 q hdq⟩
          | ok rdq =>
            rw [hdq] at h
            match rdq with
            | (some (st, ln), sc2) =>
              simp only [Option.some.injEq, Prod.mk.injEq] at h
              rw [← h.1]
              simp [tokOk]
            | (none, scx) =>
              dsimp only at h
              cases hsq : singleQuotedString sc1 with
              | error q =>
                rw [hsq] at h
                simp only [Option.some.injEq, Prod.mk.injEq] at h
                rw [← h.1]
                exact ⟨rfl, singleQuotedString_msg sc1 q hsq⟩
              | ok rsq =>
                rw [hsq] at h
                match rsq with
                | (some (st, ln), sc2) =>
                  simp only [Option.some.injEq, Prod.mk.injEq] at h
                  rw [← h.1]
                  simp [tokOk]
                | (none, scx) =>
                  dsimp only at h
                  cases hml : multilineString sc1 with
                  | error q =>
                    rw [hml] at h
                    simp only [Option.some.injEq, Prod.mk.injEq] at h
                    rw [← h.1]
                    exact ⟨rfl, multilineString_msg sc1 q hml⟩
                  | ok rml =>
                    rw [hml] at h
                    match rml with
                    | (some (st, ln), sc2) =>
                      simp only [Option.some.injEq, Prod.mk.injEq] at h
                      rw [← h.1]
                      simp [tokOk]
                    | (none, scx) =>
                      dsimp only at h
                      cases hql : quotelessString sc1 with
                      | error q =>
                        rw [hql] at h
                        simp only [Option.some.injEq, Prod.mk.injEq] at h
                        rw [← h.1]
                        exact ⟨rfl, quotelessString_msg sc1 q hql⟩
                      | ok rql =>
                        rw [hql] at h
                        match rql with
                        | (some (st, ln), sc2) =>
                          simp only [Option.some.injEq, Prod.mk.injEq] at h
                          rw [← h.1]
                          simp [tokOk]
                        | (none, scr) => simp at h
        · rw [if_neg hunk] at h
          revert h
          have hne := tkTagTable_ne_error c
          match tkTagTable c, hunk, hne with
          | .error, _, hne2 => exact absurd rfl hne2
          | .integerVal, _, _ =>
            intro h
            simp only [Option.some.injEq, Prod.mk.injEq] at h
            rw [← h.1]; simp [tokOk]
          | .decimalVal, _, _ =>
            intro h
            simp only [Option.some.injEq, Prod.mk.injEq] at h
            rw [← h.1]; simp [tokOk]
          | .plus, _, _ =>
            intro h
            simp only [Option.some.injEq, Prod.mk.injEq] at h
            rw [← h.1]; simp [tokOk]
          | .minus, _, _ =>
            intro h
            simp only [Option.some.injEq, Prod.mk.injEq] at h
            rw [← h.1]; simp [tokOk]
          | .multiplication, _, _ =>
            intro h
            simp only [Option.some.injEq, Prod.mk.injEq] at h
            rw [← h.1]; simp [tokOk]
          | .division, _, _ =>
            intro h
            simp only [Option.some.injEq, Prod.mk.injEq] at h
            rw [← h.1]; simp [tokOk]
          | .xor, _, _ =>
            intro h
            simp only [Option.some.injEq, Prod.mk.injEq] at h
            rw [← h.1]; simp [tokOk]
          | .and, _, _ =>
            intro h
            simp only [Option.some.injEq, Prod.mk.injEq] at h
            rw [← h.1]; simp [tokOk]
          | .or, _, _ =>
            intro h
            simp only [Option.some.injEq, Prod.mk.injEq] at h
            rw [← h.1]; simp [tokOk]
          | .inverse, _, _ =>
            intro h
            simp only [Option.some.injEq, Prod.mk.injEq] at h
            rw [← h.1]; simp [tokOk]
          | .modulo, _, _ =>
            intro h
            simp only [Option.some.injEq, Prod.mk.injEq] at h
            rw [← h.1]; simp [tokOk]
          | .openParen, _, _ =>
            intro h
            simp only [Option.some.injEq, Prod.mk.injEq] at h
            rw [← h.1]; simp [tokOk]
          | .closeParen, _, _ =>
            intro h
            simp only [Option.some.injEq, Prod.mk.injEq] at h
            rw [← h.1]; simp [tokOk]
          | .weeks, _, _ =>
            intro h
            simp only [Option.some.injEq, Prod.mk.injEq] at h
            rw [← h.1]; simp [tokOk]
          | .days, _, _ =>
            intro h
            simp only [Option.some.injEq, Prod.mk.injEq] at h
            rw [← h.1]; simp [tokOk]
          | .hours, _, _ =>
            intro h
            simp only [Option.some.injEq, Prod.mk.injEq] at h
            rw [← h.1]; simp [tokOk]
          | .minutes, _, _ =>
            intro h
            simp only [Option.some.injEq, Prod.mk.injEq] at h
            rw [← h.1]; simp [tokOk]
          | .seconds, _, _ =>
            intro h
            simp only [Option.some.injEq, Prod.mk.injEq] at h
            rw [← h.1]; simp [tokOk]
          | .openBrace, _, _ =>
            intro h
            simp only [Option.some.injEq, Prod.mk.injEq] at h
            rw [← h.1]; simp [tokOk]
          | .closeBrace, _, _ =>
            intro h
            simp only [Option.some.injEq, Prod.mk.injEq] at h
            rw [← h.1]; simp [tokOk]
          | .openSquare, _, _ =>
            intro h
            simp only [Option.some.injEq, Prod.mk.injEq] at h
            rw [← h.1]; simp [tokOk]
          | .closeSquare, _, _ =>
            intro h
            simp only [Option.some.injEq, Prod.mk.injEq] at h
            rw [← h.1]; simp [tokOk]
          | .colon, _, _ =>
            intro h
            simp only [Option.some.injEq, Prod.mk.injEq] at h
            rw [← h.1]; simp [tokOk]
          | .quotelessString, _, _ =>
            intro h
            simp only [Option.some.injEq, Prod.mk.injEq] at h
            rw [← h.1]; simp [tokOk]
          | .doubleQuotedString, _, _ =>
            intro h
            simp only [Option.some.injEq, Prod.mk.injEq] at h
            rw [← h.1]; simp [tokOk]
          | .singleQuotedString, _, _ =>
            intro h
            simp only [Option.some.injEq, Prod.mk.injEq] at h
            rw [← h.1]; simp [tokOk]
          | .multilineString, _, _ =>
            intro h
            simp only [Option.some.injEq, Prod.mk.injEq] at h
            rw [← h.1]; simp [tokOk]
          | .comma, _, _ =>
            intro h
            simp only [Option.some.injEq, Prod.mk.injEq] at h
            rw [← h.1]; simp [tokOk]


/-! ### Numeric evaluator error messages

No numeric-evaluator error message is `too many object or array
encapsulations` either. -/

theorem numPopB_tk (e : NumEngine) (n : Nat) : (numPopB e n).tk = e.tk := rfl

theorem nextOperator_ok (e e2 : NumEngine) (h : nextOperator e = some e2) :
    numTokOk e2.tk := by
  unfold nextOperator at h
  dsimp only at h
  split at h
  · simp at h
  · simp only [Option.some.injEq] at h
    subst h
    simp [numTokOk, numPopB]

theorem nextBinValue_ok (e e2 : NumEngine) (h : nextBinValue e = some e2) :
    numTokOk e2.tk := by
  unfold nextBinValue at h
  dsimp only at h
  split at h
  · simp at h
  · split at h
    · simp only [Option.some.injEq] at h; subst h; simp [numTokOk]
    · split at h
      · simp only [Option.some.injEq] at h; subst h; simp [numTokOk]
      · simp only [Option.some.injEq] at h; subst h; simp [numTokOk, numPopB]

theorem nextOctValue_ok (e e2 : NumEngine) (h : nextOctValue e = some e2) :
    numTokOk e2.tk := by
  unfold nextOctValue at h
  dsimp only at h
  split at h
  · simp at h
  · split at h
    · simp only [Option.some.injEq] at h; subst h; simp [numTokOk]
    · split at h
      · simp only [Option.some.injEq] at h; subst h; simp [numTokOk]
      · simp only [Option.some.injEq] at h; subst h; simp [numTokOk, numPopB]

theorem nextIntValue_ok (e e2 : NumEngine) (h : nextIntValue e = some e2) :
    numTokOk e2.tk := by
  unfold nextIntValue at h
  dsimp only at h
  split at h
  · simp at h
  · split at h
    · simp only [Option.some.injEq] at h; subst h; simp [numTokOk]
    · split at h
      · simp only [Option.some.injEq] at h; subst h; simp [numTokOk]
      · simp only [Option.some.injEq] at h; subst h; simp [numTokOk, numPopB]

theorem nextHexValue_ok (e e2 : NumEngine) (h : nextHexValue e = some e2) :
    numTokOk e2.tk := by
  unfold nextHexValue at h
  dsimp only at h
  split at h
  · simp at h
  · split at h
    · simp only [Option.some.injEq] at h; subst h; simp [numTokOk]
    · split at h
      · simp only [Option.some.injEq] at h; subst h; simp [numTokOk]
      · simp only [Option.some.injEq] at h; subst h; simp [numTokOk, numPopB]

theorem nextDecValue_ok (e e2 : NumEngine) (h : nextDecValue e = some e2) :
    numTokOk e2.tk := by
  unfold nextDecValue at h
  dsimp only at h
  split at h
  · simp at h
  · split at h
    · simp only [Option.some.injEq] at h; subst h; simp [numTokOk]
    · split at h
      · simp only [Option.some.injEq] at h; subst h; simp [numTokOk]
      · simp only [Option.some.injEq] at h; subst h; simp [numTokOk, numPopB]

theorem nextISODateTimeValue_ok (e e2 : NumEngine) (h : nextISODateTimeValue e = some e2) :
    numTokOk e2.tk := by
  unfold nextISODateTimeValue at h
  dsimp only at h
  split at h
  · simp at h
  · split at h
    · simp only [Option.some.injEq] at h; subst h; simp [numTokOk]
    · split at h
      · simp only [Option.some.injEq] at h; subst h; simp [numTokOk]
      · simp only [Option.some.injEq] at h; subst h; simp [numTokOk, numPopB]

theorem numSkipWsLoop_tk (fuel : Nat) : ∀ e : NumEngine, (numSkipWsLoop fuel e).tk = e.tk := by
  induction fuel with
  | zero => intro e; rfl
  | succ n ih =>
    intro e
    unfold numSkipWsLoop
    dsimp only
    split
    · rfl
    · rw [ih]
      rfl

theorem numNextToken_ok (e : NumEngine) (he : numTokOk e.tk) :
    numTokOk (numNextToken e).tk := by
  unfold numNextToken
  split
  · exact he
  · dsimp only
    split
    · simp [numTokOk]
    · cases h1 : nextOperator (numSkipWs e) with
      | some e2 => exact nextOperator_ok _ e2 h1
      | none =>
        cases h2 : nextISODateTimeValue (numSkipWs e) with
        | some e2 => exact nextISODateTimeValue_ok _ e2 h2
        | none =>
          cases h3 : nextBinValue (numSkipWs e) with
          | some e2 => exact nextBinValue_ok _ e2 h3
          | none =>
            cases h4 : nextHexValue (numSkipWs e) with
            | some e2 => exact nextHexValue_ok _ e2 h4
            | none =>
              cases h5 : nextDecValue (numSkipWs e) with
              | some e2 => exact nextDecValue_ok _ e2 h5
              | none =>
                cases h6 : nextOctValue (numSkipWs e) with
                | some e2 => exact nextOctValue_ok _ e2 h6
                | none =>
                  cases h7 : nextIntValue (numSkipWs e) with
                  | some e2 => exact nextIntValue_ok _ e2 h7
                  | none => simp [numTokOk]

theorem numEngineInit_ok (inp : List Nat) : numTokOk (numEngineInit inp).tk :=
  numNextToken_ok _ (by simp [numTokOk])

theorem fixEOI_ok (t : NumToken) (ht : numTokOk t) : numTokOk (fixEOI t) := by
  unfold fixEOI
  split
  · simp [numTokOk]
  · exact ht

theorem toDoubleTok_ok (t : NumToken) (ht : numTokOk t) : numTokOk (toDoubleTok t) := by
  unfold toDoubleTok
  split
  · simp [numTokOk]
  · exact ht

theorem normalizeTypes_ok (v1 v2 : NumToken) (h1 : numTokOk v1) (h2 : numTokOk v2) :
    numTokOk (normalizeTypes v1 v2).1 ∧ numTokOk (normalizeTypes v1 v2).2 := by
  unfold normalizeTypes
  split
  · exact ⟨by simp [numTokOk], h2⟩
  · exact ⟨h1, by simp [numTokOk]⟩
  · exact ⟨h1, h2⟩

theorem nudEvalF_ok (sub : NumEngine → Nat → NumToken × NumEngine)
    (hsub : ∀ e r, numTokOk e.tk → numTokOk (sub e r).1 ∧ numTokOk (sub e r).2.tk)
    (e : NumEngine) (t : NumToken) (ht : numTokOk t) (he : numTokOk e.tk) :
    numTokOk (nudEvalF sub e t).1 ∧ numTokOk (nudEvalF sub e t).2.tk := by
  unfold nudEvalF
  split
  · exact ⟨ht, he⟩
  · exact ⟨ht, he⟩
  · exact ⟨fixEOI_ok _ (hsub e _ he).1, (hsub e _ he).2⟩
  · obtain ⟨h1, h2⟩ := hsub e (highestPrecedence + 1) he
    dsimp only
    split
    · exact ⟨fixEOI_ok _ h1, h2⟩
    · split
      · exact ⟨by simp [numTokOk], h2⟩
      · exact ⟨by simp [numTokOk], h2⟩
      · exact ⟨h1, h2⟩
  · obtain ⟨h1, h2⟩ := hsub e (highestPrecedence + 1) he
    dsimp only
    split
    · exact ⟨fixEOI_ok _ h1, h2⟩
    · split
      · exact ⟨by simp [numTokOk], h2⟩
      · exact ⟨by simp [numTokOk], h2⟩
      · exact ⟨h1, h2⟩
  · obtain ⟨h1, h2⟩ := hsub e (precedenceTable .openParen) he
    dsimp only
    split
    · exact ⟨fixEOI_ok _ h1, h2⟩
    · split
      · exact ⟨by simp [numTokOk], h2⟩
      · exact ⟨h1, numNextToken_ok _ h2⟩
  · exact ⟨by simp [numTokOk], he⟩
  · exact ⟨by simp [numTokOk], he⟩

theorem ledDurationF_ok (sub : NumEngine → Nat → NumToken × NumEngine)
    (hsub : ∀ e r, numTokOk e.tk → numTokOk (sub e r).1 ∧ numTokOk (sub e r).2.tk)
    (e : NumEngine) (left : NumToken) (dur : Frac) (rbp : Nat)
    (hl : numTokOk left) (he : numTokOk e.tk) :
    numTokOk (ledDurationF sub e left dur rbp).1 ∧
      numTokOk (ledDurationF sub e left dur rbp).2.tk := by
  unfold ledDurationF
  dsimp only
  split
  · split
    · exact ⟨by simp [numTokOk], he⟩
    · exact ⟨toDoubleTok_ok left hl, he⟩
  · obtain ⟨h1, h2⟩ := hsub e rbp he
    split
    · split
      · split
        · exact ⟨by simp [numTokOk], h2⟩
        · exact ⟨toDoubleTok_ok left hl, h2⟩
      · exact ⟨h1, h2⟩
    · split
      · exact ⟨by simp [numTokOk], h2⟩
      · exact ⟨by simp [numTokOk], h2⟩

theorem ledEvalF_ok (sub : NumEngine → Nat → NumToken × NumEngine)
    (hsub : ∀ e r, numTokOk e.tk → numTokOk (sub e r).1 ∧ numTokOk (sub e r).2.tk)
    (e : NumEngine) (t left : NumToken) (hl : numTokOk left) (he : numTokOk e.tk) :
    numTokOk (ledEvalF sub e t left).1 ∧ numTokOk (ledEvalF sub e t left).2.tk := by
  unfold ledEvalF
  split
  case _ => -- plus
    obtain ⟨h1, h2⟩ := hsub e (precedenceTable .plus) he
    dsimp only
    split
    · exact ⟨fixEOI_ok _ h1, h2⟩
    · have hn := normalizeTypes_ok left _ hl h1
      split
      · exact ⟨by simp [numTokOk], h2⟩
      · exact ⟨by simp [numTokOk], h2⟩
      · exact ⟨by simp [numTokOk], h2⟩
  case _ =>
    obtain ⟨h1, h2⟩ := hsub e (precedenceTable .minus) he
    dsimp only
    split
    · exact ⟨fixEOI_ok _ h1, h2⟩
    · split
      · exact ⟨by simp [numTokOk], h2⟩
      · exact ⟨by simp [numTokOk], h2⟩
      · exact ⟨by simp [numTokOk], h2⟩
  case _ =>
    obtain ⟨h1, h2⟩ := hsub e (precedenceTable .multiplication) he
    dsimp only
    split
    · exact ⟨fixEOI_ok _ h1, h2⟩
    · split
      · exact ⟨by simp [numTokOk], h2⟩
      · exact ⟨by simp [numTokOk], h2⟩
      · exact ⟨by simp [numTokOk], h2⟩
  case _ =>
    obtain ⟨h1, h2⟩ := hsub e (precedenceTable .division) he
    dsimp only
    split
    · exact ⟨fixEOI_ok _ h1, h2⟩
    · split
      · split
        · exact ⟨by simp [numTokOk], h2⟩
        · exact ⟨by simp [numTokOk], h2⟩
      · split
        · exact ⟨by simp [numTokOk], h2⟩
        · exact ⟨by simp [numTokOk], h2⟩
      · exact ⟨by simp [numTokOk], h2⟩
  case _ =>
    obtain ⟨h1, h2⟩ := hsub e (precedenceTable .modulo) he
    dsimp only
    split
    · exact ⟨fixEOI_ok _ h1, h2⟩
    · split
      · split
        · exact ⟨by simp [numTokOk], h2⟩
        · exact ⟨by simp [numTokOk], h2⟩
      · exact ⟨by simp [numTokOk], h2⟩
  case _ =>
    obtain ⟨h1, h2⟩ := hsub e (precedenceTable .and) he
    dsimp only
    split
    · exact ⟨fixEOI_ok _ h1, h2⟩
    · split
      · exact ⟨by simp [numTokOk], h2⟩
      · exact ⟨by simp [numTokOk], h2⟩
  case _ =>
    obtain ⟨h1, h2⟩ := hsub e (precedenceTable .or) he
    dsimp only
    split
    · exact ⟨fixEOI_ok _ h1, h2⟩
    · split
      · exact ⟨by simp [numTokOk], h2⟩
      · exact ⟨by simp [numTokOk], h2⟩
  case _ =>
    obtain ⟨h1, h2⟩ := hsub e (precedenceTable .xor) he
    dsimp only
    split
    · exact ⟨fixEOI_ok _ h1, h2⟩
    · split
      · exact ⟨by simp [numTokOk], h2⟩
      · exact ⟨by simp [numTokOk], h2⟩
  case _ => exact ledDurationF_ok sub hsub e left _ _ hl he
  case _ => exact ledDurationF_ok sub hsub e left _ _ hl he
  case _ => exact ledDurationF_ok sub hsub e left _ _ hl he
  case _ => exact ledDurationF_ok sub hsub e left _ _ hl he
  case _ => exact ledDurationF_ok sub hsub e left _ _ hl he
  case _ => exact ⟨by simp [numTokOk], he⟩

theorem exprLoopF_ok (sub : NumEngine → Nat → NumToken × NumEngine)
    (hsub : ∀ e r, numTokOk e.tk → numTokOk (sub e r).1 ∧ numTokOk (sub e r).2.tk)
    (fuel : Nat) :
    ∀ (e : NumEngine) (rbp : Nat) (left : NumToken), numTokOk left → numTokOk e.tk →
      numTokOk (exprLoopF sub fuel e rbp left).1 ∧
        numTokOk (exprLoopF sub fuel e rbp left).2.tk := by
  induction fuel with
  | zero =>
    intro e rbp left hl he
    unfold exprLoopF
    exact ⟨by simp [numTokOk], he⟩
  | succ n ih =>
    intro e rbp left hl he
    unfold exprLoopF
    dsimp only
    split
    · have h1 := ledEvalF_ok sub hsub (numNextToken e) e.tk left hl (numNextToken_ok e he)
      exact ih _ rbp _ h1.1 h1.2
    · exact ⟨hl, he⟩

theorem expression_ok (fuel : Nat) :
    ∀ (e : NumEngine) (rbp : Nat), numTokOk e.tk →
      numTokOk (expression fuel e rbp).1 ∧ numTokOk (expression fuel e rbp).2.tk := by
  induction fuel with
  | zero =>
    intro e rbp he
    unfold expression
    exact ⟨by simp [numTokOk], he⟩
  | succ n ih =>
    intro e rbp he
    unfold expression
    dsimp only
    split
    · exact ⟨he, he⟩
    · have hs : ∀ (e2 : NumEngine) (r2 : Nat), numTokOk e2.tk →
          numTokOk (expression n e2 r2).1 ∧ numTokOk (expression n e2 r2).2.tk :=
        fun e2 r2 h2 => ih e2 r2 h2
      have h1 := nudEvalF_ok _ hs (numNextToken e) e.tk he (numNextToken_ok e he)
      exact (exprLoopF_ok _ hs n _ rbp _ h1.1 h1.2)

theorem evalNumberExpression_ok (inp : List Nat) : numTokOk (evalNumberExpression inp) := by
  unfold evalNumberExpression
  dsimp only
  have h := expression_ok (inp.length * 2 + 16) (numEngineInit inp) 0 (numEngineInit_ok inp)
  split
  · simp [numTokOk]
  · exact h.1

theorem numErrMsg_ok (inp : List Nat) :
    numErrMsg (evalNumberExpression inp) ≠ .maxObjectArrayDepth := by
  have h := evalNumberExpression_ok inp
  unfold numErrMsg
  split
  · intro hc
    subst hc
    exact h (by assumption)
  · simp


/-! ### The depth-error invariant of the conversion engine

`engOk` couples the current token with the ghost `maxd` field: an error
token always carries a message, a non-error token never does, and the token
carries the depth message exactly when the parser attempted to enter depth
201.  Every function of the structural parser preserves it; claim C5 reads
the final engine through it. -/

theorem tokOk_engParts (tk : Token) (h : tokOk tk) :
    ((∀ m, tk.val = .emsg m → tk.tag = .error) ∧ (tk.tag = .error → ∃ m, tk.val = .emsg m)) ∧
      ∀ m, tk.val = .emsg m → m ≠ .maxObjectArrayDepth := by
  rcases tk with ⟨tag, pos, val⟩
  unfold tokOk at h
  cases val with
  | nothing =>
    refine ⟨⟨fun m hm => by simp at hm, fun ht => absurd ht h⟩, fun m hm => by simp at hm⟩
  | str st ln =>
    refine ⟨⟨fun m hm => by simp at hm, fun ht => absurd ht h⟩, fun m hm => by simp at hm⟩
  | emsg m0 =>
    refine ⟨⟨fun m hm => h.1, fun ht => ⟨m0, rfl⟩⟩, fun m hm => ?_⟩
    simp only [TokenVal.emsg.injEq] at hm
    subst hm
    exact h.2

theorem tkMsg_none (e : Engine) (h1 : ∀ m, e.tk.val = .emsg m → e.tk.tag = .error)
    (ht : e.tk.tag ≠ .error) : tkMsg e = none := by
  unfold tkMsg
  cases hv : e.tk.val with
  | nothing => rfl
  | str st ln => rfl
  | emsg m => exact absurd (h1 m hv) ht

theorem engOk_maxd_le (e : Engine) (he : engOk e)
    (hmsg : tkMsg e ≠ some ErrMsg.maxObjectArrayDepth) : ¬ maxDepth < e.maxd :=
  fun hd => hmsg (he.2.2.mpr hd)

theorem engOk_maxd_le_of_tag (e : Engine) (he : engOk e) (ht : e.tk.tag ≠ .error) :
    ¬ maxDepth < e.maxd := by
  apply engOk_maxd_le e he
  rw [tkMsg_none e he.1 ht]
  simp

theorem tkMsg_setErrorAndPos (e : Engine) (m : ErrMsg) (pos : Pos) :
    tkMsg (setErrorAndPos e m pos) = some m := rfl

theorem done_setErrorAndPos (e : Engine) (m : ErrMsg) (pos : Pos) :
    done (setErrorAndPos e m pos) = true := rfl

theorem depth_setErrorAndPos (e : Engine) (m : ErrMsg) (pos : Pos) :
    (setErrorAndPos e m pos).depth = e.depth := rfl

theorem engOk_setErrorAndPos (e : Engine) (m : ErrMsg) (pos : Pos)
    (hm : m ≠ .maxObjectArrayDepth) (hd : ¬ maxDepth < e.maxd) :
    engOk (setErrorAndPos e m pos) := by
  refine ⟨fun m' _ => rfl, fun _ => ⟨m, rfl⟩, ?_⟩
  rw [tkMsg_setErrorAndPos]
  simp only [Option.some.injEq]
  exact ⟨fun hc => absurd hc hm, fun hc => absurd hc hd⟩

theorem engOk_setError (e : Engine) (m : ErrMsg)
    (hm : m ≠ .maxObjectArrayDepth) (hd : ¬ maxDepth < e.maxd) :
    engOk (setError e m) := engOk_setErrorAndPos e m e.scan.pos hm hd

theorem engOk_depthError (e : Engine) (hd : maxDepth < e.maxd) :
    engOk (setError e .maxObjectArrayDepth) := by
  refine ⟨fun m' _ => rfl, fun _ => ⟨_, rfl⟩, ?_⟩
  rw [setError, tkMsg_setErrorAndPos]
  simp only [Option.some.injEq]
  exact ⟨fun _ => hd, fun _ => trivial⟩

theorem nextToken_depth (e : Engine) : (nextToken e).depth = e.depth := by
  unfold nextToken
  split
  · rfl
  · split <;> rfl

theorem nextToken_of_error (e : Engine) (h : e.tk.tag = .error) : nextToken e = e := by
  unfold nextToken
  rw [if_pos h]

theorem engOk_nextToken (e : Engine) (he : engOk e) : engOk (nextToken e) := by
  unfold nextToken
  split
  · exact he
  · rename_i ht
    cases hc : nextTokenCore e.scan with
    | none => exact he
    | some p =>
      rcases p with ⟨tk2, sc2⟩
      obtain ⟨⟨h1, h2⟩, h3⟩ := tokOk_engParts tk2 (nextTokenCore_tokOk e.scan tk2 sc2 hc)
      refine ⟨h1, h2, ?_⟩
      have hmax : ¬ maxDepth < e.maxd := engOk_maxd_le_of_tag e he ht
      have hmsg : tkMsg { e with scan := sc2, tk := tk2 } ≠ some ErrMsg.maxObjectArrayDepth := by
        unfold tkMsg
        dsimp only
        cases hv : tk2.val with
        | nothing => simp
        | str st ln => simp
        | emsg m => simpa using h3 m hv
      exact ⟨fun hc2 => absurd hc2 hmsg, fun hc2 => absurd hc2 hmax⟩

theorem engOk_outputByte (e : Engine) (c : Nat) (he : engOk e) : engOk (outputByte e c) := he

theorem engOk_outputString (e : Engine) (s : List Nat) (he : engOk e) :
    engOk (outputString e s) := he


theorem outputDQLoop_engOk (str : List Nat) (tpos : Pos) (fuel : Nat) :
    ∀ (i : Nat) (e : Engine), e.tk.tag ≠ .error → engOk e →
      engOk (outputDQLoop str tpos fuel i e) := by
  induction fuel with
  | zero => intro i e _ he; exact he
  | succ n ih =>
    intro i e ht he
    unfold outputDQLoop
    dsimp only
    split
    · exact he
    · split
      · refine ih _ _ ?_ ?_
        · split <;> exact ht
        · split <;> exact he
      · split
        · exact ih _ _ ht he
        · split
          · split
            · exact ih _ _ ht he
            · exact engOk_setErrorAndPos _ _ _ (by simp) (engOk_maxd_le_of_tag e he ht)
          · exact ih _ _ ht he

theorem outputDQLoop_depth (str : List Nat) (tpos : Pos) (fuel : Nat) :
    ∀ (i : Nat) (e : Engine), (outputDQLoop str tpos fuel i e).depth = e.depth := by
  induction fuel with
  | zero => intro i e; rfl
  | succ n ih =>
    intro i e
    unfold outputDQLoop
    dsimp only
    split
    · rfl
    · split
      · rw [ih]; split <;> rfl
      · split
        · rw [ih]; rfl
        · split
          · split
            · rw [ih]; rfl
            · rfl
          · rw [ih]; rfl

theorem outputDoubleQuotedString_engOk (e : Engine) (ht : e.tk.tag ≠ .error) (he : engOk e) :
    engOk (outputDoubleQuotedString e) :=
  outputDQLoop_engOk _ _ _ _ _ ht he

theorem outputDoubleQuotedString_depth (e : Engine) :
    (outputDoubleQuotedString e).depth = e.depth :=
  outputDQLoop_depth _ _ _ _ _

theorem outputSQLoop_engOk (str : List Nat) (tpos : Pos) (fuel : Nat) :
    ∀ (i : Nat) (e : Engine), e.tk.tag ≠ .error → engOk e →
      engOk (outputSQLoop str tpos fuel i e) := by
  induction fuel with
  | zero => intro i e _ he; exact he
  | succ n ih =>
    intro i e ht he
    unfold outputSQLoop
    dsimp only
    split
    · exact he
    · split
      · refine ih _ _ ?_ ?_
        · split <;> exact ht
        · split <;> exact he
      · split
        · exact ih _ _ ht he
        · split
          · split
            · split
              · exact ih _ _ ht he
              · exact ih _ _ ht he
            · exact engOk_setErrorAndPos _ _ _ (by simp) (engOk_maxd_le_of_tag e he ht)
          · split
            · exact ih _ _ ht he
            · exact ih _ _ ht he

theorem outputSQLoop_depth (str : List Nat) (tpos : Pos) (fuel : Nat) :
    ∀ (i : Nat) (e : Engine), (outputSQLoop str tpos fuel i e).depth = e.depth := by
  induction fuel with
  | zero => intro i e; rfl
  | succ n ih =>
    intro i e
    unfold outputSQLoop
    dsimp only
    split
    · rfl
    · split
      · rw [ih]; split <;> rfl
      · split
        · rw [ih]; rfl
        · split
          · split
            · split <;> rw [ih]; rfl
            · rfl
          · split
            · rw [ih]; rfl
            · rw [ih]; rfl

theorem outputSingleQuotedString_engOk (e : Engine) (ht : e.tk.tag ≠ .error) (he : engOk e) :
    engOk (outputSingleQuotedString e) :=
  outputSQLoop_engOk _ _ _ _ _ ht he

theorem outputSingleQuotedString_depth (e : Engine) :
    (outputSingleQuotedString e).depth = e.depth :=
  outputSQLoop_depth _ _ _ _ _

theorem outputQLLoop_engOk (str : List Nat) (fuel : Nat) :
    ∀ (i : Nat) (e : Engine), engOk e → engOk (outputQLLoop str fuel i e) := by
  induction fuel with
  | zero => intro i e he; exact he
  | succ n ih =>
    intro i e he
    unfold outputQLLoop
    dsimp only
    split
    · exact he
    · split
      · exact ih _ _ he
      · split
        · exact ih _ _ he
        · split
          · refine ih _ _ ?_
            split <;> exact he
          · split
            · exact ih _ _ he
            · exact ih _ _ he

theorem outputQLLoop_depth (str : List Nat) (fuel : Nat) :
    ∀ (i : Nat) (e : Engine), (outputQLLoop str fuel i e).depth = e.depth := by
  induction fuel with
  | zero => intro i e; rfl
  | succ n ih =>
    intro i e
    unfold outputQLLoop
    dsimp only
    split
    · rfl
    · split
      · rw [ih]; rfl
      · split
        · rw [ih]; rfl
        · split
          · rw [ih]; split <;> rfl
          · split
            · rw [ih]; rfl
            · rw [ih]; rfl

theorem outputQuotelessString_engOk (e : Engine) (he : engOk e) :
    engOk (outputQuotelessString e) :=
  outputQLLoop_engOk _ _ _ _ he

theorem outputQuotelessString_depth (e : Engine) :
    (outputQuotelessString e).depth = e.depth :=
  outputQLLoop_depth _ _ _ _

theorem outputMLLoop_engOk (margin nl : List Nat) (fuel : Nat) :
    ∀ (str : List Nat) (e : Engine), engOk e → engOk (outputMLLoop margin nl fuel str e) := by
  induction fuel with
  | zero => intro str e he; exact he
  | succ n ih =>
    intro str e he
    unfold outputMLLoop
    cases str with
    | nil => exact he
    | cons c rest =>
      dsimp only
      split
      · exact ih _ _ he
      · split
        · refine ih _ _ ?_
          split
          · exact he
          · split
            · exact he
            · split
              · exact he
              · split <;> exact he
        · split
          · refine ih _ _ ?_
            split <;> exact he
          · split
            · exact ih _ _ he
            · split
              · exact ih _ _ he
              · split
                · exact ih _ _ he
                · exact ih _ _ he

theorem outputMLLoop_depth (margin nl : List Nat) (fuel : Nat) :
    ∀ (str : List Nat) (e : Engine), (outputMLLoop margin nl fuel str e).depth = e.depth := by
  induction fuel with
  | zero => intro str e; rfl
  | succ n ih =>
    intro str e
    unfold outputMLLoop
    cases str with
    | nil => rfl
    | cons c rest =>
      dsimp only
      split
      · rw [ih]; rfl
      · split
        · rw [ih]
          split
          · rfl
          · split
            · rfl
            · split
              · rfl
              · split <;> rfl
        · split
          · rw [ih]; split <;> rfl
          · split
            · rw [ih]; rfl
            · split
              · rw [ih]; rfl
              · split
                · rw [ih]; rfl
                · rw [ih]; rfl

theorem outputMultilineString_engOk (e : Engine) (he : engOk e) :
    engOk (outputMultilineString e) := by
  unfold outputMultilineString
  exact outputMLLoop_engOk _ _ _ _ _ he

theorem outputMultilineString_depth (e : Engine) :
    (outputMultilineString e).depth = e.depth := by
  unfold outputMultilineString
  exact outputMLLoop_depth _ _ _ _ _


theorem valueBody_ok (subM subV : Engine → Engine)
    (hsubM : ∀ e2, e2.depth ≤ maxDepth → engOk e2 →
      engOk (subM e2) ∧ ((subM e2).tk.tag ≠ .error → (subM e2).depth = e2.depth))
    (hsubV : ∀ e2, e2.depth ≤ maxDepth → engOk e2 →
      engOk (subV e2) ∧ ((subV e2).tk.tag ≠ .error → (subV e2).depth = e2.depth))
    (e : Engine) (hdep : e.depth ≤ maxDepth) (ht : e.tk.tag ≠ .error) (he : engOk e) :
    engOk (valueBody subM subV e) ∧
      ((valueBody subM subV e).tk.tag ≠ .error → (valueBody subM subV e).depth = e.depth) := by
  have hmax : ¬ maxDepth < e.maxd := engOk_maxd_le_of_tag e he ht
  have dfl : ∀ m : ErrMsg, m ≠ .maxObjectArrayDepth →
      engOk (setError e m) ∧ ((setError e m).tk.tag ≠ .error → (setError e m).depth = e.depth) :=
    fun m hm => ⟨engOk_setError e m hm hmax, fun _ => rfl⟩
  unfold valueBody
  cases hts : e.tk.tag with
  | closeSquare => exact dfl _ (by simp)
  | closeBrace => exact dfl _ (by simp)
  | doubleQuotedString =>
    refine ⟨engOk_nextToken _ (outputDoubleQuotedString_engOk e ht he), fun _ => ?_⟩
    rw [nextToken_depth, outputDoubleQuotedString_depth]
  | singleQuotedString =>
    refine ⟨engOk_nextToken _ (outputSingleQuotedString_engOk e ht he), fun _ => ?_⟩
    rw [nextToken_depth, outputSingleQuotedString_depth]
  | multilineString =>
    refine ⟨engOk_nextToken _ (outputMultilineString_engOk e he), fun _ => ?_⟩
    rw [nextToken_depth, outputMultilineString_depth]
  | quotelessString =>
    dsimp only
    cases hlit : isLiteralValue (sliceBytes e) with
    | some str =>
      refine ⟨engOk_nextToken _ (engOk_outputString e str he), fun _ => ?_⟩
      rw [nextToken_depth]
      rfl
    | none =>
      dsimp only
      split
      · split
        · exact ⟨engOk_setErrorAndPos _ _ _ (numErrMsg_ok (sliceBytes e)) hmax,
            fun h2 => absurd rfl h2⟩
        · refine ⟨engOk_nextToken _ (engOk_outputString e _ he), fun _ => ?_⟩
          rw [nextToken_depth]
          rfl
      · refine ⟨engOk_nextToken _ (outputQuotelessString_engOk e he), fun _ => ?_⟩
        rw [nextToken_depth, outputQuotelessString_depth]
  | openBrace =>
    dsimp only
    have he1 : engOk (nextToken e) := engOk_nextToken e he
    have hd1 : (nextToken e).depth = e.depth := nextToken_depth e
    split
    · rename_i hdone
      split
      · rename_i heoi
        refine ⟨engOk_setErrorAndPos _ _ _ (by simp)
          (engOk_maxd_le _ he1 (by rw [heoi]; simp)), fun h2 => absurd rfl h2⟩
      · exact ⟨he1, fun _ => hd1⟩
    · rename_i hndone
      have ht1 : (nextToken e).tk.tag ≠ .error := by
        intro hc
        exact hndone (by simp [done, hc])
      have hmax1 : ¬ maxDepth < (nextToken e).maxd := engOk_maxd_le_of_tag _ he1 ht1
      split
      · rename_i hdm
        refine ⟨engOk_depthError _ ?_, fun h2 => absurd rfl h2⟩
        show maxDepth < max (nextToken e).maxd ((nextToken e).depth + 1)
        rw [hdm]
        exact lt_of_lt_of_le (Nat.lt_succ_self _) (le_max_right _ _)
      · rename_i hdm
        have hdlt : (nextToken e).depth < maxDepth := lt_of_le_of_ne (hd1 ▸ hdep) hdm
        have hmod : engOk { nextToken e with
            maxd := max (nextToken e).maxd ((nextToken e).depth + 1),
            depth := (nextToken e).depth + 1 } := by
          refine ⟨he1.1, he1.2.1, ?_⟩
          rw [show tkMsg { nextToken e with
              maxd := max (nextToken e).maxd ((nextToken e).depth + 1),
              depth := (nextToken e).depth + 1 } = tkMsg (nextToken e) from rfl]
          rw [tkMsg_none _ he1.1 ht1]
          simp only [show ∀ m : ErrMsg, (none : Option ErrMsg) = some m ↔ False from
            fun m => by simp]
          constructor
          · intro hc; exact hc.elim
          · intro hc
            exact absurd hc (Nat.not_lt.mpr (max_le (Nat.not_lt.mp hmax1)
              (Nat.succ_le_of_lt hdlt)))
        obtain ⟨he2, hdep2⟩ := hsubM _ (Nat.succ_le_of_lt hdlt) hmod
        split
        · rename_i hdone2
          split
          · rename_i heoi2
            refine ⟨engOk_setErrorAndPos _ _ _ (by simp)
              (engOk_maxd_le _ he2 (by rw [heoi2]; simp)), fun h2 => absurd rfl h2⟩
          · refine ⟨he2, fun h2 => ?_⟩
            exact absurd (by simpa [done] using hdone2) h2
        · rename_i hndone2
          refine ⟨engOk_nextToken _ he2, fun _ => ?_⟩
          rw [nextToken_depth]
          have h3 := hdep2 (by
            intro hc
            apply hndone2
            simp only [done]
            dsimp only at hc
            rw [hc]
            rfl)
          dsimp only at h3 ⊢
          omega
  | openSquare =>
    dsimp only
    have he1 : engOk (nextToken e) := engOk_nextToken e he
    have hd1 : (nextToken e).depth = e.depth := nextToken_depth e
    split
    · rename_i hdone
      split
      · rename_i heoi
        refine ⟨engOk_setError _ _ (by simp)
          (engOk_maxd_le _ he1 (by rw [heoi]; simp)), fun h2 => absurd rfl h2⟩
      · exact ⟨he1, fun _ => hd1⟩
    · rename_i hndone
      have ht1 : (nextToken e).tk.tag ≠ .error := by
        intro hc
        exact hndone (by simp [done, hc])
      have hmax1 : ¬ maxDepth < (nextToken e).maxd := engOk_maxd_le_of_tag _ he1 ht1
      split
      · rename_i hdm
        refine ⟨engOk_depthError _ ?_, fun h2 => absurd rfl h2⟩
        show maxDepth < max (nextToken e).maxd ((nextToken e).depth + 1)
        rw [hdm]
        exact lt_of_lt_of_le (Nat.lt_succ_self _) (le_max_right _ _)
      · rename_i hdm
        have hdlt : (nextToken e).depth < maxDepth := lt_of_le_of_ne (hd1 ▸ hdep) hdm
        have hmod : engOk { nextToken e with
            maxd := max (nextToken e).maxd ((nextToken e).depth + 1),
            depth := (nextToken e).depth + 1 } := by
          refine ⟨he1.1, he1.2.1, ?_⟩
          rw [show tkMsg { nextToken e with
              maxd := max (nextToken e).maxd ((nextToken e).depth + 1),
              depth := (nextToken e).depth + 1 } = tkMsg (nextToken e) from rfl]
          rw [tkMsg_none _ he1.1 ht1]
          simp only [show ∀ m : ErrMsg, (none : Option ErrMsg) = some m ↔ False from
            fun m => by simp]
          constructor
          · intro hc; exact hc.elim
          · intro hc
            exact absurd hc (Nat.not_lt.mpr (max_le (Nat.not_lt.mp hmax1)
              (Nat.succ_le_of_lt hdlt)))
        obtain ⟨he2, hdep2⟩ := hsubV _ (Nat.succ_le_of_lt hdlt) hmod
        split
        · rename_i hdone2
          split
          · rename_i heoi2
            refine ⟨engOk_setErrorAndPos _ _ _ (by simp)
              (engOk_maxd_le _ he2 (by rw [heoi2]; simp)), fun h2 => absurd rfl h2⟩
          · refine ⟨he2, fun h2 => ?_⟩
            exact absurd (by simpa [done] using hdone2) h2
        · rename_i hndone2
          refine ⟨engOk_nextToken _ he2, fun _ => ?_⟩
          rw [nextToken_depth]
          have h3 := hdep2 (by
            intro hc
            apply hndone2
            simp only [done]
            dsimp only at hc
            rw [hc]
            rfl)
          dsimp only at h3 ⊢
          omega
  | unknown => exact dfl _ (by simp)
  | error => exact dfl _ (by simp)
  | integerVal => exact dfl _ (by simp)
  | decimalVal => exact dfl _ (by simp)
  | plus => exact dfl _ (by simp)
  | minus => exact dfl _ (by simp)
  | multiplication => exact dfl _ (by simp)
  | division => exact dfl _ (by simp)
  | xor => exact dfl _ (by simp)
  | and => exact dfl _ (by simp)
  | or => exact dfl _ (by simp)
  | inverse => exact dfl _ (by simp)
  | modulo => exact dfl _ (by simp)
  | openParen => exact dfl _ (by simp)
  | closeParen => exact dfl _ (by simp)
  | weeks => exact dfl _ (by simp)
  | days => exact dfl _ (by simp)
  | hours => exact dfl _ (by simp)
  | minutes => exact dfl _ (by simp)
  | seconds => exact dfl _ (by simp)
  | colon => exact dfl _ (by simp)
  | comma => exact dfl _ (by simp)


theorem done_setError (e : Engine) (m : ErrMsg) : done (setError e m) = true := rfl

theorem tkMsg_setError (e : Engine) (m : ErrMsg) : tkMsg (setError e m) = some m := rfl

theorem nextToken_setError (e : Engine) (m : ErrMsg) :
    nextToken (setError e m) = setError e m := nextToken_of_error _ rfl

theorem memberF_ok (subV : Engine → Engine)
    (hsubV : ∀ e2, e2.depth ≤ maxDepth → e2.tk.tag ≠ .error → engOk e2 →
      engOk (subV e2) ∧ ((subV e2).tk.tag ≠ .error → (subV e2).depth = e2.depth))
    (e : Engine) (hdep : e.depth ≤ maxDepth) (ht : e.tk.tag ≠ .error) (he : engOk e) :
    engOk (memberF subV e) ∧
      ((memberF subV e).tk.tag ≠ .error → (memberF subV e).depth = e.depth) := by
  have hmax : ¬ maxDepth < e.maxd := engOk_maxd_le_of_tag e he ht
  have cont : ∀ e1 : Engine, engOk e1 → e1.depth = e.depth →
      engOk (if done (nextToken e1) = true then
          if tkMsg (nextToken e1) = some ErrMsg.endOfInput then
            setError (nextToken e1) .unexpectedEndOfInput
          else nextToken e1
        else if (nextToken e1).tk.tag ≠ Tag.colon then setError (nextToken e1) .expectColon
        else if done (nextToken (outputByte (nextToken e1) 58)) = true then
          if tkMsg (nextToken (outputByte (nextToken e1) 58)) = some ErrMsg.endOfInput then
            setError (nextToken (outputByte (nextToken e1) 58)) .unexpectedEndOfInput
          else nextToken (outputByte (nextToken e1) 58)
        else subV (nextToken (outputByte (nextToken e1) 58))) ∧
        (((if done (nextToken e1) = true then
          if tkMsg (nextToken e1) = some ErrMsg.endOfInput then
            setError (nextToken e1) .unexpectedEndOfInput
          else nextToken e1
        else if (nextToken e1).tk.tag ≠ Tag.colon then setError (nextToken e1) .expectColon
        else if done (nextToken (outputByte (nextToken e1) 58)) = true then
          if tkMsg (nextToken (outputByte (nextToken e1) 58)) = some ErrMsg.endOfInput then
            setError (nextToken (outputByte (nextToken e1) 58)) .unexpectedEndOfInput
          else nextToken (outputByte (nextToken e1) 58)
        else subV (nextToken (outputByte (nextToken e1) 58))).tk.tag ≠ .error) →
        (if done (nextToken e1) = true then
          if tkMsg (nextToken e1) = some ErrMsg.endOfInput then
            setError (nextToken e1) .unexpectedEndOfInput
          else nextToken e1
        else if (nextToken e1).tk.tag ≠ Tag.colon then setError (nextToken e1) .expectColon
        else if done (nextToken (outputByte (nextToken e1) 58)) = true then
          if tkMsg (nextToken (outputByte (nextToken e1) 58)) = some ErrMsg.endOfInput then
            setError (nextToken (outputByte (nextToken e1) 58)) .unexpectedEndOfInput
          else nextToken (outputByte (nextToken e1) 58)
        else subV (nextToken (outputByte (nextToken e1) 58))).depth = e.depth) := by
    intro e1 he1 hd1
    have he2 : engOk (nextToken e1) := engOk_nextToken _ he1
    have hd2 : (nextToken e1).depth = e.depth := by rw [nextToken_depth, hd1]
    split
    · rename_i hdone2
      split
      · rename_i heoi2
        exact ⟨engOk_setError _ _ (by simp) (engOk_maxd_le _ he2 (by rw [heoi2]; simp)),
          fun h2 => absurd rfl h2⟩
      · exact ⟨he2, fun h2 => absurd (by simpa [done] using hdone2) h2⟩
    · rename_i hndone2
      have ht2 : (nextToken e1).tk.tag ≠ .error := fun hc => hndone2 (by simp [done, hc])
      split
      · exact ⟨engOk_setError _ _ (by simp) (engOk_maxd_le_of_tag _ he2 ht2),
          fun h2 => absurd rfl h2⟩
      · have he3 : engOk (nextToken (outputByte (nextToken e1) 58)) := engOk_nextToken _ he2
        have hd3 : (nextToken (outputByte (nextToken e1) 58)).depth = e.depth := by
          rw [nextToken_depth]
          exact hd2
        split
        · rename_i hdone3
          split
          · rename_i heoi3
            exact ⟨engOk_setError _ _ (by simp) (engOk_maxd_le _ he3 (by rw [heoi3]; simp)),
              fun h2 => absurd rfl h2⟩
          · exact ⟨he3, fun h2 => absurd (by simpa [done] using hdone3) h2⟩
        · rename_i hndone3
          have ht3 : (nextToken (outputByte (nextToken e1) 58)).tk.tag ≠ .error :=
            fun hc => hndone3 (by simp [done, hc])
          obtain ⟨ha, hb⟩ := hsubV _ (by rw [hd3]; exact hdep) ht3 he3
          exact ⟨ha, fun h2 => by rw [hb h2, hd3]⟩
  unfold memberF
  split
  · exact ⟨engOk_setError _ _ (by simp) hmax, fun _ => rfl⟩
  · split
    · exact cont (outputDoubleQuotedString e) (outputDoubleQuotedString_engOk e ht he)
        (outputDoubleQuotedString_depth e)
    · exact cont (outputSingleQuotedString e) (outputSingleQuotedString_engOk e ht he)
        (outputSingleQuotedString_depth e)
    · exact cont (outputQuotelessString e) (outputQuotelessString_engOk e he)
        (outputQuotelessString_depth e)
    · exact cont (setError e .expectStringIdentifier) (engOk_setError e _ (by simp) hmax) rfl


theorem valuesLoopF_ok (subV : Engine → Engine)
    (hsubV : ∀ e2, e2.depth ≤ maxDepth → e2.tk.tag ≠ .error → engOk e2 →
      engOk (subV e2) ∧ ((subV e2).tk.tag ≠ .error → (subV e2).depth = e2.depth))
    (fuel : Nat) :
    ∀ (notFirst : Bool) (e : Engine), e.depth ≤ maxDepth → engOk e →
      engOk (valuesLoopF subV fuel notFirst e) ∧
        ((valuesLoopF subV fuel notFirst e).tk.tag ≠ .error →
          (valuesLoopF subV fuel notFirst e).depth = e.depth) := by
  induction fuel with
  | zero =>
    intro notFirst e hdep he
    unfold valuesLoopF
    split
    · exact ⟨he, fun _ => rfl⟩
    · rename_i hnd
      have ht : e.tk.tag ≠ .error := fun hc => hnd (by simp [done, hc])
      exact ⟨engOk_setError _ _ (by simp) (engOk_maxd_le_of_tag e he ht), fun _ => rfl⟩
  | succ n ih =>
    intro notFirst e hdep he
    unfold valuesLoopF
    dsimp only
    have tail : ∀ X : Engine, engOk X → X.tk.tag ≠ .error → X.depth = e.depth →
        engOk (if done (subV X) = true then subV X else valuesLoopF subV n true (subV X)) ∧
          ((if done (subV X) = true then subV X
            else valuesLoopF subV n true (subV X)).tk.tag ≠ .error →
            (if done (subV X) = true then subV X
              else valuesLoopF subV n true (subV X)).depth = e.depth) := by
      intro X hX htX hdX
      obtain ⟨ha, hb⟩ := hsubV X (by rw [hdX]; exact hdep) htX hX
      split
      · rename_i hdone3
        exact ⟨ha, fun h2 => absurd (by simpa [done] using hdone3) h2⟩
      · rename_i hndone3
        have ht3 : (subV X).tk.tag ≠ .error := fun hc => hndone3 (by simp [done, hc])
        have hd3 : (subV X).depth = e.depth := by rw [hb ht3, hdX]
        obtain ⟨hc1, hc2⟩ := ih true (subV X) (by rw [hd3]; exact hdep) ha
        exact ⟨hc1, fun h2 => by rw [hc2 h2, hd3]⟩
    split
    · rename_i hcond
      have ht : e.tk.tag ≠ .error := fun hc => hcond.1 (by simp [done, hc])
      split
      · split
        · have he2 : engOk (nextToken (outputByte e 44)) := engOk_nextToken _ he
          have hd2 : (nextToken (outputByte e 44)).depth = e.depth := nextToken_depth _
          split
          · rename_i hdone2
            split
            · rename_i heoi2
              exact ⟨engOk_setError _ _ (by simp)
                (engOk_maxd_le _ he2 (by rw [heoi2]; simp)), fun h2 => absurd rfl h2⟩
            · exact ⟨he2, fun h2 => absurd (by simpa [done] using hdone2) h2⟩
          · rename_i hndone2
            have ht2 : (nextToken (outputByte e 44)).tk.tag ≠ .error :=
              fun hc => hndone2 (by simp [done, hc])
            split
            · exact ⟨engOk_setError _ _ (by simp) (engOk_maxd_le_of_tag _ he2 ht2),
                fun h2 => absurd rfl h2⟩
            · exact tail _ he2 ht2 hd2
        · exact tail (outputByte e 44) he ht rfl
      · exact tail e he ht rfl
    · exact ⟨he, fun _ => rfl⟩

theorem valuesF_ok (subV : Engine → Engine)
    (hsubV : ∀ e2, e2.depth ≤ maxDepth → e2.tk.tag ≠ .error → engOk e2 →
      engOk (subV e2) ∧ ((subV e2).tk.tag ≠ .error → (subV e2).depth = e2.depth))
    (fuel : Nat) (e : Engine) (hdep : e.depth ≤ maxDepth) (he : engOk e) :
    engOk (valuesF subV fuel e) ∧
      ((valuesF subV fuel e).tk.tag ≠ .error → (valuesF subV fuel e).depth = e.depth) := by
  unfold valuesF
  obtain ⟨ha, hb⟩ := valuesLoopF_ok subV hsubV fuel false (outputByte e 91) hdep he
  exact ⟨ha, fun h2 => hb h2⟩

theorem membersLoopF_ok (subM : Engine → Engine)
    (hsubM : ∀ e2, e2.depth ≤ maxDepth → e2.tk.tag ≠ .error → engOk e2 →
      engOk (subM e2) ∧ ((subM e2).tk.tag ≠ .error → (subM e2).depth = e2.depth))
    (fuel : Nat) :
    ∀ (notFirst : Bool) (e : Engine), e.depth ≤ maxDepth → engOk e →
      engOk (membersLoopF subM fuel notFirst e) ∧
        ((membersLoopF subM fuel notFirst e).tk.tag ≠ .error →
          (membersLoopF subM fuel notFirst e).depth = e.depth) := by
  induction fuel with
  | zero =>
    intro notFirst e hdep he
    unfold membersLoopF
    split
    · exact ⟨he, fun _ => rfl⟩
    · rename_i hnd
      have ht : e.tk.tag ≠ .error := fun hc => hnd (by simp [done, hc])
      exact ⟨engOk_setError _ _ (by simp) (engOk_maxd_le_of_tag e he ht), fun _ => rfl⟩
  | succ n ih =>
    intro notFirst e hdep he
    unfold membersLoopF
    dsimp only
    have tail : ∀ X : Engine, engOk X → X.tk.tag ≠ .error → X.depth = e.depth →
        engOk (if done (subM X) = true then subM X else membersLoopF subM n true (subM X)) ∧
          ((if done (subM X) = true then subM X
            else membersLoopF subM n true (subM X)).tk.tag ≠ .error →
            (if done (subM X) = true then subM X
              else membersLoopF subM n true (subM X)).depth = e.depth) := by
      intro X hX htX hdX
      obtain ⟨ha, hb⟩ := hsubM X (by rw [hdX]; exact hdep) htX hX
      split
      · rename_i hdone3
        exact ⟨ha, fun h2 => absurd (by simpa [done] using hdone3) h2⟩
      · rename_i hndone3
        have ht3 : (subM X).tk.tag ≠ .error := fun hc => hndone3 (by simp [done, hc])
        have hd3 : (subM X).depth = e.depth := by rw [hb ht3, hdX]
        obtain ⟨hc1, hc2⟩ := ih true (subM X) (by rw [hd3]; exact hdep) ha
        exact ⟨hc1, fun h2 => by rw [hc2 h2, hd3]⟩
    split
    · rename_i hcond
      have ht : e.tk.tag ≠ .error := fun hc => hcond.1 (by simp [done, hc])
      split
      · split
        · have he2 : engOk (nextToken (outputByte e 44)) := engOk_nextToken _ he
          have hd2 : (nextToken (outputByte e 44)).depth = e.depth := nextToken_depth _
          split
          · rename_i hdone2
            split
            · rename_i heoi2
              exact ⟨engOk_setError _ _ (by simp)
                (engOk_maxd_le _ he2 (by rw [heoi2]; simp)), fun h2 => absurd rfl h2⟩
            · exact ⟨he2, fun h2 => absurd (by simpa [done] using hdone2) h2⟩
          · rename_i hndone2
            have ht2 : (nextToken (outputByte e 44)).tk.tag ≠ .error :=
              fun hc => hndone2 (by simp [done, hc])
            split
            · exact ⟨engOk_setError _ _ (by simp) (engOk_maxd_le_of_tag _ he2 ht2),
                fun h2 => absurd rfl h2⟩
            · exact tail _ he2 ht2 hd2
        · exact tail (outputByte e 44) he ht rfl
      · exact tail e he ht rfl
    · exact ⟨he, fun _ => rfl⟩

theorem membersF_ok (subM : Engine → Engine)
    (hsubM : ∀ e2, e2.depth ≤ maxDepth → e2.tk.tag ≠ .error → engOk e2 →
      engOk (subM e2) ∧ ((subM e2).tk.tag ≠ .error → (subM e2).depth = e2.depth))
    (fuel : Nat) (e : Engine) (hdep : e.depth ≤ maxDepth) (he : engOk e) :
    engOk (membersF subM fuel e) ∧
      ((membersF subM fuel e).tk.tag ≠ .error → (membersF subM fuel e).depth = e.depth) := by
  unfold membersF
  obtain ⟨ha, hb⟩ := membersLoopF_ok subM hsubM fuel false (outputByte e 123) hdep he
  exact ⟨ha, fun h2 => hb h2⟩

theorem value_ok (fuel : Nat) :
    ∀ e : Engine, e.depth ≤ maxDepth → e.tk.tag ≠ .error → engOk e →
      engOk (value fuel e) ∧ ((value fuel e).tk.tag ≠ .error → (value fuel e).depth = e.depth) := by
  induction fuel with
  | zero =>
    intro e hdep ht he
    unfold value
    rw [if_neg (by simp [done, ht])]
    exact ⟨engOk_setError _ _ (by simp) (engOk_maxd_le_of_tag e he ht), fun _ => rfl⟩
  | succ n ih =>
    intro e hdep ht he
    unfold value
    exact valueBody_ok _ _
      (fun e2 hdep2 he2 =>
        membersF_ok _ (fun e3 h3 t3 k3 => memberF_ok _ (fun e4 h4 t4 k4 => ih e4 h4 t4 k4)
          e3 h3 t3 k3) n e2 hdep2 he2)
      (fun e2 hdep2 he2 =>
        valuesF_ok _ (fun e3 h3 t3 k3 => ih e3 h3 t3 k3) n e2 hdep2 he2)
      e hdep ht he

theorem initEngine_engOk (inp : List Nat) : engOk (initEngine inp) := by
  refine ⟨fun m hm => ?_, fun ht => ?_, ?_⟩
  · simp [initEngine] at hm
  · simp [initEngine] at ht
  · constructor
    · intro hc
      simp [tkMsg, initEngine] at hc
    · intro hc
      simp [initEngine, maxDepth] at hc

theorem qjson_decodeEngine_ok (inp : List Nat) : engOk (qjson_decodeEngine inp) := by
  have h1 : engOk (nextToken (initEngine inp)) := engOk_nextToken _ (initEngine_engOk inp)
  have hdep : (nextToken (initEngine inp)).depth ≤ maxDepth := by
    rw [nextToken_depth]
    exact Nat.zero_le _
  have h2 := membersF_ok (memberF fun e2 => value (4 * inp.length + 16) e2)
    (fun e3 h3 t3 k3 => memberF_ok _
      (fun e4 h4 t4 k4 => value_ok (4 * inp.length + 16) e4 h4 t4 k4) e3 h3 t3 k3)
    (4 * inp.length + 16) (nextToken (initEngine inp)) hdep h1
  unfold qjson_decodeEngine members
  dsimp only
  split
  · rename_i hcb
    refine ⟨fun m hm => rfl, fun _ => ⟨_, rfl⟩, ?_⟩
    have hd := engOk_maxd_le_of_tag _ h2.1 (by rw [hcb]; simp)
    constructor
    · intro hcc
      simp [tkMsg] at hcc
    · intro hcc
      exact absurd hcc hd
  · exact h2.1

/-- Claim C5: the decoder reports `too many object or array encapsulations`
exactly when the parser attempted to enter object/array nesting depth 201
(the top level being an implicit object at depth 0): the ghost field `maxd`
records the largest nesting depth the parser attempted to enter, and the
final token carries the depth message if and only if `maxd` exceeds
`maxDepth = 200`.  In particular an input whose nesting stays at or below
200 can never produce that message, and every attempt to exceed 200 does. -/
theorem claim_C5_depth_error : ∀ inp : List Nat,
    tkMsg (qjson_decodeEngine inp) = some ErrMsg.maxObjectArrayDepth ↔
      maxDepth < (qjson_decodeEngine inp).maxd :=
  fun inp => (qjson_decodeEngine_ok inp).2.2


/-! ### Output shape

The parser only ever appends to the output buffer, the buffer of the
top-level object starts with `{`, and the final token always carries a
message; claim C1 reads the decoder's result through these. -/

theorem setErrorAndPos_out (e : Engine) (m : ErrMsg) (pos : Pos) :
    (setErrorAndPos e m pos).out = e.out := rfl

theorem setError_out (e : Engine) (m : ErrMsg) : (setError e m).out = e.out := rfl

theorem nextToken_out (e : Engine) : (nextToken e).out = e.out := by
  unfold nextToken
  split
  · rfl
  · split <;> rfl

theorem prefix_app1 (l a : List Nat) : l <+: l ++ a := List.prefix_append _ _

theorem prefix_app2 (l a b : List Nat) : l <+: (l ++ a) ++ b := by
  rw [List.append_assoc]
  exact List.prefix_append _ _

theorem outputDQLoop_out (str : List Nat) (tpos : Pos) (fuel : Nat) :
    ∀ (i : Nat) (e : Engine), e.out <+: (outputDQLoop str tpos fuel i e).out := by
  induction fuel with
  | zero => intro i e; exact List.prefix_rfl
  | succ n ih =>
    intro i e
    unfold outputDQLoop
    dsimp only
    split
    · exact prefix_app1 _ _
    · split
      · refine List.IsPrefix.trans ?_ (ih _ _)
        split
        · exact prefix_app2 _ _ _
        · exact prefix_app1 _ _
      · split
        · refine List.IsPrefix.trans ?_ (ih _ _)
          exact prefix_app2 _ _ _
        · split
          · split
            · refine List.IsPrefix.trans ?_ (ih _ _)
              exact prefix_app1 _ _
            · exact List.prefix_rfl
          · refine List.IsPrefix.trans ?_ (ih _ _)
            exact prefix_app1 _ _

theorem outputDoubleQuotedString_out (e : Engine) :
    e.out <+: (outputDoubleQuotedString e).out := by
  unfold outputDoubleQuotedString
  refine List.IsPrefix.trans ?_ (outputDQLoop_out _ _ _ _ _)
  exact prefix_app1 _ _

theorem outputSQLoop_out (str : List Nat) (tpos : Pos) (fuel : Nat) :
    ∀ (i : Nat) (e : Engine), e.out <+: (outputSQLoop str tpos fuel i e).out := by
  induction fuel with
  | zero => intro i e; exact List.prefix_rfl
  | succ n ih =>
    intro i e
    unfold outputSQLoop
    dsimp only
    split
    · exact prefix_app1 _ _
    · split
      · refine List.IsPrefix.trans ?_ (ih _ _)
        split
        · exact prefix_app2 _ _ _
        · exact prefix_app1 _ _
      · split
        · refine List.IsPrefix.trans ?_ (ih _ _)
          exact prefix_app2 _ _ _
        · split
          · split
            · split
              · refine List.IsPrefix.trans ?_ (ih _ _)
                exact List.prefix_rfl
              · refine List.IsPrefix.trans ?_ (ih _ _)
                exact prefix_app1 _ _
            · exact List.prefix_rfl
          · split
            · refine List.IsPrefix.trans ?_ (ih _ _)
              exact prefix_app2 _ _ _
            · refine List.IsPrefix.trans ?_ (ih _ _)
              exact prefix_app1 _ _

theorem outputSingleQuotedString_out (e : Engine) :
    e.out <+: (outputSingleQuotedString e).out := by
  unfold outputSingleQuotedString
  refine List.IsPrefix.trans ?_ (outputSQLoop_out _ _ _ _ _)
  exact prefix_app1 _ _

theorem outputQLLoop_out (str : List Nat) (fuel : Nat) :
    ∀ (i : Nat) (e : Engine), e.out <+: (outputQLLoop str fuel i e).out := by
  induction fuel with
  | zero => intro i e; exact List.prefix_rfl
  | succ n ih =>
    intro i e
    unfold outputQLLoop
    dsimp only
    split
    · exact prefix_app1 _ _
    · split
      · refine List.IsPrefix.trans ?_ (ih _ _)
        exact prefix_app2 _ _ _
      · split
        · refine List.IsPrefix.trans ?_ (ih _ _)
          exact prefix_app2 _ _ _
        · split
          · refine List.IsPrefix.trans ?_ (ih _ _)
            split
            · exact prefix_app2 _ _ _
            · exact prefix_app1 _ _
          · split
            · refine List.IsPrefix.trans ?_ (ih _ _)
              exact prefix_app2 _ _ _
            · refine List.IsPrefix.trans ?_ (ih _ _)
              exact prefix_app1 _ _

theorem outputQuotelessString_out (e : Engine) :
    e.out <+: (outputQuotelessString e).out := by
  unfold outputQuotelessString
  refine List.IsPrefix.trans ?_ (outputQLLoop_out _ _ _ _)
  exact prefix_app1 _ _

theorem outputMLLoop_out (margin nl : List Nat) (fuel : Nat) :
    ∀ (str : List Nat) (e : Engine), e.out <+: (outputMLLoop margin nl fuel str e).out := by
  induction fuel with
  | zero => intro str e; exact List.prefix_rfl
  | succ n ih =>
    intro str e
    unfold outputMLLoop
    cases str with
    | nil => exact prefix_app1 _ _
    | cons c rest =>
      dsimp only
      split
      · refine List.IsPrefix.trans ?_ (ih _ _)
        exact prefix_app1 _ _
      · split
        · refine List.IsPrefix.trans ?_ (ih _ _)
          split
          · exact prefix_app1 _ _
          · split
            · exact prefix_app1 _ _
            · split
              · exact prefix_app1 _ _
              · split <;> exact prefix_app1 _ _
        · split
          · refine List.IsPrefix.trans ?_ (ih _ _)
            split
            · exact prefix_app2 _ _ _
            · exact prefix_app1 _ _
          · split
            · refine List.IsPrefix.trans ?_ (ih _ _)
              exact prefix_app1 _ _
            · split
              · refine List.IsPrefix.trans ?_ (ih _ _)
                exact prefix_app1 _ _
              · split
                · refine List.IsPrefix.trans ?_ (ih _ _)
                  exact prefix_app1 _ _
                · refine List.IsPrefix.trans ?_ (ih _ _)
                  exact prefix_app1 _ _

theorem outputMultilineString_out (e : Engine) :
    e.out <+: (outputMultilineString e).out := by
  unfold outputMultilineString
  refine List.IsPrefix.trans ?_ (outputMLLoop_out _ _ _ _ _)
  exact prefix_app1 _ _


theorem valueBody_out (subM subV : Engine → Engine)
    (hsubM : ∀ e2, e2.out <+: (subM e2).out)
    (hsubV : ∀ e2, e2.out <+: (subV e2).out)
    (e : Engine) : e.out <+: (valueBody subM subV e).out := by
  unfold valueBody
  cases hts : e.tk.tag with
  | closeSquare => exact List.prefix_rfl
  | closeBrace => exact List.prefix_rfl
  | doubleQuotedString =>
    rw [nextToken_out]
    exact outputDoubleQuotedString_out e
  | singleQuotedString =>
    rw [nextToken_out]
    exact outputSingleQuotedString_out e
  | multilineString =>
    rw [nextToken_out]
    exact outputMultilineString_out e
  | quotelessString =>
    dsimp only
    cases hlit : isLiteralValue (sliceBytes e) with
    | some str =>
      rw [nextToken_out]
      exact prefix_app1 _ _
    | none =>
      dsimp only
      split
      · split
        · exact List.prefix_rfl
        · rw [nextToken_out]
          exact prefix_app1 _ _
      · rw [nextToken_out]
        exact outputQuotelessString_out e
  | openBrace =>
    dsimp only
    split
    · split
      · rw [setErrorAndPos_out, nextToken_out]
      · rw [nextToken_out]
    · split
      · rw [setError_out]
        dsimp only
        rw [nextToken_out]
      · split
        · split
          · rw [setErrorAndPos_out]
            refine List.IsPrefix.trans ?_ (hsubM _)
            dsimp only
            rw [nextToken_out]
          · refine List.IsPrefix.trans ?_ (hsubM _)
            dsimp only
            rw [nextToken_out]
        · rw [nextToken_out]
          refine List.IsPrefix.trans ?_ (hsubM _)
          dsimp only
          rw [nextToken_out]
  | openSquare =>
    dsimp only
    split
    · split
      · rw [setError_out, nextToken_out]
      · rw [nextToken_out]
    · split
      · rw [setError_out]
        dsimp only
        rw [nextToken_out]
      · split
        · split
          · rw [setErrorAndPos_out]
            refine List.IsPrefix.trans ?_ (hsubV _)
            dsimp only
            rw [nextToken_out]
          · refine List.IsPrefix.trans ?_ (hsubV _)
            dsimp only
            rw [nextToken_out]
        · rw [nextToken_out]
          refine List.IsPrefix.trans ?_ (hsubV _)
          dsimp only
          rw [nextToken_out]
  | unknown => exact List.prefix_rfl
  | error => exact List.prefix_rfl
  | integerVal => exact List.prefix_rfl
  | decimalVal => exact List.prefix_rfl
  | plus => exact List.prefix_rfl
  | minus => exact List.prefix_rfl
  | multiplication => exact List.prefix_rfl
  | division => exact List.prefix_rfl
  | xor => exact List.prefix_rfl
  | and => exact List.prefix_rfl
  | or => exact List.prefix_rfl
  | inverse => exact List.prefix_rfl
  | modulo => exact List.prefix_rfl
  | openParen => exact List.prefix_rfl
  | closeParen => exact List.prefix_rfl
  | weeks => exact List.prefix_rfl
  | days => exact List.prefix_rfl
  | hours => exact List.prefix_rfl
  | minutes => exact List.prefix_rfl
  | seconds => exact List.prefix_rfl
  | colon => exact List.prefix_rfl
  | comma => exact List.prefix_rfl

theorem memberF_out (subV : Engine → Engine)
    (hsubV : ∀ e2, e2.out <+: (subV e2).out)
    (e : Engine) : e.out <+: (memberF subV e).out := by
  have cont : ∀ e1 : Engine, e.out <+: e1.out →
      e.out <+: (if done (nextToken e1) = true then
          if tkMsg (nextToken e1) = some ErrMsg.endOfInput then
            setError (nextToken e1) .unexpectedEndOfInput
          else nextToken e1
        else if (nextToken e1).tk.tag ≠ Tag.colon then setError (nextToken e1) .expectColon
        else if done (nextToken (outputByte (nextToken e1) 58)) = true then
          if tkMsg (nextToken (outputByte (nextToken e1) 58)) = some ErrMsg.endOfInput then
            setError (nextToken (outputByte (nextToken e1) 58)) .unexpectedEndOfInput
          else nextToken (outputByte (nextToken e1) 58)
        else subV (nextToken (outputByte (nextToken e1) 58))).out := by
    intro e1 h1
    split
    · split
      · rw [setError_out, nextToken_out]
        exact h1
      · rw [nextToken_out]
        exact h1
    · split
      · rw [setError_out, nextToken_out]
        exact h1
      · have h3 : e.out <+: (nextToken (outputByte (nextToken e1) 58)).out := by
          rw [nextToken_out]
          refine List.IsPrefix.trans h1 ?_
          rw [← nextToken_out e1]
          exact prefix_app1 _ _
        split
        · split
          · rw [setError_out]
            exact h3
          · exact h3
        · exact List.IsPrefix.trans h3 (hsubV _)
  unfold memberF
  split
  · exact List.prefix_rfl
  · split
    · exact cont _ (outputDoubleQuotedString_out e)
    · exact cont _ (outputSingleQuotedString_out e)
    · exact cont _ (outputQuotelessString_out e)
    · exact cont _ List.prefix_rfl

theorem valuesLoopF_out (subV : Engine → Engine)
    (hsubV : ∀ e2, e2.out <+: (subV e2).out) (fuel : Nat) :
    ∀ (notFirst : Bool) (e : Engine), e.out <+: (valuesLoopF subV fuel notFirst e).out := by
  induction fuel with
  | zero =>
    intro notFirst e
    unfold valuesLoopF
    split
    · exact List.prefix_rfl
    · exact List.prefix_rfl
  | succ n ih =>
    intro notFirst e
    unfold valuesLoopF
    dsimp only
    have tail : ∀ X : Engine, e.out <+: X.out →
        e.out <+: (if done (subV X) = true then subV X
          else valuesLoopF subV n true (subV X)).out := by
      intro X hX
      have h2 : e.out <+: (subV X).out := List.IsPrefix.trans hX (hsubV X)
      split
      · exact h2
      · exact List.IsPrefix.trans h2 (ih true (subV X))
    split
    · split
      · split
        · split
          · split
            · rw [setError_out, nextToken_out]
              exact prefix_app1 _ _
            · rw [nextToken_out]
              exact prefix_app1 _ _
          · split
            · rw [setError_out, nextToken_out]
              exact prefix_app1 _ _
            · refine tail _ ?_
              rw [nextToken_out]
              exact prefix_app1 _ _
        · exact tail _ (prefix_app1 _ _)
      · exact tail _ List.prefix_rfl
    · exact List.prefix_rfl

theorem valuesF_out (subV : Engine → Engine)
    (hsubV : ∀ e2, e2.out <+: (subV e2).out) (fuel : Nat) (e : Engine) :
    e.out <+: (valuesF subV fuel e).out := by
  unfold valuesF
  refine List.IsPrefix.trans ?_ (prefix_app1 _ _)
  refine List.IsPrefix.trans ?_ (valuesLoopF_out subV hsubV fuel false (outputByte e 91))
  exact prefix_app1 _ _

theorem membersLoopF_out (subM : Engine → Engine)
    (hsubM : ∀ e2, e2.out <+: (subM e2).out) (fuel : Nat) :
    ∀ (notFirst : Bool) (e : Engine), e.out <+: (membersLoopF subM fuel notFirst e).out := by
  induction fuel with
  | zero =>
    intro notFirst e
    unfold membersLoopF
    split
    · exact List.prefix_rfl
    · exact List.prefix_rfl
  | succ n ih =>
    intro notFirst e
    unfold membersLoopF
    dsimp only
    have tail : ∀ X : Engine, e.out <+: X.out →
        e.out <+: (if done (subM X) = true then subM X
          else membersLoopF subM n true (subM X)).out := by
      intro X hX
      have h2 : e.out <+: (subM X).out := List.IsPrefix.trans hX (hsubM X)
      split
      · exact h2
      · exact List.IsPrefix.trans h2 (ih true (subM X))
    split
    · split
      · split
        · split
          · split
            · rw [setError_out, nextToken_out]
              exact prefix_app1 _ _
            · rw [nextToken_out]
              exact prefix_app1 _ _
          · split
            · rw [setError_out, nextToken_out]
              exact prefix_app1 _ _
            · refine tail _ ?_
              rw [nextToken_out]
              exact prefix_app1 _ _
        · exact tail _ (prefix_app1 _ _)
      · exact tail _ List.prefix_rfl
    · exact List.prefix_rfl

theorem membersF_out (subM : Engine → Engine)
    (hsubM : ∀ e2, e2.out <+: (subM e2).out) (fuel : Nat) (e : Engine) :
    e.out <+: (membersF subM fuel e).out := by
  unfold membersF
  refine List.IsPrefix.trans ?_ (prefix_app1 _ _)
  refine List.IsPrefix.trans ?_ (membersLoopF_out subM hsubM fuel false (outputByte e 123))
  exact prefix_app1 _ _

theorem value_out (fuel : Nat) : ∀ e : Engine, e.out <+: (value fuel e).out := by
  induction fuel with
  | zero =>
    intro e
    unfold value
    split
    · exact List.prefix_rfl
    · exact List.prefix_rfl
  | succ n ih =>
    intro e
    unfold value
    exact valueBody_out _ _
      (fun e2 => membersF_out _ (fun e3 => memberF_out _ (fun e4 => ih e4) e3) n e2)
      (fun e2 => valuesF_out _ (fun e3 => ih e3) n e2) e


theorem membersLoopF_exit (subM : Engine → Engine) (fuel : Nat) :
    ∀ (notFirst : Bool) (e : Engine),
      done (membersLoopF subM fuel notFirst e) = true ∨
        (membersLoopF subM fuel notFirst e).tk.tag = .closeBrace := by
  induction fuel with
  | zero =>
    intro b e
    unfold membersLoopF
    split
    · rename_i hd
      exact Or.inl hd
    · exact Or.inl rfl
  | succ n ih =>
    intro b e
    unfold membersLoopF
    dsimp only
    split
    · split
      · split
        · split
          · rename_i hd2
            split
            · exact Or.inl rfl
            · exact Or.inl hd2
          · split
            · exact Or.inl rfl
            · split
              · rename_i hd3
                exact Or.inl hd3
              · exact ih true _
        · split
          · rename_i hd3
            exact Or.inl hd3
          · exact ih true _
      · split
        · rename_i hd3
          exact Or.inl hd3
        · exact ih true _
    · rename_i hcond
      by_cases hd : done e = true
      · exact Or.inl hd
      · right
        by_contra hcb
        exact hcond ⟨hd, hcb⟩

theorem members_engOk (fuel : Nat) (e : Engine) (hdep : e.depth ≤ maxDepth) (he : engOk e) :
    engOk (members fuel e) := by
  unfold members
  exact (membersF_ok _ (fun e3 h3 t3 k3 => memberF_ok _
    (fun e4 h4 t4 k4 => value_ok fuel e4 h4 t4 k4) e3 h3 t3 k3) fuel e hdep he).1

theorem qjson_decodeEngine_emsg (inp : List Nat) :
    ∃ m, (qjson_decodeEngine inp).tk.val = .emsg m := by
  have h1 : engOk (nextToken (initEngine inp)) := engOk_nextToken _ (initEngine_engOk inp)
  have hdep : (nextToken (initEngine inp)).depth ≤ maxDepth := by
    rw [nextToken_depth]
    exact Nat.zero_le _
  have hok := members_engOk (4 * inp.length + 16) _ hdep h1
  unfold qjson_decodeEngine
  dsimp only
  split
  · exact ⟨.syntaxError, rfl⟩
  · rename_i hncb
    rcases membersLoopF_exit (memberF fun e2 => value (4 * inp.length + 16) e2)
        (4 * inp.length + 16) false (outputByte (nextToken (initEngine inp)) 123) with hd | hcb
    · apply hok.2.1
      have hth : (membersLoopF (memberF fun e2 => value (4 * inp.length + 16) e2)
          (4 * inp.length + 16) false
          (outputByte (nextToken (initEngine inp)) 123)).tk.tag = .error := by
        simpa [done] using hd
      exact hth
    · exact absurd hcb hncb

theorem qjson_decodeEngine_out (inp : List Nat) :
    ∃ s, (qjson_decodeEngine inp).out = 123 :: s := by
  have hpre : (outputByte (nextToken (initEngine inp)) 123).out <+:
      (members (4 * inp.length + 16) (nextToken (initEngine inp))).out := by
    unfold members membersF
    refine List.IsPrefix.trans ?_ (prefix_app1 _ _)
    exact membersLoopF_out _ (fun e3 => memberF_out _ (fun e4 => value_out _ e4) e3) _ false _
  have hX : (outputByte (nextToken (initEngine inp)) 123).out = [123] := by
    rw [show (outputByte (nextToken (initEngine inp)) 123).out =
      (nextToken (initEngine inp)).out ++ [123] from rfl, nextToken_out]
    rfl
  rw [hX] at hpre
  obtain ⟨t, ht⟩ := hpre
  unfold qjson_decodeEngine
  dsimp only
  split
  · exact ⟨t, by rw [← ht]; rfl⟩
  · exact ⟨t, by rw [← ht]; rfl⟩

theorem errMsg_bytes_ne (m : ErrMsg) : m.bytes ≠ [] ∧ m.bytes.headD 0 ≠ 123 := by
  cases m <;> exact ⟨by decide, by decide⟩

theorem headD_append_ne (l t : List Nat) (h : l ≠ []) : (l ++ t).headD 0 = l.headD 0 := by
  cases l with
  | nil => exact absurd rfl h
  | cons a l2 => rfl

/-- Claim C1: for every input, `decode` returns a NUL-terminated byte
string; decoding the empty input returns `\x7b\x7d`; the first byte of the
output is `\x7b` (123) exactly when no error occurred (that is, the input is
empty or the final token carries the `end of input` success sentinel); and
on failure the output is the diagnostic `<message> at line L col C` with
1-based line `L` and 1-based UTF-8-column `C`, whose message is nonempty and
does not begin with `\x7b`. -/
theorem claim_C1_output_shape : ∀ inp : List Nat,
    (qjson_decode inp).getLast? = some 0 ∧
    (inp = [] → qjson_decode inp = [123, 125, 0]) ∧
    ((qjson_decode inp).headD 0 = 123 ↔
      (inp = [] ∨ tkMsg (qjson_decodeEngine inp) = some ErrMsg.endOfInput)) ∧
    (inp ≠ [] → tkMsg (qjson_decodeEngine inp) ≠ some ErrMsg.endOfInput →
      ∃ (m : ErrMsg) (L C : Nat), 1 ≤ L ∧ 1 ≤ C ∧ m.bytes ≠ [] ∧ m.bytes.headD 0 ≠ 123 ∧
        qjson_decode inp = m.bytes ++ asciiBytes " at line " ++ natBytes L ++
          asciiBytes " col " ++ natBytes C ++ [0]) := by
  intro inp
  by_cases hemp : inp = []
  · subst hemp
    refine ⟨by rfl, fun _ => rfl, ?_, fun hne _ => absurd rfl hne⟩
    constructor
    · intro _
      exact Or.inl rfl
    · intro _
      rfl
  · have hlen : ¬ inp.length = 0 := fun hc => hemp (List.length_eq_zero.mp hc)
    obtain ⟨m, hm⟩ := qjson_decodeEngine_emsg inp
    obtain ⟨s, hs⟩ := qjson_decodeEngine_out inp
    have hmfacts := errMsg_bytes_ne m
    by_cases hsucc : tkMsg (qjson_decodeEngine inp) = some ErrMsg.endOfInput
    · have hdec : qjson_decode inp = (qjson_decodeEngine inp).out ++ [0] := by
        unfold qjson_decode
        rw [if_neg hlen]
        dsimp only
        rw [if_pos hsucc]
      refine ⟨?_, fun hc => absurd hc hemp, ?_, fun _ hc => absurd hsucc hc⟩
      · rw [hdec]
        exact List.getLast?_concat _
      · rw [hdec, hs]
        constructor
        · intro _
          exact Or.inr hsucc
        · intro _
          rfl
    · have hdec : qjson_decode inp = m.bytes ++ asciiBytes " at line " ++
          natBytes ((qjson_decodeEngine inp).tk.pos.l + 1) ++ asciiBytes " col " ++
          natBytes (column ((inp.drop (qjson_decodeEngine inp).tk.pos.s).take
            ((qjson_decodeEngine inp).tk.pos.b - (qjson_decodeEngine inp).tk.pos.s)) + 1) ++
          [0] := by
        unfold qjson_decode
        rw [if_neg hlen]
        dsimp only
        rw [if_neg hsucc, hm]
      refine ⟨?_, fun hc => absurd hc hemp, ?_, fun _ _ => ⟨m, _, _,
        Nat.succ_le_succ (Nat.zero_le _), Nat.succ_le_succ (Nat.zero_le _),
        hmfacts.1, hmfacts.2, hdec⟩⟩
      · rw [hdec]
        exact List.getLast?_concat _
      · rw [hdec]
        constructor
        · intro hc
          simp only [List.append_assoc] at hc
          rw [headD_append_ne _ _ hmfacts.1] at hc
          exact absurd hc hmfacts.2
        · intro hc
          rcases hc with hc | hc
          · exact absurd hc hemp
          · exact absurd hc hsucc

end QJson
